import Mathlib

/-!
Verification of the pubgrub-cpp dependency resolver.

This file shallowly embeds the C++ sources (`include/ranges.h`,
`include/term.h` (Term and Incompatibility), `include/small_map.h`,
`include/provider.h`, `src/solver.cpp`) into Lean and proves or refutes
the claims of the specification against that embedding.

Conventions:
* machine integers (`uint32_t` global indices, `size_t` levels) are `Nat`;
  none of the verified paths can overflow within the claims considered;
* `Id<P>` is represented by the opaque package type `P` itself (it is an
  interned integer in C++; all that matters is decidable equality);
* C++ exceptions (`throw`, failed `assert`, null-pointer dereference) are
  modelled by `Option`/`Except` results, `none` meaning the operation
  aborts the program;
* `std::unordered_map` (used only as the spill representation of
  `SmallMap` and modelled by a key-unique association list) exposes only
  key-based operations here, so its unspecified iteration order is not
  observable by any verified statement except `Incompatibility::relation`,
  whose order dependence is discussed at claim C3.
-/

/-- `enum class Inclusivity` from `ranges.h`. -/
inductive Inclusivity : Type where
  | Open
  | Closed
deriving DecidableEq, Repr

/-- `Bound<V>` from `ranges.h`.  The C++ class stores a kind tag plus a
payload that is never read when the kind is `Unbounded` (its `operator==`
ignores it), so an inductive with an `unbounded` constructor is a faithful
model. -/
inductive Bound (V : Type) : Type where
  | unbounded
  | finite (value : V) (inc : Inclusivity)
deriving DecidableEq, Repr

namespace Bound

/-- `Bound::closed`. -/
def closed {V : Type} (v : V) : Bound V := .finite v Inclusivity.Closed

/-- `Bound::open` (renamed: `open` is a Lean keyword). -/
def opened {V : Type} (v : V) : Bound V := .finite v Inclusivity.Open

/-- `Bound::is_unbounded`. -/
def is_unbounded {V : Type} : Bound V → Bool
  | .unbounded => true
  | .finite _ _ => false

/-- `Bound::is_finite`. -/
def is_finite {V : Type} : Bound V → Bool
  | .unbounded => false
  | .finite _ _ => true

/-- `Bound::flip_inclusivity`. -/
def flip_inclusivity {V : Type} : Bound V → Bound V
  | .unbounded => .unbounded
  | .finite v .Closed => .finite v .Open
  | .finite v .Open => .finite v .Closed

end Bound

/-- `Interval<V> = std::pair<Bound<V>, Bound<V>>` (renamed: Mathlib already has an `Interval`). -/
abbrev Ival (V : Type) := Bound V × Bound V

section RangesHelpers

variable {V : Type} [LinearOrder V]

/-- `valid_segment` from `ranges.h`. -/
def valid_segment : Bound V → Bound V → Bool
  | .unbounded, _ => true
  | .finite _ _, .unbounded => true
  | .finite sv si, .finite ev ei =>
      decide (sv < ev) ||
        (decide (sv = ev) && decide (si = Inclusivity.Closed) &&
          decide (ei = Inclusivity.Closed))

/-- `end_before_start_with_gap` from `ranges.h`: note the code declares a
gap whenever the shared value is excluded by *either* side (`||`), while
its own documentation comment describes a gap only when both sides
exclude it. -/
def end_before_start_with_gap : Bound V → Bound V → Bool
  | .unbounded, _ => false
  | .finite _ _, .unbounded => false
  | .finite ev ei, .finite sv si =>
      decide (ev < sv) ||
        (decide (ev = sv) &&
          (decide (ei = Inclusivity.Open) || decide (si = Inclusivity.Open)))

/-- `left_start_is_smaller` from `ranges.h`. -/
def left_start_is_smaller : Bound V → Bound V → Bool
  | .unbounded, _ => true
  | .finite _ _, .unbounded => false
  | .finite lv li, .finite rv ri =>
      decide (lv < rv) ||
        (decide (lv = rv) && decide (li = Inclusivity.Closed) &&
          decide (ri = Inclusivity.Open))

/-- `left_end_is_smaller` from `ranges.h`. -/
def left_end_is_smaller : Bound V → Bound V → Bool
  | _, .unbounded => true
  | .unbounded, .finite _ _ => false
  | .finite lv li, .finite rv ri =>
      decide (lv < rv) ||
        (decide (lv = rv) && decide (li = Inclusivity.Open) &&
          decide (ri = Inclusivity.Closed))

end RangesHelpers

/-- `Ranges<V>` from `ranges.h`: a plain vector of segments (the C++
class enforces no invariant; `operator==` compares the vectors). -/
structure Ranges (V : Type) : Type where
  segments : List (Ival V)
deriving DecidableEq, Repr

namespace Ranges

variable {V : Type} [LinearOrder V]

/-- `Ranges::empty`. -/
def empty : Ranges V := ⟨[]⟩

/-- `Ranges::full`. -/
def full : Ranges V := ⟨[(Bound.unbounded, Bound.unbounded)]⟩

/-- `Ranges::higher_than`. -/
def higher_than (v : V) : Ranges V := ⟨[(Bound.closed v, Bound.unbounded)]⟩

/-- `Ranges::strictly_higher_than`. -/
def strictly_higher_than (v : V) : Ranges V := ⟨[(Bound.opened v, Bound.unbounded)]⟩

/-- `Ranges::lower_than`. -/
def lower_than (v : V) : Ranges V := ⟨[(Bound.unbounded, Bound.closed v)]⟩

/-- `Ranges::strictly_lower_than`. -/
def strictly_lower_than (v : V) : Ranges V := ⟨[(Bound.unbounded, Bound.opened v)]⟩

/-- `Ranges::between`. -/
def between (lo hi : V) : Ranges V := ⟨[(Bound.closed lo, Bound.opened hi)]⟩

/-- `Ranges::singleton`. -/
def singleton (v : V) : Ranges V := ⟨[(Bound.closed v, Bound.closed v)]⟩

/-- `Ranges::is_empty`. -/
def is_empty (r : Ranges V) : Bool := r.segments.isEmpty

/-- The loop body of `Ranges::complement`: `current` is the running lower
bound; each input segment may emit one complement segment before the
cursor moves past it. -/
def compGo : Bound V → List (Ival V) → List (Ival V)
  | current, [] =>
      if current.is_finite then [(current, Bound.unbounded)] else []
  | current, (s, e) :: rest =>
      let has_gap :=
        (current.is_unbounded && s.is_finite) ||
          (current.is_finite && s.is_finite && end_before_start_with_gap current s)
      (if has_gap then [(current, Bound.flip_inclusivity s)] else []) ++
        compGo (Bound.flip_inclusivity e) rest

/-- `Ranges::complement`. -/
def complement (r : Ranges V) : Ranges V :=
  if r.segments = [] then full
  else if r.segments = [(Bound.unbounded, Bound.unbounded)] then empty
  else ⟨compGo Bound.unbounded r.segments⟩

/-- `Ranges::negate` (an alias of `complement` in the C++). -/
def negate (r : Ranges V) : Ranges V := r.complement

/-- The merge step shared by the main loop and `process_remaining` of
`Ranges::union_`: flush `current` when a gap separates it from the next
interval, otherwise extend it. -/
def unionStep (cur : Option (Ival V)) (next : Ival V) :
    List (Ival V) × Option (Ival V) :=
  match cur with
  | none => ([], some next)
  | some c =>
      if end_before_start_with_gap c.2 next.1 then ([c], some next)
      else if left_end_is_smaller c.2 next.2 then ([], some (c.1, next.2))
      else ([], some c)

/-- The iterator loop of `Ranges::union_` (both phases: the two-sided
merge while both iterators are live, then `process_remaining` on the left
leftovers followed by the right leftovers).  Structured with explicit
fuel so that it reduces definitionally; every C++ iteration advances one
of the two iterators, so the wrapper's `l.length + r.length` units are
never exhausted. -/
def unionGoF : Nat → Option (Ival V) → List (Ival V) → List (Ival V) →
    List (Ival V)
  | _, cur, [], [] => match cur with | none => [] | some c => [c]
  | 0, cur, _, _ => match cur with | none => [] | some c => [c]
  | fuel + 1, cur, [], r :: rs =>
      let p := unionStep cur r
      p.1 ++ unionGoF fuel p.2 [] rs
  | fuel + 1, cur, l :: ls, [] =>
      let p := unionStep cur l
      p.1 ++ unionGoF fuel p.2 ls []
  | fuel + 1, cur, l :: ls, r :: rs =>
      if left_start_is_smaller l.1 r.1 then
        let p := unionStep cur l
        p.1 ++ unionGoF fuel p.2 ls (r :: rs)
      else
        let p := unionStep cur r
        p.1 ++ unionGoF fuel p.2 (l :: ls) rs

/-- The union loop at its full fuel budget. -/
def unionGo (cur : Option (Ival V)) (l r : List (Ival V)) : List (Ival V) :=
  unionGoF (l.length + r.length) cur l r

/-- `Ranges::union_`. -/
def union_ (a b : Ranges V) : Ranges V :=
  if a.segments = [] then b
  else if b.segments = [] then a
  else ⟨unionGo none a.segments b.segments⟩

/-- The iterator loop of `Ranges::intersection`, with explicit fuel for
definitional reduction (the wrapper's `l.length + r.length` units are
never exhausted since every iteration advances an iterator). -/
def interGoF : Nat → List (Ival V) → List (Ival V) → List (Ival V)
  | _, [], _ => []
  | _, _ :: _, [] => []
  | 0, _ :: _, _ :: _ => []
  | fuel + 1, (ls, le) :: lrest, (rs, re) :: rrest =>
      let start := if left_start_is_smaller ls rs then rs else ls
      let stop := if left_end_is_smaller le re then le else re
      let seg := if valid_segment start stop then [(start, stop)] else []
      if left_end_is_smaller le re then
        seg ++ interGoF fuel lrest ((rs, re) :: rrest)
      else
        seg ++ interGoF fuel ((ls, le) :: lrest) rrest

/-- The intersection loop at its full fuel budget. -/
def interGo (l r : List (Ival V)) : List (Ival V) :=
  interGoF (l.length + r.length) l r

/-- `Ranges::intersection`. -/
def intersection (a b : Ranges V) : Ranges V :=
  if a.segments = [] || b.segments = [] then empty
  else ⟨interGo a.segments b.segments⟩

/-- One segment's membership test inside `Ranges::contains` (the four
`continue` guards inverted). -/
def segContains (v : V) : Ival V → Bool
  | (s, e) =>
      (match s with
       | .unbounded => true
       | .finite sv .Closed => decide (¬ v < sv)
       | .finite sv .Open => decide (¬ v ≤ sv)) &&
      (match e with
       | .unbounded => true
       | .finite ev .Closed => decide (¬ ev < v)
       | .finite ev .Open => decide (¬ ev ≤ v))

/-- `Ranges::contains`. -/
def contains (r : Ranges V) (v : V) : Bool := r.segments.any (segContains v)

/-- `Ranges::is_disjoint`. -/
def is_disjoint (a b : Ranges V) : Bool := (a.intersection b).is_empty

/-- `Ranges::subset_of`. -/
def subset_of (a b : Ranges V) : Bool :=
  decide ((a.intersection b).segments = a.segments)

end Ranges

/-- `Term<V>::Polarity` from `term.h`. -/
inductive Polarity : Type where
  | Positive
  | Negative
deriving DecidableEq, Repr

/-- `Term<V>` from `term.h`. -/
structure Term (V : Type) : Type where
  pol : Polarity
  ranges : Ranges V
deriving DecidableEq, Repr

namespace Term

variable {V : Type} [LinearOrder V]

/-- `Term::Positive`. -/
def Positive (r : Ranges V) : Term V := ⟨Polarity.Positive, r⟩

/-- `Term::Negative`. -/
def Negative (r : Ranges V) : Term V := ⟨Polarity.Negative, r⟩

/-- `Term::any`: represented as `Negative(full)` in this code base. -/
def any : Term V := Negative Ranges.full

/-- `Term::empty`. -/
def empty : Term V := Positive Ranges.empty

/-- `Term::exact`. -/
def exact (v : V) : Term V := Positive (Ranges.singleton v)

/-- `Term::is_positive`. -/
def is_positive (t : Term V) : Bool := decide (t.pol = Polarity.Positive)

/-- `Term::is_negative`. -/
def is_negative (t : Term V) : Bool := decide (t.pol = Polarity.Negative)

/-- `Term::negate`. -/
def negate (t : Term V) : Term V :=
  ⟨if t.pol = Polarity.Positive then Polarity.Negative else Polarity.Positive,
    t.ranges⟩

/-- `Term::contains`. -/
def contains (t : Term V) (v : V) : Bool :=
  if t.is_positive then t.ranges.contains v else !t.ranges.contains v

/-- `Term::intersection`. -/
def intersection (t other : Term V) : Term V :=
  if t.is_positive && other.is_positive then
    Positive (t.ranges.intersection other.ranges)
  else if t.is_positive || other.is_positive then
    let p := if t.is_positive then t.ranges else other.ranges
    let n := if t.is_negative then t.ranges else other.ranges
    Positive (p.intersection n.negate)
  else
    Negative (t.ranges.union_ other.ranges)

/-- `Term::is_disjoint`. -/
def is_disjoint (t other : Term V) : Bool :=
  if t.is_positive && other.is_positive then
    t.ranges.is_disjoint other.ranges
  else if t.is_negative && other.is_negative then
    let u := t.ranges.union_ other.ranges
    decide (u.segments = [(Bound.unbounded, Bound.unbounded)])
  else
    let p := if t.is_positive then t.ranges else other.ranges
    let n := if t.is_negative then t.ranges else other.ranges
    p.subset_of n

/-- `Term::union_with`. -/
def union_with (t other : Term V) : Term V :=
  if t.is_positive && other.is_positive then
    Positive (t.ranges.union_ other.ranges)
  else if t.is_positive || other.is_positive then
    let p := if t.is_positive then t.ranges else other.ranges
    let n := if t.is_negative then t.ranges else other.ranges
    Negative ((p.negate).intersection n)
  else
    Negative ((t.ranges.negate).intersection (other.ranges.negate))

/-- `Term::subset_of`. -/
def subset_of (t other : Term V) : Bool :=
  if t.is_positive && other.is_positive then
    t.ranges.subset_of other.ranges
  else if t.is_positive && other.is_negative then
    t.ranges.is_disjoint other.ranges
  else if t.is_negative && other.is_positive then
    false
  else
    other.ranges.subset_of t.ranges

end Term

/-- `enum class Relation` from `term.h`. -/
inductive Relation : Type where
  | Satisfied
  | Contradicted
  | Inconclusive
deriving DecidableEq, Repr

/-- `Term::relation_with`. -/
def Term.relation_with {V : Type} [LinearOrder V] (t other : Term V) : Relation :=
  if other.subset_of t then Relation.Satisfied
  else if t.is_disjoint other then Relation.Contradicted
  else Relation.Inconclusive

/-! ## SmallMap (`small_map.h`) -/

section AssocList

variable {K W : Type} [DecidableEq K]

/-- Key lookup in an association list (the model of
`std::unordered_map::find`; returns the entry for the key, which is
unique inside an `unordered_map`). -/
def lookupA : List (K × W) → K → Option W
  | [], _ => none
  | kv :: rest, k => if kv.1 = k then some kv.2 else lookupA rest k

/-- `std::unordered_map::operator[] =` (insert-or-assign): overwrite the
entry for the key when present, otherwise append. -/
def assocSet : List (K × W) → K → W → List (K × W)
  | [], k, v => [(k, v)]
  | kv :: rest, k, v =>
      if kv.1 = k then (kv.1, v) :: rest else kv :: assocSet rest k v

/-- `std::unordered_map::emplace`: insert only when the key is absent. -/
def emplaceA (l : List (K × W)) (k : K) (v : W) : List (K × W) :=
  if (lookupA l k).isSome then l else l ++ [(k, v)]

/-- `std::unordered_map::erase(key)`: drop the (unique) entry for the key. -/
def eraseA (l : List (K × W)) (k : K) : List (K × W) :=
  l.filter (fun kv => decide (kv.1 ≠ k))

end AssocList

/-- `SmallMap<K, V>` from `small_map.h`: inline storage for zero, one or
two entries, spilling to a `std::unordered_map` (modelled by a
key-unique association list) for three or more. -/
inductive SmallMap (K W : Type) : Type where
  | m0
  | m1 (kv : K × W)
  | m2 (kv1 kv2 : K × W)
  | mbig (entries : List (K × W))
deriving DecidableEq, Repr

namespace SmallMap

variable {K W : Type} [DecidableEq K]

/-- `SmallMap::len`. -/
def len : SmallMap K W → Nat
  | .m0 => 0
  | .m1 _ => 1
  | .m2 _ _ => 2
  | .mbig l => l.length

/-- `SmallMap::get`. -/
def get : SmallMap K W → K → Option W
  | .m0, _ => none
  | .m1 kv, k => if kv.1 = k then some kv.2 else none
  | .m2 a b, k =>
      if a.1 = k then some a.2 else if b.1 = k then some b.2 else none
  | .mbig l, k => lookupA l k

/-- `SmallMap::insert`. -/
def insert : SmallMap K W → K → W → SmallMap K W
  | .m0, k, v => .m1 (k, v)
  | .m1 kv, k, v =>
      if kv.1 = k then .m1 (kv.1, v) else .m2 kv (k, v)
  | .m2 a b, k, v =>
      if a.1 = k then .m2 (a.1, v) b
      else if b.1 = k then .m2 a (b.1, v)
      else .mbig (emplaceA (emplaceA (emplaceA [] a.1 a.2) b.1 b.2) k v)
  | .mbig l, k, v => .mbig (assocSet l k v)

/-- `SmallMap::remove`. -/
def remove : SmallMap K W → K → SmallMap K W
  | .m0, _ => .m0
  | .m1 kv, k => if kv.1 = k then .m0 else .m1 kv
  | .m2 a b, k =>
      if a.1 = k then .m1 b else if b.1 = k then .m1 a else .m2 a b
  | .mbig l, k => .mbig (eraseA l k)

/-- Iteration order of `SmallMap::begin()`/`end()`: the inline entries in
storage order; for the spilled case, the model list's order stands in for
the `unordered_map`'s unspecified order. -/
def toList : SmallMap K W → List (K × W)
  | .m0 => []
  | .m1 kv => [kv]
  | .m2 a b => [a, b]
  | .mbig l => l

/-- Internal well-formedness: what actually holds of every `SmallMap`
built by the C++ operations (two inline entries have distinct keys, an
`unordered_map` has unique keys). -/
def WF : SmallMap K W → Prop
  | .m0 => True
  | .m1 _ => True
  | .m2 a b => a.1 ≠ b.1
  | .mbig l => (l.map Prod.fst).Nodup

end SmallMap

/-- The plain-finite-map model a `SmallMap` must refine: a key-unique
association list with insert-or-assign and erase.  This is the spec-side
definition for the refinement claim about `SmallMap`. -/
def specApplyOp {K W : Type} [DecidableEq K] :
    List (K × W) → K × Option W → List (K × W)
  | l, (k, some v) => assocSet l k v
  | l, (k, none) => eraseA l k

/-- An operation script against a map: `(k, some v)` is `insert(k, v)`,
`(k, none)` is `remove(k)`. -/
def runOps {K W : Type} [DecidableEq K] (ops : List (K × Option W)) :
    SmallMap K W :=
  ops.foldl
    (fun m op =>
      match op with
      | (k, some v) => m.insert k v
      | (k, none) => m.remove k)
    SmallMap.m0

/-- The same operation script run against the plain finite map. -/
def specRunOps {K W : Type} [DecidableEq K] (ops : List (K × Option W)) :
    List (K × W) :=
  ops.foldl specApplyOp []

/-! ## Incompatibility (`term.h`, second half / `incompatibility.h`) -/

/-- `IncompatRelationTag` + the attached package of `IncompatRelation<P>`. -/
inductive IncompRel (P : Type) : Type where
  | Satisfied
  | Contradicted (pkg : P)
  | AlmostSatisfied (pkg : P)
  | Inconclusive
deriving DecidableEq, Repr

/-- `Incompatibility<P,V,M>::Kind` (incompatibility IDs `Id<Self>` are
`Nat` indices into the append-only arena, modelled as a list). -/
inductive IncompKind (P V M : Type) : Type where
  | NotRoot (pkg : P) (version : V)
  | NoVersions (pkg : P) (ranges : Ranges V)
  | FromDependencyOf (pkg1 : P) (ranges1 : Ranges V) (pkg2 : P) (ranges2 : Ranges V)
  | DerivedFrom (base1 base2 : Nat)
  | Custom (pkg : P) (ranges : Ranges V) (meta : M)
deriving DecidableEq, Repr

/-- `Incompatibility<P,V,M>`. -/
structure Incompat (P V M : Type) : Type where
  terms : SmallMap P (Term V)
  kind : IncompKind P V M
deriving DecidableEq, Repr

namespace Incompat

variable {P V M : Type} [DecidableEq P] [LinearOrder V]

/-- `Incompatibility::not_root`. -/
def not_root (pkg : P) (version : V) : Incompat P V M :=
  ⟨SmallMap.m0.insert pkg (Term.Negative (Ranges.singleton version)),
    IncompKind.NotRoot pkg version⟩

/-- `Incompatibility::no_versions` (throws on a negative term). -/
def no_versions (pkg : P) (term : Term V) : Option (Incompat P V M) :=
  if term.is_negative then none
  else some ⟨SmallMap.m0.insert pkg term, IncompKind.NoVersions pkg term.ranges⟩

/-- `Incompatibility::from_dependency`. -/
def from_dependency (pkg : P) (versions : Ranges V) (dep : P × Ranges V) :
    Incompat P V M :=
  let mp := SmallMap.m0.insert pkg (Term.Positive versions)
  let mp := if !dep.2.is_empty then mp.insert dep.1 (Term.Negative dep.2) else mp
  ⟨mp, IncompKind.FromDependencyOf pkg versions dep.1 dep.2⟩

/-- `Incompatibility::as_dependency`. -/
def as_dependency (i : Incompat P V M) : Option (P × P) :=
  match i.kind with
  | IncompKind.FromDependencyOf p1 _ p2 _ => some (p1, p2)
  | _ => none

/-- `Incompatibility::get`. -/
def get (i : Incompat P V M) (p : P) : Option (Term V) := i.terms.get p

/-- `Incompatibility::merge_dependents`.  The C++ `assert(t1 && t2 &&
t1->is_positive() && t2->is_positive())` is modelled by returning `none`
when it fails (a failed assert aborts). -/
def merge_dependents (a b : Incompat P V M) : Option (Incompat P V M) :=
  match a.as_dependency, b.as_dependency with
  | some d1, some d2 =>
      if d1 ≠ d2 then none
      else if d1.1 = d1.2 then none
      else
        match a.get d1.2 with
        | none => none
        | some dep_term =>
            match b.get d1.2 with
            | none => none
            | some dep_term_other =>
                if dep_term ≠ dep_term_other then none
                else
                  match a.get d1.1, b.get d1.1 with
                  | some t1, some t2 =>
                      if t1.is_positive && t2.is_positive then
                        let merged_ranges := t1.ranges.union_ t2.ranges
                        let depSet :=
                          if dep_term.is_negative then dep_term.ranges
                          else Ranges.empty
                        some (from_dependency d1.1 merged_ranges (d1.2, depSet))
                      else none
                  | _, _ => none
  | _, _ => none

/-- The merge loop of `Incompatibility::prior_cause` over the satisfier
cause's terms. -/
def priorCauseMerge (pivot : P) (merged : SmallMap P (Term V)) :
    List (P × Term V) → SmallMap P (Term V)
  | [] => merged
  | (pk, t2) :: rest =>
      if pk = pivot then priorCauseMerge pivot merged rest
      else
        match merged.get pk with
        | some existing => priorCauseMerge pivot (merged.insert pk (existing.intersection t2)) rest
        | none => priorCauseMerge pivot (merged.insert pk t2) rest

/-- `Incompatibility::prior_cause`.  `store` is the `Arena` (a list
indexed by raw IDs); out-of-range access or the failed `assert(t1)` is
modelled by `none`. -/
def prior_cause (incompat satisfier_cause : Nat) (package : P)
    (store : List (Incompat P V M)) : Option (Incompat P V M) :=
  match store[incompat]?, store[satisfier_cause]? with
  | some inc, some sat =>
      match inc.get package with
      | none => none
      | some t1 =>
          let merged := priorCauseMerge package inc.terms sat.terms.toList
          let merged :=
            match sat.get package with
            | some t2 =>
                let new_term := t1.intersection t2
                if new_term = Term.any then merged
                else merged.insert package new_term
            | none => merged
          some ⟨merged, IncompKind.DerivedFrom incompat satisfier_cause⟩
  | _, _ => none

/-- `Incompatibility::is_terminal`. -/
def is_terminal (i : Incompat P V M) (root_package : P) (root_version : V) : Bool :=
  match i.terms.toList with
  | [] => true
  | [(p, t)] => decide (p = root_package) && t.contains root_version
  | _ => false

/-- The accumulator loop of `Incompatibility::relation` (`rel` starts as
`Satisfied` and is only ever `Satisfied` or `AlmostSatisfied`). -/
def relGo (lookup : P → Option (Term V)) :
    List (P × Term V) → IncompRel P → IncompRel P
  | [], rel => rel
  | (pkg, incompat_term) :: rest, rel =>
      match lookup pkg with
      | some t =>
          match incompat_term.relation_with t with
          | Relation.Satisfied => relGo lookup rest rel
          | Relation.Contradicted => IncompRel.Contradicted pkg
          | Relation.Inconclusive =>
              match rel with
              | IncompRel.Satisfied => relGo lookup rest (IncompRel.AlmostSatisfied pkg)
              | _ => IncompRel.Inconclusive
      | none =>
          match rel with
          | IncompRel.Satisfied => relGo lookup rest (IncompRel.AlmostSatisfied pkg)
          | _ => IncompRel.Inconclusive

/-- `Incompatibility::relation`. -/
def relation (i : Incompat P V M) (lookup : P → Option (Term V)) : IncompRel P :=
  relGo lookup i.terms.toList IncompRel.Satisfied

end Incompat

/-! ## Partial solution (`provider.h`) -/

/-- `DatedDerivation<P,V,M>` (the cause is an incompatibility arena ID). -/
structure DatedDerivation (V : Type) : Type where
  global_index : Nat
  decision_level : Nat
  cause : Nat
  accumulated_intersection : Term V
deriving DecidableEq, Repr

/-- `AssignmentsIntersection<V>`: the C++ struct is a tagged record whose
`term` field is `exact(version)` for decisions (set by `makeDecision`), so
the constructor arguments determine it. -/
inductive AssignmentsIntersection (V : Type) : Type where
  | Decision (decision_global_index : Nat) (version : V)
  | Derivations (term : Term V)
deriving DecidableEq, Repr

namespace AssignmentsIntersection

variable {V : Type} [LinearOrder V]

/-- `AssignmentsIntersection::isDecision`. -/
def isDecision : AssignmentsIntersection V → Bool
  | .Decision _ _ => true
  | .Derivations _ => false

/-- `AssignmentsIntersection::term_ref` (`makeDecision` stores
`Term::exact(v)` as the term of a decision). -/
def term_ref : AssignmentsIntersection V → Term V
  | .Decision _ v => Term.exact v
  | .Derivations t => t

/-- `AssignmentsIntersection::potential_package_filter`. -/
def potential_package_filter : AssignmentsIntersection V → Option (Ranges V)
  | .Decision _ _ => none
  | .Derivations t => if t.is_positive then some t.ranges else none

end AssignmentsIntersection

/-- `PackageAssignments<P,V,M>`. -/
structure PackageAssignments (V : Type) : Type where
  assignments_intersection : AssignmentsIntersection V
  dated_derivations : List (DatedDerivation V)
  smallest_decision_level : Nat
  highest_decision_level : Nat
deriving DecidableEq, Repr

/-- The `Information` tuple of `provider.h`:
`(optional cause, global index, decision level)`. -/
abbrev SatInfo := Option Nat × Nat × Nat

/-- `PackageAssignments::satisfier` (its `package` parameter is unused in
the C++ body and omitted here).  The final `throw std::logic_error` is
modelled by `none`. -/
def PackageAssignments.satisfier {V : Type} [LinearOrder V]
    (pa : PackageAssignments V) (start_term : Term V) : Option SatInfo :=
  match pa.dated_derivations.find?
      (fun dd => dd.accumulated_intersection.is_disjoint start_term) with
  | some dd => some (some dd.cause, dd.global_index, dd.decision_level)
  | none =>
      match pa.assignments_intersection with
      | .Decision gidx _ => some (none, gidx, pa.highest_decision_level)
      | .Derivations _ =>
          match pa.dated_derivations with
          | [] => none
          | dd :: _ => some (some dd.cause, dd.global_index, dd.decision_level)

/-- `SatisfierSearch<P,V,M>` (levels are `Nat`, causes are arena IDs). -/
inductive SatisfierSearch : Type where
  | DifferentDecisionLevels (previous_satisfier_level : Nat)
  | SameDecisionLevels (satisfier_cause : Nat)
deriving DecidableEq, Repr

/-- `PartialSolution<P,V,M,Priority>`, its `Priority`-independent fields.
The `package_assignments_index_map` is position-synchronised with
`package_assignments` by every C++ operation, so index lookups are
modelled by `findIdx?` on the list.  `next_global_index` is a `uint32_t`
in the source: its `+= 1` increments wrap modulo 2^32, written explicitly
at the two update sites.  The `prioritized_potential_packages` member (a
`std::priority_queue` over the provider's `Priority` type) is the only
field whose type mentions `Priority`; it is carried alongside these
fields by `PartialSolutionPQ` below, so that the many
`Priority`-independent operations and theorems need no `Priority`
parameter; only `pick_highest_priority_pkg` reads or writes it. -/
structure PartialSolution (P V : Type) : Type where
  next_global_index : Nat
  current_decision_level : Nat
  has_ever_backtracked : Bool
  package_assignments : List (P × PackageAssignments V)
  outdated_priorities : List P
deriving DecidableEq, Repr

/-- `std::set::insert` on `outdated_priorities` (iteration order of this
set is never observed by a verified claim). -/
def setInsert {P : Type} [DecidableEq P] (l : List P) (p : P) : List P :=
  if p ∈ l then l else l ++ [p]

/-- `std::swap(package_assignments[i], package_assignments[j])`;
out-of-bounds access is undefined behaviour in C++ and yields `none`. -/
def swapIdx {α : Type} (l : List α) (i j : Nat) : Option (List α) :=
  match l[i]?, l[j]? with
  | some a, some b => some ((l.set i b).set j a)
  | _, _ => none

namespace PartialSolution

variable {P V M : Type} [DecidableEq P] [LinearOrder V]

/-- The empty partial solution (`PartialSolution()` default construction). -/
def empty : PartialSolution P V :=
  ⟨0, 0, false, [], []⟩

/-- `PartialSolution::find_package_assignments` (lookup through the
position-synchronised index map). -/
def findPA (ps : PartialSolution P V) (package : P) :
    Option (PackageAssignments V) :=
  (ps.package_assignments.find? (fun e => decide (e.1 = package))).map (·.2)

/-- `PartialSolution::term_intersection_for_package` (a linear scan over
`package_assignments` in the C++). -/
def term_intersection_for_package (ps : PartialSolution P V) (package : P) :
    Option (Term V) :=
  (ps.package_assignments.find? (fun e => decide (e.1 = package))).map
    (fun e => e.2.assignments_intersection.term_ref)

/-- `PartialSolution::add_decision`: the `DEBUG` guards (`provider.h`
defines `DEBUG`) and the `throw` after the second lookup are modelled by
`none`. -/
def add_decision (ps : PartialSolution P V) (package : P) (version : V) :
    Option (PartialSolution P V) :=
  match ps.package_assignments.findIdx? (fun e => decide (e.1 = package)) with
  | none => none
  | some old_idx =>
      match ps.package_assignments[old_idx]? with
      | none => none
      | some entry =>
          let pa := entry.2
          if pa.assignments_intersection.isDecision then none
          else if !pa.assignments_intersection.term_ref.contains version then none
          else
            let new_idx := ps.current_decision_level
            let cdl := ps.current_decision_level + 1
            let pa :=
              { pa with
                  highest_decision_level := cdl
                  assignments_intersection :=
                    .Decision ps.next_global_index version }
            let l := ps.package_assignments.set old_idx (entry.1, pa)
            let l? := if old_idx ≠ new_idx then swapIdx l old_idx new_idx else some l
            match l? with
            | none => none
            | some l =>
                some
                  { ps with
                      current_decision_level := cdl
                      package_assignments := l
                      next_global_index :=
                        (ps.next_global_index + 1) % 4294967296 }

/-- `PartialSolution::add_derivation`: `store[cause].get(package)` is a
null dereference when the cause has no term for the package (`none`), and
the decision check throws (`none`). -/
def add_derivation (ps : PartialSolution P V) (package : P) (cause : Nat)
    (store : List (Incompat P V M)) : Option (PartialSolution P V) :=
  match store[cause]? with
  | none => none
  | some inc =>
  match inc.get package with
  | none => none
  | some t =>
  let dd : DatedDerivation V :=
    ⟨ps.next_global_index, ps.current_decision_level, cause, t.negate⟩
  let ngi := (ps.next_global_index + 1) % 4294967296
  match ps.package_assignments.findIdx? (fun e => decide (e.1 = package)) with
  | some idx =>
      match ps.package_assignments[idx]? with
      | none => none
      | some entry =>
      let pa := entry.2
      if pa.assignments_intersection.isDecision then none
      else
        let new_accum :=
          pa.assignments_intersection.term_ref.intersection
            dd.accumulated_intersection
        let dd := { dd with accumulated_intersection := new_accum }
        let outd :=
          if new_accum.is_positive then setInsert ps.outdated_priorities package
          else ps.outdated_priorities
        let pa :=
          { pa with
              highest_decision_level := ps.current_decision_level
              dated_derivations := pa.dated_derivations ++ [dd]
              assignments_intersection := .Derivations new_accum }
        some
          { ps with
              next_global_index := ngi
              outdated_priorities := outd
              package_assignments :=
                ps.package_assignments.set idx (entry.1, pa) }
  | none =>
      let term := dd.accumulated_intersection
      let outd :=
        if term.is_positive then setInsert ps.outdated_priorities package
        else ps.outdated_priorities
      let pa : PackageAssignments V :=
        ⟨.Derivations term, [dd], ps.current_decision_level,
          ps.current_decision_level⟩
      some
        { ps with
            next_global_index := ngi
            outdated_priorities := outd
            package_assignments := ps.package_assignments ++ [(package, pa)] }

/-- The back-of-vector `pop_back` loop of `PartialSolution::backtrack`. -/
def dropBackWhile {α : Type} (p : α → Bool) (l : List α) : List α :=
  (l.reverse.dropWhile p).reverse

/-- The per-entry case split of `PartialSolution::backtrack`; `none`
means the entry is dropped, the `Bool` records whether the package's
priority is marked outdated. -/
def backtrackEntry (dl : Nat) (entry : P × PackageAssignments V) :
    Option ((P × PackageAssignments V) × Bool) :=
  let pa := entry.2
  if dl < pa.smallest_decision_level then none
  else if pa.highest_decision_level ≤ dl then
    some (entry, pa.assignments_intersection.potential_package_filter.isSome)
  else
    let dds := dropBackWhile (fun dd => decide (dl < dd.decision_level))
      pa.dated_derivations
    match dds.getLast? with
    | none => none
    | some last =>
        let pa :=
          { pa with
              highest_decision_level := last.decision_level
              dated_derivations := dds
              assignments_intersection :=
                .Derivations last.accumulated_intersection }
        some ((entry.1, pa),
          pa.assignments_intersection.term_ref.is_positive)

/-- `PartialSolution::backtrack`. -/
def backtrack (ps : PartialSolution P V) (decision_level : Nat) :
    PartialSolution P V :=
  let folded :=
    ps.package_assignments.foldl
      (fun acc entry =>
        match backtrackEntry decision_level entry with
        | none => acc
        | some (e, flag) =>
            (acc.1 ++ [e], if flag then setInsert acc.2 e.1 else acc.2))
      ([], ps.outdated_priorities)
  { ps with
      current_decision_level := decision_level
      package_assignments := folded.1
      outdated_priorities := folded.2
      has_ever_backtracked := true }

/-- The conflict scan of
`PartialSolution::add_package_version_incompatibilities`: walk the new
incompatibility IDs in order and return the first whose relation is
`Satisfied`; an ID outside the arena is undefined behaviour (`none`). -/
def findConflict (lookup : P → Option (Term V))
    (store : List (Incompat P V M)) : List Nat → Option (Option Nat)
  | [] => some none
  | iid :: rest =>
      match store[iid]? with
      | none => none
      | some inc =>
          if inc.relation lookup = IncompRel.Satisfied then some (some iid)
          else findConflict lookup store rest

/-- `PartialSolution::add_package_version_incompatibilities`: returns the
conflicting incompatibility ID (if any) together with the updated state. -/
def add_package_version_incompatibilities (ps : PartialSolution P V)
    (package : P) (version : V) (new_incompatibilities : List Nat)
    (store : List (Incompat P V M)) :
    Option (Option Nat × PartialSolution P V) :=
  if !ps.has_ever_backtracked then
    (add_decision ps package version).map (fun ps' => (none, ps'))
  else
    let package_term := Term.exact version
    let lookup := fun p =>
      if p = package then some package_term
      else ps.term_intersection_for_package p
    match findConflict (M := M) lookup store new_incompatibilities with
    | none => none
    | some (some iid) => some (some iid, ps)
    | some none => (add_decision ps package version).map (fun ps' => (none, ps'))

/-- The loop of `PartialSolution::find_satisfier` over the
incompatibility's terms. -/
def findSatisfierGo (ps : PartialSolution P V) :
    List (P × Term V) → SmallMap P SatInfo → Option (SmallMap P SatInfo)
  | [], acc => some acc
  | (package, incompat_term) :: rest, acc =>
      match ps.findPA package with
      | none => none
      | some pa =>
          match pa.satisfier incompat_term.negate with
          | none => none
          | some info => findSatisfierGo ps rest (acc.insert package info)

/-- `PartialSolution::find_satisfier` (missing package assignments
throw: `none`). -/
def find_satisfier (ps : PartialSolution P V) (incompat : Incompat P V M) :
    Option (SmallMap P SatInfo) :=
  findSatisfierGo ps incompat.terms.toList SmallMap.m0

/-- The largest-global-index scan of `PartialSolution::satisfier_search`
(`max_gidx` starts at 0 and the comparison is `>=`, so later entries win
ties). -/
def pickLoop : List (P × SatInfo) → P × SatInfo → Nat → P × SatInfo
  | [], best, _ => best
  | (p, info) :: rest, best, max_gidx =>
      if max_gidx ≤ info.2.1 then pickLoop rest (p, info) info.2.1
      else pickLoop rest best max_gidx

/-- `PartialSolution::find_previous_satisfier`: re-search the satisfier's
package against the modified term, reinsert, then take the maximum
decision level over the map (the loop starts from 0) clamped below at 1.
Returns the level together with the updated map. -/
def find_previous_satisfier (ps : PartialSolution P V)
    (incompat : Incompat P V M) (satisfier_package : P)
    (satisfied_map : SmallMap P SatInfo) (store : List (Incompat P V M)) :
    Option (Nat × SmallMap P SatInfo) :=
  match ps.findPA satisfier_package with
  | none => none
  | some pa =>
  match satisfied_map.get satisfier_package with
  | none => none
  | some info =>
  match (match info.1 with
    | some cause =>
        match store[cause]? with
        | none => none
        | some c =>
            match c.get satisfier_package with
            | none => none
            | some t => some t.negate
    | none =>
        match pa.assignments_intersection with
        | .Decision _ _ => some pa.assignments_intersection.term_ref
        | .Derivations _ => none) with
  | none => none
  | some accum_term =>
  match incompat.get satisfier_package with
  | none => none
  | some incompat_term =>
  match pa.satisfier (accum_term.intersection incompat_term.negate) with
  | none => none
  | some info2 =>
  let m := satisfied_map.insert satisfier_package info2
  let max_dl := (m.toList.map (fun e => e.2.2.2)).foldl max 0
  some (if max_dl < 1 then 1 else max_dl, m)

/-- `PartialSolution::satisfier_search`.  The dereference
`*satisfier_cause` of an empty optional is undefined behaviour (`none`). -/
def satisfier_search [Inhabited P] (ps : PartialSolution P V)
    (incompat : Incompat P V M) (store : List (Incompat P V M)) :
    Option (P × SatisfierSearch) :=
  match ps.find_satisfier incompat with
  | none => none
  | some satisfied_map =>
  let best := pickLoop satisfied_map.toList (default, (none, 0, 0)) 0
  match find_previous_satisfier ps incompat best.1 satisfied_map store with
  | none => none
  | some prev =>
  if best.2.2.2 ≤ prev.1 then
    match best.2.1 with
    | none => none
    | some cause => some (best.1, SatisfierSearch.SameDecisionLevels cause)
  else
    some (best.1, SatisfierSearch.DifferentDecisionLevels prev.1)

end PartialSolution

/-! ## Resolver state (`include/core.h`) and driver (`src/cdcl_solver.cpp`) -/

/-- `PackageResolutionStatistics` (`provider.h`); `std::map::operator[]`
default-inserts the all-zero record. -/
structure PackageResolutionStatistics : Type where
  unit_propagation_affected : Nat
  unit_propagation_culprit : Nat
  dependencies_affected : Nat
  dependencies_culprit : Nat
deriving DecidableEq, Repr

/-- `PackageResolutionStatistics::conflict_count`. -/
def PackageResolutionStatistics.conflict_count
    (s : PackageResolutionStatistics) : Nat :=
  s.unit_propagation_affected + s.unit_propagation_culprit +
    s.dependencies_affected + s.dependencies_culprit

/-- `HashArena<T>` (`arena.h`): an append-only arena deduplicating equal
values (the hash index map is semantically the first index holding an
equal value). -/
structure HashArena (T : Type) : Type where
  data : List T
deriving DecidableEq, Repr

/-- `HashArena::alloc`. -/
def HashArena.alloc {T : Type} [DecidableEq T] (a : HashArena T)
    (value : T) : Nat × HashArena T :=
  match a.data.findIdx? (fun x => decide (x = value)) with
  | some i => (i, a)
  | none => (a.data.length, ⟨a.data ++ [value]⟩)

/-- `HashArena::operator[]` (its `assert` on an out-of-range ID aborts:
`none`). -/
def HashArena.get {T : Type} (a : HashArena T) (i : Nat) : Option T :=
  a.data[i]?

/-- The full `PartialSolution<P,V,M,Priority>`: the `Priority`-independent
fields (`base`, verified above) together with its one `Priority`-typed
member, the `std::priority_queue` of `(Priority, raw id, id)` triples
ordered by `std::less<>` (lexicographic).  The queue is modelled by its
entry list; `top` is the lexicographic maximum (entries comparing equal
under `std::less<>` are identical triples, so the heap's internal order
is unobservable). -/
structure PartialSolutionPQ (P V Priority : Type) : Type where
  base : PartialSolution P V
  prioritized_potential_packages : List (Priority × Nat × P)
deriving DecidableEq, Repr

/-- `std::less<>` on `std::tuple<Priority, uint32_t, Id<P>>`
(lexicographic strict order). -/
def tripleLt {Priority : Type} [LinearOrder Priority]
    (a b : Priority × Nat × Nat) : Bool :=
  decide (a.1 < b.1) ||
    (decide (a.1 = b.1) &&
      (decide (a.2.1 < b.2.1) ||
        (decide (a.2.1 = b.2.1) && decide (a.2.2 < b.2.2))))

/-- `std::priority_queue::top`. -/
def pqTop {Priority : Type} [LinearOrder Priority] :
    List (Priority × Nat × Nat) → Option (Priority × Nat × Nat)
  | [] => none
  | x :: rest => some (rest.foldl (fun b y => if tripleLt b y then y else b) x)

/-- `std::priority_queue::pop` of the element returned by `top`. -/
def pqPop {Priority : Type} [DecidableEq Priority]
    (q : List (Priority × Nat × Nat)) (x : Priority × Nat × Nat) :
    List (Priority × Nat × Nat) :=
  q.erase x

/-- The drain loop of `PartialSolution::pick_highest_priority_pkg`: move
every outdated package that still has a positive derivation range into
the queue, priced by the prioritizer.  The driver's prioritizer closure
indexes the package store (an `assert`), so it may abort: `none`. -/
def pickDrain {V Priority : Type} [LinearOrder V]
    (ps : PartialSolution Nat V)
    (prioritizer : Nat → Ranges V → Option Priority) :
    List Nat → List (Priority × Nat × Nat) →
    Option (List (Priority × Nat × Nat))
  | [], q => some q
  | p :: rest, q =>
      match PartialSolution.findPA ps p with
      | none => pickDrain ps prioritizer rest q
      | some pa =>
          match pa.assignments_intersection.potential_package_filter with
          | none => pickDrain ps prioritizer rest q
          | some r =>
              match prioritizer p r with
              | none => none
              | some prio =>
                  pickDrain ps prioritizer rest (q ++ [(prio, p, p)])

/-- The pop loop of `pick_highest_priority_pkg`; every iteration pops one
entry, so the queue length bounds the iterations and fuel 0 coincides
with the empty queue. -/
def pickPopGo {V Priority : Type} [LinearOrder V] [LinearOrder Priority]
    [DecidableEq Priority] (ps : PartialSolution Nat V) :
    Nat → List (Priority × Nat × Nat) →
    Option (Nat × Ranges V) × List (Priority × Nat × Nat)
  | 0, q => (none, q)
  | fuel + 1, q =>
      match pqTop q with
      | none => (none, q)
      | some t =>
          let q := pqPop q t
          match PartialSolution.findPA ps t.2.2 with
          | none => pickPopGo ps fuel q
          | some pa =>
              match pa.assignments_intersection.potential_package_filter with
              | none => pickPopGo ps fuel q
              | some r => (some (t.2.2, r), q)

/-- `PartialSolution::pick_highest_priority_pkg` (`provider.h`). -/
def PartialSolutionPQ.pick_highest_priority_pkg {V Priority : Type}
    [LinearOrder V] [LinearOrder Priority] [DecidableEq Priority]
    (psq : PartialSolutionPQ Nat V Priority)
    (prioritizer : Nat → Ranges V → Option Priority) :
    Option (Option (Nat × Ranges V) × PartialSolutionPQ Nat V Priority) :=
  match pickDrain psq.base prioritizer psq.base.outdated_priorities
      psq.prioritized_potential_packages with
  | none => none
  | some q =>
      let out := pickPopGo psq.base q.length q
      some (out.1, ⟨{ psq.base with outdated_priorities := [] }, out.2⟩)

/-- The entry loop of `PartialSolution::extract_solution` (a
non-decision entry throws). -/
def extractGo {P V : Type} :
    List (P × PackageAssignments V) → Option (List (P × V))
  | [] => some []
  | (p, pa) :: rest =>
      match pa.assignments_intersection with
      | .Decision _ v =>
          match extractGo rest with
          | none => none
          | some sol => some ((p, v) :: sol)
      | .Derivations _ => none

/-- `PartialSolution::extract_solution`. -/
def PartialSolution.extract_solution {P V : Type}
    (ps : PartialSolution P V) : Option (List (P × V)) :=
  extractGo ps.package_assignments

/-- The resolver `State<DP>` of `include/core.h`.  Package IDs are `Nat`
indices into `package_store`, incompatibility IDs `Nat` indices into the
append-only `incompatibility_store`; the three `unordered_map` members
are key-unique association lists (only ever indexed, never iterated as
maps).  The `unit_propagation_buffer` member is cleared on entry to
`unit_propagation` and empty again on every exit, so the loop threads the
buffer as an argument and the stored field stays `[]`. -/
structure State (PP V M Priority : Type) : Type where
  root_package : Nat
  root_version : V
  incompatibilities : List (Nat × List Nat)
  contradicted_incompatibilities : List (Nat × Nat)
  merged_dependencies : List ((Nat × Nat) × List Nat)
  partial_solution : PartialSolutionPQ Nat V Priority
  incompatibility_store : List (Incompat Nat V M)
  package_store : HashArena PP
  unit_propagation_buffer : List Nat
deriving DecidableEq, Repr

/-- `State::init`. -/
def State.init {PP V M Priority : Type} [DecidableEq PP]
    (root_pkg : PP) (root_ver : V) : State PP V M Priority :=
  let rp := HashArena.alloc (⟨[]⟩ : HashArena PP) root_pkg
  let not_root : Incompat Nat V M := Incompat.not_root rp.1 root_ver
  { root_package := rp.1
    root_version := root_ver
    incompatibilities := [(rp.1, [0])]
    contradicted_incompatibilities := []
    merged_dependencies := []
    partial_solution := ⟨PartialSolution.empty, []⟩
    incompatibility_store := [not_root]
    package_store := rp.2
    unit_propagation_buffer := [] }

/-- The registration loop closing `State::merge_incompatibility`:
`incompatibilities[pkg].push_back(incomp)` for every package of the
final incompatibility. -/
def registerIncomp {V : Type} (incomp : Nat) :
    List (Nat × Term V) → List (Nat × List Nat) → List (Nat × List Nat)
  | [], imap => imap
  | (pkg, _) :: rest, imap =>
      registerIncomp incomp rest
        (assocSet imap pkg ((lookupA imap pkg).getD [] ++ [incomp]))

/-- The merge loop of `State::merge_incompatibility` over
`merged_dependencies[(p1,p2)]`: an entry that merges is replaced in
place by the newly allocated merged incompatibility, which also
supersedes the current one; the erased predecessor is removed from the
per-package lists of the merged incompatibility's packages; an
out-of-range arena access aborts (`none`). -/
def mergeGo {V M : Type} [LinearOrder V] :
    List Nat → List (Incompat Nat V M) → List (Nat × List Nat) → Nat →
    Bool →
    Option (List Nat × List (Incompat Nat V M) × List (Nat × List Nat) ×
      Nat × Bool)
  | [], istore, imap, incomp, merged_any =>
      some ([], istore, imap, incomp, merged_any)
  | past_id :: rest, istore, imap, incomp, merged_any =>
      match istore[incomp]?, istore[past_id]? with
      | some cur, some past =>
          match cur.merge_dependents past with
          | none =>
              match mergeGo rest istore imap incomp merged_any with
              | none => none
              | some (tail, istore', imap', incomp', ma') =>
                  some (past_id :: tail, istore', imap', incomp', ma')
          | some merged =>
              let new_id := istore.length
              let istore := istore ++ [merged]
              let imap := merged.terms.toList.foldl
                (fun im pt =>
                  match lookupA im pt.1 with
                  | none => im
                  | some lst =>
                      assocSet im pt.1
                        (lst.filter (fun x => !(decide (x = past_id)))))
                imap
              match mergeGo rest istore imap new_id true with
              | none => none
              | some (tail, istore', imap', incomp', ma') =>
                  some (new_id :: tail, istore', imap', incomp', ma')
      | _, _ => none

/-- `State::merge_incompatibility`. -/
def State.merge_incompatibility {PP V M Priority : Type} [LinearOrder V]
    (st : State PP V M Priority) (incomp : Nat) :
    Option (State PP V M Priority) :=
  match st.incompatibility_store[incomp]? with
  | none => none
  | some cur =>
      match cur.as_dependency with
      | some pq =>
          let deps_list := (lookupA st.merged_dependencies pq).getD []
          match mergeGo deps_list st.incompatibility_store
              st.incompatibilities incomp false with
          | none => none
          | some (new_list, istore, imap, incomp', merged_any) =>
              let new_list :=
                if merged_any then new_list else new_list ++ [incomp']
              match istore[incomp']? with
              | none => none
              | some inc' =>
                  some { st with
                      incompatibility_store := istore
                      incompatibilities :=
                        registerIncomp incomp' inc'.terms.toList imap
                      merged_dependencies :=
                        assocSet st.merged_dependencies pq new_list }
      | none =>
          some { st with
              incompatibilities :=
                registerIncomp incomp cur.terms.toList st.incompatibilities }

/-- `State::add_incompatibility`. -/
def State.add_incompatibility {PP V M Priority : Type} [LinearOrder V]
    (st : State PP V M Priority) (incompat : Incompat Nat V M) :
    Option (State PP V M Priority) :=
  let id := st.incompatibility_store.length
  State.merge_incompatibility
    { st with incompatibility_store := st.incompatibility_store ++ [incompat] }
    id

/-- The dependency-allocation loop of
`State::add_package_version_dependencies`. -/
def depsLoop {PP V M Priority : Type} [DecidableEq PP] [LinearOrder V]
    (package : PP) (version : V) :
    List (PP × Ranges V) → State PP V M Priority →
    Option (State PP V M Priority)
  | [], st => some st
  | (dep_p, dep_v) :: rest, st =>
      let dp := st.package_store.alloc dep_p
      let st1 := { st with package_store := dp.2 }
      let pp := st1.package_store.alloc package
      let st2 := { st1 with package_store := pp.2 }
      let incompat : Incompat Nat V M :=
        Incompat.from_dependency pp.1 (Ranges.singleton version)
          (dp.1, dep_v)
      let id := st2.incompatibility_store.length
      match State.merge_incompatibility
          { st2 with incompatibility_store :=
              st2.incompatibility_store ++ [incompat] } id with
      | none => none
      | some st3 => depsLoop package version rest st3

/-- `State::add_package_version_dependencies`; the IDs handed to
`add_package_version_incompatibilities` are the `IdRange` of everything
allocated during the loop, merged products included. -/
def State.add_package_version_dependencies {PP V M Priority : Type}
    [DecidableEq PP] [LinearOrder V] (st : State PP V M Priority)
    (package : PP) (version : V) (deps : List (PP × Ranges V)) :
    Option (Option Nat × State PP V M Priority) :=
  let start_raw := st.incompatibility_store.length
  match depsLoop package version deps st with
  | none => none
  | some st =>
      let end_raw := st.incompatibility_store.length
      let pp := st.package_store.alloc package
      let st := { st with package_store := pp.2 }
      match PartialSolution.add_package_version_incompatibilities
          st.partial_solution.base pp.1 version
          (List.range' start_raw (end_raw - start_raw))
          st.incompatibility_store with
      | none => none
      | some (conflict, ps') =>
          some (conflict,
            { st with partial_solution :=
                { st.partial_solution with base := ps' } })

/-- `State::backtrack`. -/
def State.backtrack {PP V M Priority : Type} [DecidableEq PP]
    [LinearOrder V] (st : State PP V M Priority) (incompat : Nat)
    (incompat_changed : Bool) (decision_level : Nat) :
    Option (State PP V M Priority) :=
  let ps' := st.partial_solution.base.backtrack decision_level
  let st := { st with
      partial_solution := { st.partial_solution with base := ps' }
      contradicted_incompatibilities :=
        st.contradicted_incompatibilities.filter
          (fun kv => !(decide (decision_level < kv.2))) }
  if incompat_changed then st.merge_incompatibility incompat else some st

/-- `State::conflict_resolution`, fuelled (the C++ `while (true)`); the
inner `Option` of the result is the C++ `std::optional` return (empty at
a terminal incompatibility), the outer `none` an exception or exhausted
fuel.  `causes` threads the by-reference `satisfier_causes` vector. -/
def State.conflict_resolution {PP V M Priority : Type} [DecidableEq PP]
    [LinearOrder V] :
    Nat → State PP V M Priority → Nat → Bool → List (Nat × Nat) →
    Option (Option (Nat × Nat) × State PP V M Priority × List (Nat × Nat))
  | 0, _, _, _, _ => none
  | fuel + 1, st, current, changed, causes =>
      match st.incompatibility_store[current]? with
      | none => none
      | some inc =>
          if inc.is_terminal st.root_package st.root_version then
            some (none, st, causes)
          else
            match st.partial_solution.base.satisfier_search inc
                st.incompatibility_store with
            | none => none
            | some (package, SatisfierSearch.DifferentDecisionLevels prev) =>
                match st.backtrack current changed prev with
                | none => none
                | some st =>
                    some (some (package, current), st,
                      causes ++ [(package, current)])
            | some (package, SatisfierSearch.SameDecisionLevels cause) =>
                match Incompat.prior_cause current cause package
                    st.incompatibility_store with
                | none => none
                | some prior =>
                    let new_id := st.incompatibility_store.length
                    State.conflict_resolution fuel
                      { st with incompatibility_store :=
                          st.incompatibility_store ++ [prior] }
                      new_id true (causes ++ [(package, new_id)])

/-- The inner `for` of `State::unit_propagation` over one package's
incompatibility list in reverse registration order; threads the state,
the propagation buffer and the latest satisfied conflict ID. -/
def upScan {PP V M Priority : Type} [DecidableEq PP] [LinearOrder V] :
    List Nat → State PP V M Priority → List Nat → Option Nat →
    Option (State PP V M Priority × List Nat × Option Nat)
  | [], st, buf, cid => some (st, buf, cid)
  | incompat_id :: rest, st, buf, cid =>
      match st.incompatibility_store[incompat_id]? with
      | none => none
      | some incompat =>
          let rel := incompat.relation
            (fun pkg =>
              st.partial_solution.base.term_intersection_for_package pkg)
          if (lookupA st.contradicted_incompatibilities incompat_id).isSome
          then upScan rest st buf cid
          else
            match rel with
            | IncompRel.Satisfied => upScan rest st buf (some incompat_id)
            | IncompRel.AlmostSatisfied package_almost =>
                let buf :=
                  if package_almost ∈ buf then buf else buf ++ [package_almost]
                match st.partial_solution.base.add_derivation package_almost
                    incompat_id st.incompatibility_store with
                | none => none
                | some ps' =>
                    upScan rest
                      { st with
                          partial_solution :=
                            { st.partial_solution with base := ps' }
                          contradicted_incompatibilities :=
                            assocSet st.contradicted_incompatibilities
                              incompat_id ps'.current_decision_level }
                      buf cid
            | IncompRel.Contradicted _ =>
                upScan rest
                  { st with contradicted_incompatibilities :=
                      (assocSet st.contradicted_incompatibilities incompat_id
                        st.partial_solution.base.current_decision_level) }
                  buf cid
            | IncompRel.Inconclusive => upScan rest st buf cid

/-- The outer `while (!buffer.empty())` of `State::unit_propagation`,
fuelled; the buffer is a stack (`back`/`pop_back`).  A conflict triggers
`conflict_resolution`; its empty return is the `throw
std::runtime_error` at a root conflict. -/
def upLoop {PP V M Priority : Type} [DecidableEq PP] [LinearOrder V] :
    Nat → State PP V M Priority → List Nat → List (Nat × Nat) →
    Option (State PP V M Priority × List (Nat × Nat))
  | 0, _, _, _ => none
  | fuel + 1, st, buf, causes =>
      match buf.getLast? with
      | none => some (st, causes)
      | some current_package =>
          let buf := buf.dropLast
          match lookupA st.incompatibilities current_package with
          | none => upLoop fuel st buf causes
          | some pkg_incompats =>
              match upScan pkg_incompats.reverse st buf none with
              | none => none
              | some (st, buf, conflict_id) =>
                  match conflict_id with
                  | none => upLoop fuel st buf causes
                  | some cid =>
                      match State.conflict_resolution (fuel + 1) st cid
                          false causes with
                      | none => none
                      | some (none, _, _) => none
                      | some (some (package_almost, root_cause), st,
                          causes) =>
                          match st.partial_solution.base.add_derivation
                              package_almost root_cause
                              st.incompatibility_store with
                          | none => none
                          | some ps' =>
                              upLoop fuel
                                { st with
                                    partial_solution :=
                                      { st.partial_solution with
                                          base := ps' }
                                    contradicted_incompatibilities :=
                                      assocSet
                                        st.contradicted_incompatibilities
                                        root_cause
                                        ps'.current_decision_level }
                                [package_almost] causes

/-- `State::unit_propagation`, fuelled (the C++ loop's termination is not
syntactically evident); returns the satisfier causes. -/
def State.unit_propagation {PP V M Priority : Type} [DecidableEq PP]
    [LinearOrder V] (fuel : Nat) (st : State PP V M Priority)
    (package : Nat) : Option (State PP V M Priority × List (Nat × Nat)) :=
  upLoop fuel st [package] []

/-- The provider as the driver consumes it: `prioritize`,
`choose_version` and `get_dependencies` are `virtual` methods of
`DependencyProvider` — `resolve` dispatches dynamically, and any subclass
of `OfflineDependencyProvider` may override them — so they are
universally quantified functions.  `get_dependencies` returning `none`
is the `Availability::Unavailable` tag; `some deps` is `Available` with
the constraint map listed in its (sorted `std::map`) iteration order. -/
structure DependencyProviderOps (PP V Priority : Type) : Type where
  prioritize : PP → Ranges V → PackageResolutionStatistics → Priority
  choose_version : PP → Ranges V → Option V
  get_dependencies : PP → V → Option (List (PP × Ranges V))

/-- `conflict_tracker[p]`: `std::map::operator[]` with default
insertion. -/
def trackerGet (tracker : List (Nat × PackageResolutionStatistics))
    (p : Nat) : PackageResolutionStatistics :=
  (lookupA tracker p).getD ⟨0, 0, 0, 0⟩

/-- The satisfier-cause statistics loop after `unit_propagation` in
`resolve`. -/
def upStatsLoop {V M : Type} (store : List (Incompat Nat V M)) :
    List (Nat × Nat) → List (Nat × PackageResolutionStatistics) →
    Option (List (Nat × PackageResolutionStatistics))
  | [], tracker => some tracker
  | (affected, incompat) :: rest, tracker =>
      let s := trackerGet tracker affected
      let tracker := assocSet tracker affected
        { s with unit_propagation_affected := s.unit_propagation_affected + 1 }
      match store[incompat]? with
      | none => none
      | some inc =>
          upStatsLoop store rest
            (inc.terms.toList.foldl
              (fun tk pt =>
                if pt.1 = affected then tk
                else
                  assocSet tk pt.1
                    { trackerGet tk pt.1 with
                        unit_propagation_culprit :=
                          (trackerGet tk pt.1).unit_propagation_culprit + 1 })
              tracker)

/-- The dependency-conflict statistics loop of `resolve`. -/
def depStats {V M : Type} (inc : Incompat Nat V M) (next : Nat)
    (tracker : List (Nat × PackageResolutionStatistics)) :
    List (Nat × PackageResolutionStatistics) :=
  inc.terms.toList.foldl
    (fun tk pt =>
      if pt.1 = next then tk
      else
        assocSet tk pt.1
          { trackerGet tk pt.1 with
              dependencies_culprit :=
                (trackerGet tk pt.1).dependencies_culprit + 1 })
    tracker

/-- The result-building loop of `resolve` when no package is picked:
`result.emplace(package_store[id], v)` for every decision. -/
def solutionNames {PP V : Type} (pstore : HashArena PP) :
    List (Nat × V) → Option (List (PP × V))
  | [] => some []
  | (id, v) :: rest =>
      match pstore.get id with
      | none => none
      | some pp =>
          match solutionNames pstore rest with
          | none => none
          | some tail => some ((pp, v) :: tail)

/-- Outcome of the `while (true)` driver loop of `resolve`
(`src/cdcl_solver.cpp`): `fatal` is the `throw std::logic_error` raised
when `choose_version` answers a version outside the picked range,
carrying the state exactly as it stands at the check; `abort` is any
other exception or undefined behaviour inside the loop; `outOfFuel`
truncates the unbounded loop. -/
inductive ResolveResult (PP V M Priority : Type) : Type where
  | ok (solution : List (PP × V))
  | fatal (st : State PP V M Priority) (package : Nat) (version : V)
      (range : Ranges V)
  | abort
  | outOfFuel (st : State PP V M Priority)
deriving DecidableEq

/-- The driver loop of `resolve` (`src/cdcl_solver.cpp`), fuel-indexed:
`tracker` is the driver-local `conflict_tracker`, `added` the
`added_dependencies` per-package version sets, `next` the current
package ID. -/
def resolveLoop {PP V M Priority : Type} [DecidableEq PP] [DecidableEq V]
    [LinearOrder V] [LinearOrder Priority] [DecidableEq Priority]
    (provider : DependencyProviderOps PP V Priority) :
    Nat → State PP V M Priority →
    List (Nat × PackageResolutionStatistics) → List (Nat × List V) →
    Nat → ResolveResult PP V M Priority
  | 0, st, _, _, _ => .outOfFuel st
  | fuel + 1, st, tracker, added, next =>
      match State.unit_propagation (fuel + 1) st next with
      | none => .abort
      | some (st, satisfier_causes) =>
      match upStatsLoop st.incompatibility_store satisfier_causes tracker with
      | none => .abort
      | some tracker =>
      match st.partial_solution.pick_highest_priority_pkg
          (fun q r =>
            (st.package_store.get q).map
              (fun pp => provider.prioritize pp r (trackerGet tracker q))) with
      | none => .abort
      | some (next_pick, psq) =>
      let st := { st with partial_solution := psq }
      match next_pick with
      | none =>
          match PartialSolution.extract_solution st.partial_solution.base with
          | none => .abort
          | some sol =>
              match solutionNames st.package_store sol with
              | none => .abort
              | some result => .ok result
      | some (p, range) =>
          match st.package_store.get p with
          | none => .abort
          | some next_pp =>
          match provider.choose_version next_pp range with
          | none =>
              match Incompat.no_versions p (Term.Positive range) with
              | none => .abort
              | some inc =>
                  match st.add_incompatibility inc with
                  | none => .abort
                  | some st => resolveLoop provider fuel st tracker added p
          | some v =>
              if !range.contains v then .fatal st p v range
              else
                let cur := (lookupA added p).getD []
                let is_new := !(decide (v ∈ cur))
                let added := assocSet added p
                  (if v ∈ cur then cur else cur ++ [v])
                if is_new then
                  match provider.get_dependencies next_pp v with
                  | none =>
                      match Incompat.no_versions p
                          (Term.Positive (Ranges.singleton v)) with
                      | none => .abort
                      | some inc =>
                          match st.add_incompatibility inc with
                          | none => .abort
                          | some st =>
                              resolveLoop provider fuel st tracker added p
                  | some deps_vec =>
                      match st.add_package_version_dependencies next_pp v
                          deps_vec with
                      | none => .abort
                      | some (incomp_id, st) =>
                          match incomp_id with
                          | none =>
                              resolveLoop provider fuel st tracker added p
                          | some iid =>
                              let pp2 := st.package_store.alloc next_pp
                              let st :=
                                { st with package_store := pp2.2 }
                              let s := trackerGet tracker pp2.1
                              let tracker := assocSet tracker pp2.1
                                { s with dependencies_affected :=
                                    s.dependencies_affected + 1 }
                              match st.incompatibility_store[iid]? with
                              | none => .abort
                              | some inc =>
                                  resolveLoop provider fuel st
                                    (depStats inc p tracker) added p
                else
                  match st.partial_solution.base.add_decision p v with
                  | none => .abort
                  | some ps' =>
                      resolveLoop provider fuel
                        { st with partial_solution :=
                            { st.partial_solution with base := ps' } }
                        tracker added p

/-! ## Step and reachability relations for the partial solution -/

/-- One mutating operation on the partial solution, with arbitrary
arguments (a `none` result is a C++ exception, which ends the program, so
it produces no successor state). -/
inductive PSStep (P V M : Type) [DecidableEq P] [LinearOrder V] :
    PartialSolution P V → PartialSolution P V → Prop where
  | decision (ps : PartialSolution P V) (package : P) (version : V)
      (ps' : PartialSolution P V)
      (h : PartialSolution.add_decision ps package version = some ps') :
      PSStep P V M ps ps'
  | derivation (ps : PartialSolution P V) (package : P) (cause : Nat)
      (store : List (Incompat P V M)) (ps' : PartialSolution P V)
      (h : PartialSolution.add_derivation ps package cause store = some ps') :
      PSStep P V M ps ps'
  | backtrack (ps : PartialSolution P V) (dl : Nat) :
      PSStep P V M ps (PartialSolution.backtrack ps dl)

/-- `PSStep` restricted to backtracks that do not exceed the current
decision level (the only way the solver ever calls `backtrack`). -/
inductive PSStepOk (P V M : Type) [DecidableEq P] [LinearOrder V] :
    PartialSolution P V → PartialSolution P V → Prop where
  | decision (ps : PartialSolution P V) (package : P) (version : V)
      (ps' : PartialSolution P V)
      (h : PartialSolution.add_decision ps package version = some ps') :
      PSStepOk P V M ps ps'
  | derivation (ps : PartialSolution P V) (package : P) (cause : Nat)
      (store : List (Incompat P V M)) (ps' : PartialSolution P V)
      (h : PartialSolution.add_derivation ps package cause store = some ps') :
      PSStepOk P V M ps ps'
  | backtrack (ps : PartialSolution P V) (dl : Nat)
      (hdl : dl ≤ ps.current_decision_level) :
      PSStepOk P V M ps (PartialSolution.backtrack ps dl)

/-- States reachable from the empty partial solution by arbitrary
successful operations. -/
inductive PSReachable (P V M : Type) [DecidableEq P] [LinearOrder V] :
    PartialSolution P V → Prop where
  | init : PSReachable P V M PartialSolution.empty
  | step {ps ps' : PartialSolution P V} (hr : PSReachable P V M ps)
      (hs : PSStep P V M ps ps') : PSReachable P V M ps'

/-- States reachable from the empty partial solution when backtracks
never exceed the current decision level. -/
inductive PSReachableOk (P V M : Type) [DecidableEq P] [LinearOrder V] :
    PartialSolution P V → Prop where
  | init : PSReachableOk P V M PartialSolution.empty
  | step {ps ps' : PartialSolution P V} (hr : PSReachableOk P V M ps)
      (hs : PSStepOk P V M ps ps') : PSReachableOk P V M ps'

/-- The number of package entries currently holding a `Decision`. -/
def decisionCount {P V : Type} [LinearOrder V] (ps : PartialSolution P V) : Nat :=
  (ps.package_assignments.filter
    (fun e => e.2.assignments_intersection.isDecision)).length

/-! ## Invariant predicates for ranges -/

section RangeInvariants

variable {V : Type} [LinearOrder V]

/-- The gap test described by the specification and by the code's own
comment on `end_before_start_with_gap`: two abutting segments stay
separate only when the shared value is excluded by *both* sides. -/
def strong_gap : Bound V → Bound V → Bool
  | .finite ev ei, .finite sv si =>
      decide (ev < sv) ||
        (decide (ev = sv) && decide (ei = Inclusivity.Open) &&
          decide (si = Inclusivity.Open))
  | _, _ => false

/-- Sorted/valid/gap-separated chain of segments, parameterised by the
gap test used between adjacent segments. -/
def chainWFWith (gap : Bound V → Bound V → Bool) : List (Ival V) → Bool
  | [] => true
  | [(s, e)] => valid_segment s e
  | (s, e) :: (s', e') :: rest =>
      valid_segment s e && gap e s' && chainWFWith gap ((s', e') :: rest)

/-- The segment-sequence invariant exactly as the source's helper
predicates express it: every segment valid, adjacent segments separated
according to `end_before_start_with_gap`. -/
def segmentsWF (r : Ranges V) : Bool :=
  chainWFWith end_before_start_with_gap r.segments

/-- The segment-sequence invariant with the specification's gap rule
(abutting segments merge unless both boundaries are open). -/
def segmentsWFStrong (r : Ranges V) : Bool :=
  chainWFWith strong_gap r.segments

/-- All segments of a range are valid (the part of the invariant needed
for intersection-with-full to be the identity). -/
def allValid (r : Ranges V) : Bool :=
  r.segments.all (fun seg => valid_segment seg.1 seg.2)

end RangeInvariants

/-! ## Spec-side helpers for the incompatibility relation (claim C3) -/

section RelationSpec

variable {P V : Type} [DecidableEq P] [LinearOrder V]

/-- Classification of one incompatibility term against the looked-up
partial-solution term; a missing term behaves exactly like
`Inconclusive` in `Incompatibility::relation`, so both are mapped to
`Inconclusive` ("unsettled"). -/
def classify (lookup : P → Option (Term V)) (pt : P × Term V) : Relation :=
  match lookup pt.1 with
  | some t => pt.2.relation_with t
  | none => Relation.Inconclusive

/-- The unsettled entries of a term list (relation `Inconclusive` or no
looked-up term). -/
def unsettledOf (lookup : P → Option (Term V)) (ts : List (P × Term V)) :
    List (P × Term V) :=
  ts.filter (fun pt => decide (classify lookup pt = Relation.Inconclusive))

/-- The first entry whose relation is `Contradicted`, in iteration
order. -/
def firstContra (lookup : P → Option (Term V)) (ts : List (P × Term V)) :
    Option (P × Term V) :=
  ts.find? (fun pt => decide (classify lookup pt = Relation.Contradicted))

end RelationSpec

/-- The previous-satisfier level as the specification words it: the
maximum decision level over the entries of the (already re-searched)
satisfier map, clamped below at 1. -/
def specPrevLevel {P : Type} (m : SmallMap P SatInfo) : Nat :=
  (m.toList.map (fun e => e.2.2.2)).foldr max 1

/-- Abstraction relation between a `SmallMap` and the plain finite map it
implements: internal well-formedness, key-uniqueness of the model,
agreement of `len` and of `get` on every key. -/
def SmallMap.Abs {K W : Type} [DecidableEq K] (m : SmallMap K W)
    (l : List (K × W)) : Prop :=
  m.WF ∧ (l.map Prod.fst).Nodup ∧ m.len = l.length ∧ ∀ k, m.get k = lookupA l k

/-- A strong-invariant chain placed after a previous end bound `e0`:
either empty, or a strong chain whose first start is strong-gap-separated
from `e0`. -/
def chainAfter {V : Type} [LinearOrder V] (e0 : Bound V) (l : List (Ival V)) :
    Bool :=
  match l with
  | [] => true
  | (s, _) :: _ => strong_gap e0 s && chainWFWith strong_gap l

/-- The inductive invariant tying `current_decision_level` to the layout
of `package_assignments`: the first `current_decision_level` entries are
exactly the decisions, the entry at index `i < current_decision_level`
was decided at level `i + 1` and first touched no later than level `i`,
and every entry was first touched at or below the current level. -/
def PSInv {P V : Type} [LinearOrder V] (ps : PartialSolution P V) : Prop :=
  ps.current_decision_level ≤ ps.package_assignments.length ∧
  (∀ i, i < ps.current_decision_level →
    ∃ e, ps.package_assignments[i]? = some e ∧
      e.2.assignments_intersection.isDecision = true ∧
      e.2.highest_decision_level = i + 1 ∧
      e.2.smallest_decision_level ≤ i) ∧
  (∀ i e, ps.current_decision_level ≤ i → ps.package_assignments[i]? = some e →
    e.2.assignments_intersection.isDecision = false) ∧
  (∀ e ∈ ps.package_assignments,
    e.2.smallest_decision_level ≤ ps.current_decision_level)

/-! ## Association-list lemmas -/

section AssocLemmas

variable {K W : Type} [DecidableEq K]

theorem lookupA_nil (x : K) : lookupA ([] : List (K × W)) x = none := rfl

theorem lookupA_cons (kv : K × W) (rest : List (K × W)) (x : K) :
    lookupA (kv :: rest) x = if kv.1 = x then some kv.2 else lookupA rest x := rfl

theorem assocSet_nil (k : K) (v : W) : assocSet ([] : List (K × W)) k v = [(k, v)] :=
  rfl

theorem assocSet_cons (kv : K × W) (rest : List (K × W)) (k : K) (v : W) :
    assocSet (kv :: rest) k v =
      if kv.1 = k then (kv.1, v) :: rest else kv :: assocSet rest k v := rfl

theorem eraseA_cons (kv : K × W) (rest : List (K × W)) (k : K) :
    eraseA (kv :: rest) k =
      if kv.1 = k then eraseA rest k else kv :: eraseA rest k := by
  simp only [eraseA, List.filter_cons]
  by_cases h : kv.1 = k <;> simp [h]

theorem lookupA_eq_none (l : List (K × W)) (x : K)
    (h : x ∉ l.map Prod.fst) : lookupA l x = none := by
  induction l with
  | nil => rfl
  | cons kv rest ih =>
      simp only [List.map_cons, List.mem_cons, not_or] at h
      have hne : kv.1 ≠ x := fun he => h.1 he.symm
      rw [lookupA_cons, if_neg hne]
      exact ih h.2

theorem lookupA_assocSet (l : List (K × W)) (k : K) (v : W) (x : K) :
    lookupA (assocSet l k v) x = if k = x then some v else lookupA l x := by
  induction l with
  | nil => rw [assocSet_nil, lookupA_cons, lookupA_nil]
  | cons kv rest ih =>
      rw [assocSet_cons]
      by_cases hk : kv.1 = k
      · subst hk
        rw [if_pos rfl, lookupA_cons, lookupA_cons]
        by_cases hx : kv.1 = x
        · rw [if_pos hx, if_pos hx]
        · rw [if_neg hx, if_neg hx, if_neg hx]
      · rw [if_neg hk, lookupA_cons, lookupA_cons]
        by_cases hx : kv.1 = x
        · have : ¬ k = x := fun h => hk (hx.trans h.symm)
          rw [if_pos hx, if_neg this, if_pos hx]
        · rw [if_neg hx, if_neg hx, ih]

theorem length_assocSet (l : List (K × W)) (k : K) (v : W) :
    (assocSet l k v).length =
      if (lookupA l k).isSome then l.length else l.length + 1 := by
  induction l with
  | nil => rw [assocSet_nil, lookupA_nil]; rfl
  | cons kv rest ih =>
      rw [assocSet_cons, lookupA_cons]
      by_cases hk : kv.1 = k
      · rw [if_pos hk, if_pos hk]
        simp
      · rw [if_neg hk, if_neg hk, List.length_cons, List.length_cons, ih]
        by_cases h : (lookupA rest k).isSome <;> simp [h]

theorem mem_keys_assocSet (l : List (K × W)) (k : K) (v : W) (x : K) :
    x ∈ (assocSet l k v).map Prod.fst ↔ x ∈ l.map Prod.fst ∨ x = k := by
  induction l with
  | nil => simp [assocSet_nil]
  | cons kv rest ih =>
      rw [assocSet_cons]
      by_cases hk : kv.1 = k
      · subst hk
        rw [if_pos rfl]
        simp only [List.map_cons, List.mem_cons]
        tauto
      · rw [if_neg hk]
        simp only [List.map_cons, List.mem_cons, ih]
        tauto

theorem nodup_keys_assocSet (l : List (K × W)) (k : K) (v : W)
    (h : (l.map Prod.fst).Nodup) : ((assocSet l k v).map Prod.fst).Nodup := by
  induction l with
  | nil => simp [assocSet_nil]
  | cons kv rest ih =>
      simp only [List.map_cons, List.nodup_cons] at h
      rw [assocSet_cons]
      by_cases hk : kv.1 = k
      · subst hk
        rw [if_pos rfl]
        simp only [List.map_cons, List.nodup_cons]
        exact h
      · rw [if_neg hk]
        simp only [List.map_cons, List.nodup_cons]
        refine ⟨?_, ih h.2⟩
        rw [mem_keys_assocSet]
        rintro (hmem | rfl)
        · exact h.1 hmem
        · exact hk rfl

theorem lookupA_eraseA (l : List (K × W)) (k x : K) :
    lookupA (eraseA l k) x = if x = k then none else lookupA l x := by
  induction l with
  | nil =>
      show lookupA [] x = if x = k then none else lookupA [] x
      by_cases hx : x = k <;> simp [hx, lookupA_nil]
  | cons kv rest ih =>
      rw [eraseA_cons]
      by_cases hk : kv.1 = k
      · subst hk
        rw [if_pos rfl, ih, lookupA_cons]
        by_cases hx : x = kv.1
        · rw [if_pos hx, if_pos hx]
        · rw [if_neg hx, if_neg hx, if_neg (fun h => hx h.symm)]
      · rw [if_neg hk, lookupA_cons]
        by_cases hx : kv.1 = x
        · have : ¬ x = k := fun h => hk (hx.trans h)
          rw [if_pos hx, if_neg this, lookupA_cons, if_pos hx]
        · rw [if_neg hx, ih, lookupA_cons, if_neg hx]

theorem eraseA_of_not_mem (l : List (K × W)) (k : K)
    (h : lookupA l k = none) : eraseA l k = l := by
  induction l with
  | nil => rfl
  | cons kv rest ih =>
      rw [lookupA_cons] at h
      by_cases hk : kv.1 = k
      · rw [if_pos hk] at h
        exact absurd h (by simp)
      · rw [if_neg hk] at h
        rw [eraseA_cons, if_neg hk, ih h]

theorem length_eraseA (l : List (K × W)) (k : K)
    (h : (l.map Prod.fst).Nodup) :
    (eraseA l k).length =
      if (lookupA l k).isSome then l.length - 1 else l.length := by
  induction l with
  | nil => simp [eraseA, lookupA_nil]
  | cons kv rest ih =>
      simp only [List.map_cons, List.nodup_cons] at h
      rw [eraseA_cons, lookupA_cons]
      by_cases hk : kv.1 = k
      · subst hk
        have hnone : lookupA rest kv.1 = none := lookupA_eq_none rest kv.1 h.1
        rw [if_pos rfl, if_pos rfl, eraseA_of_not_mem rest kv.1 hnone]
        simp
      · rw [if_neg hk, if_neg hk, List.length_cons, ih h.2]
        by_cases hs : (lookupA rest k).isSome
        · have hlen : 1 ≤ rest.length := by
            cases rest with
            | nil => rw [lookupA_nil] at hs; simp at hs
            | cons a b => simp
          simp only [hs, if_true, List.length_cons]
          omega
        · simp [hs]

theorem nodup_keys_eraseA (l : List (K × W)) (k : K)
    (h : (l.map Prod.fst).Nodup) : ((eraseA l k).map Prod.fst).Nodup :=
  ((List.filter_sublist l).map Prod.fst).nodup h

end AssocLemmas

/-! ## SmallMap lemmas and claim C10 -/

section SmallMapLemmas

variable {K W : Type} [DecidableEq K]

theorem emplace3_lookup (a b : K × W) (k : K) (v : W) (ha : ¬ a.1 = k)
    (hb : ¬ b.1 = k) (x : K) :
    lookupA (emplaceA (emplaceA (emplaceA [] a.1 a.2) b.1 b.2) k v) x =
      if a.1 = x then some a.2
      else if b.1 = x then some b.2
      else if k = x then some v else none := by
  have h1 : emplaceA ([] : List (K × W)) a.1 a.2 = [(a.1, a.2)] := rfl
  rw [h1]
  by_cases hab : a.1 = b.1
  · have h2 : emplaceA [(a.1, a.2)] b.1 b.2 = [(a.1, a.2)] := by
      simp [emplaceA, lookupA_cons, lookupA_nil, hab]
    rw [h2]
    have h3 : emplaceA [(a.1, a.2)] k v = [(a.1, a.2), (k, v)] := by
      simp [emplaceA, lookupA_cons, lookupA_nil, ha]
    rw [h3]
    by_cases hax : a.1 = x
    · simp [lookupA_cons, hax]
    · have hbx : ¬ b.1 = x := by rw [← hab]; exact hax
      simp [lookupA_cons, lookupA_nil, hax, hbx]
  · have h2 : emplaceA [(a.1, a.2)] b.1 b.2 = [(a.1, a.2), (b.1, b.2)] := by
      simp [emplaceA, lookupA_cons, lookupA_nil, hab]
    rw [h2]
    have h3 : emplaceA [(a.1, a.2), (b.1, b.2)] k v =
        [(a.1, a.2), (b.1, b.2), (k, v)] := by
      simp [emplaceA, lookupA_cons, lookupA_nil, ha, hb]
    rw [h3]
    by_cases hax : a.1 = x
    · simp [lookupA_cons, hax]
    · by_cases hbx : b.1 = x
      · simp [lookupA_cons, hax, hbx]
      · simp [lookupA_cons, lookupA_nil, hax, hbx]

theorem SmallMap.get_insert (m : SmallMap K W) (k : K) (v : W) (x : K) :
    (m.insert k v).get x = if k = x then some v else m.get x := by
  cases m with
  | m0 =>
      by_cases h : k = x <;> simp [insert, get, h]
  | m1 kv =>
      by_cases h : kv.1 = k
      · subst h
        simp only [insert, if_pos rfl, get]
        by_cases hx : kv.1 = x <;> simp [hx]
      · simp only [insert, if_neg h, get]
        by_cases hx : kv.1 = x
        · have : ¬ k = x := fun he => h (hx.trans he.symm)
          simp [hx, this]
        · by_cases hk : k = x <;> simp [hx, hk]
  | m2 a b =>
      by_cases ha : a.1 = k
      · subst ha
        simp only [insert, if_pos rfl, get]
        by_cases hax : a.1 = x <;> simp [hax]
      · by_cases hb : b.1 = k
        · simp only [insert, if_neg ha, if_pos hb, get]
          subst hb
          by_cases hax : a.1 = x
          · have : ¬ b.1 = x := fun he => ha (hax.trans he.symm)
            simp [hax, this]
          · by_cases hbx : b.1 = x <;> simp [hax, hbx]
        · simp only [insert, if_neg ha, if_neg hb, get]
          rw [emplace3_lookup a b k v ha hb x]
          by_cases hax : a.1 = x
          · have : ¬ k = x := fun he => ha (hax.trans he.symm)
            simp [hax, this]
          · by_cases hbx : b.1 = x
            · have : ¬ k = x := fun he => hb (hbx.trans he.symm)
              simp [hax, hbx, this]
            · by_cases hk : k = x <;> simp [hax, hbx, hk]
  | mbig l =>
      simp only [insert, get]
      exact lookupA_assocSet l k v x

theorem SmallMap.get_remove (m : SmallMap K W) (hwf : m.WF) (k x : K) :
    (m.remove k).get x = if x = k then none else m.get x := by
  cases m with
  | m0 =>
      simp only [remove, get]
      by_cases h : x = k <;> simp [h]
  | m1 kv =>
      by_cases h : kv.1 = k
      · subst h
        simp only [remove, if_pos rfl, get]
        by_cases hx : x = kv.1
        · simp [hx]
        · have : ¬ kv.1 = x := fun he => hx he.symm
          simp [hx, this]
      · simp only [remove, if_neg h, get]
        by_cases hx : x = k
        · subst hx
          simp [h]
        · simp [hx]
  | m2 a b =>
      have hab : a.1 ≠ b.1 := hwf
      by_cases ha : a.1 = k
      · subst ha
        simp only [remove, if_pos rfl, get]
        by_cases hx : x = a.1
        · have hbx : ¬ b.1 = x := fun he => hab (he.trans hx).symm
          have hba : ¬ b.1 = a.1 := fun he => hab he.symm
          simp [hx, hbx, hba]
        · have : ¬ a.1 = x := fun he => hx he.symm
          simp [hx, this]
      · by_cases hb : b.1 = k
        · subst hb
          simp only [remove, if_neg ha, if_pos rfl, get]
          by_cases hx : x = b.1
          · subst hx
            simp [ha]
          · have : ¬ b.1 = x := fun he => hx he.symm
            simp [hx, this]
        · simp only [remove, if_neg ha, if_neg hb, get]
          by_cases hx : x = k
          · subst hx
            have h1 : ¬ a.1 = x := ha
            have h2 : ¬ b.1 = x := hb
            simp [h1, h2]
          · simp [hx]
  | mbig l =>
      simp only [remove, get]
      exact lookupA_eraseA l k x

theorem SmallMap.abs_insert {m : SmallMap K W} {l : List (K × W)}
    (h : m.Abs l) (k : K) (v : W) : (m.insert k v).Abs (assocSet l k v) := by
  obtain ⟨hwf, hnd, hlen, hget⟩ := h
  refine ⟨?_, nodup_keys_assocSet l k v hnd, ?_, ?_⟩
  · -- internal well-formedness is preserved
    cases m with
    | m0 => trivial
    | m1 kv =>
        by_cases hk : kv.1 = k
        · simp [insert, hk, WF]
        · simp only [insert, if_neg hk]
          exact hk
    | m2 a b =>
        have hab : a.1 ≠ b.1 := hwf
        by_cases ha : a.1 = k
        · simp only [insert, if_pos ha, WF]
          exact hab
        · by_cases hb : b.1 = k
          · simp only [insert, if_neg ha, if_pos hb, WF]
            exact hab
          · simp only [insert, if_neg ha, if_neg hb, WF]
            have h1 : emplaceA ([] : List (K × W)) a.1 a.2 = [(a.1, a.2)] := rfl
            have h2 : emplaceA [(a.1, a.2)] b.1 b.2 = [(a.1, a.2), (b.1, b.2)] := by
              simp [emplaceA, lookupA_cons, lookupA_nil, hab]
            have h3 : emplaceA [(a.1, a.2), (b.1, b.2)] k v =
                [(a.1, a.2), (b.1, b.2), (k, v)] := by
              simp [emplaceA, lookupA_cons, lookupA_nil, ha, hb]
            rw [h1, h2, h3]
            simp only [List.map_cons, List.map_nil, List.nodup_cons,
              List.mem_cons, List.mem_singleton, List.not_mem_nil]
            refine ⟨?_, ?_, ?_⟩
            · rintro (he | he | he)
              · exact hab he
              · exact ha he
              · exact he
            · rintro (he | he)
              · exact hb he
              · exact he
            · simp
    | mbig lm => exact nodup_keys_assocSet lm k v hwf
  · -- length agreement
    have hiff : (SmallMap.get m k).isSome = (lookupA l k).isSome := by rw [hget]
    cases m with
    | m0 =>
        have : l = [] := List.length_eq_zero.mp hlen.symm
        subst this
        simp [insert, assocSet_nil, SmallMap.len]
    | m1 kv =>
        by_cases hk : kv.1 = k
        · have hsome : (lookupA l k).isSome := by
            rw [← hiff]; simp [SmallMap.get, hk]
          rw [length_assocSet, if_pos hsome, ← hlen]
          simp [insert, hk, SmallMap.len]
        · have hnone : (lookupA l k).isSome = false := by
            rw [← hiff]; simp [SmallMap.get, hk]
          rw [length_assocSet, hnone]
          simp only [if_false, Bool.false_eq_true, ← hlen]
          simp [insert, hk, SmallMap.len]
    | m2 a b =>
        by_cases ha : a.1 = k
        · have hsome : (lookupA l k).isSome := by
            rw [← hiff]; simp [SmallMap.get, ha]
          rw [length_assocSet, if_pos hsome, ← hlen]
          simp [insert, ha, SmallMap.len]
        · by_cases hb : b.1 = k
          · have hsome : (lookupA l k).isSome := by
              rw [← hiff]; simp [SmallMap.get, ha, hb]
            rw [length_assocSet, if_pos hsome, ← hlen]
            simp [insert, ha, hb, SmallMap.len]
          · have hnone : (lookupA l k).isSome = false := by
              rw [← hiff]; simp [SmallMap.get, ha, hb]
            rw [length_assocSet, hnone]
            simp only [if_false, Bool.false_eq_true, ← hlen]
            have hab : a.1 ≠ b.1 := hwf
            have h1 : emplaceA ([] : List (K × W)) a.1 a.2 = [(a.1, a.2)] := rfl
            have h2 : emplaceA [(a.1, a.2)] b.1 b.2 = [(a.1, a.2), (b.1, b.2)] := by
              simp [emplaceA, lookupA_cons, lookupA_nil, hab]
            have h3 : emplaceA [(a.1, a.2), (b.1, b.2)] k v =
                [(a.1, a.2), (b.1, b.2), (k, v)] := by
              simp [emplaceA, lookupA_cons, lookupA_nil, ha, hb]
            simp [insert, ha, hb, SmallMap.len, h1, h2, h3]
    | mbig lm =>
        simp only [insert, SmallMap.len] at hlen ⊢
        rw [length_assocSet, length_assocSet]
        have : lookupA lm k = lookupA l k := hget k
        rw [this, hlen]
  · -- pointwise get agreement
    intro x
    rw [SmallMap.get_insert, lookupA_assocSet, hget x]

theorem SmallMap.abs_remove {m : SmallMap K W} {l : List (K × W)}
    (h : m.Abs l) (k : K) : (m.remove k).Abs (eraseA l k) := by
  obtain ⟨hwf, hnd, hlen, hget⟩ := h
  refine ⟨?_, nodup_keys_eraseA l k hnd, ?_, ?_⟩
  · cases m with
    | m0 => trivial
    | m1 kv =>
        by_cases hk : kv.1 = k <;> simp [remove, hk, WF]
    | m2 a b =>
        by_cases ha : a.1 = k
        · simp [remove, ha, WF]
        · by_cases hb : b.1 = k
          · simp [remove, ha, hb, WF]
          · simp only [remove, if_neg ha, if_neg hb]
            exact hwf
    | mbig lm => exact nodup_keys_eraseA lm k hwf
  · have hiff : (SmallMap.get m k).isSome = (lookupA l k).isSome := by rw [hget]
    cases m with
    | m0 =>
        have : l = [] := List.length_eq_zero.mp hlen.symm
        subst this
        simp [remove, eraseA, SmallMap.len]
    | m1 kv =>
        by_cases hk : kv.1 = k
        · have hsome : (lookupA l k).isSome := by
            rw [← hiff]; simp [SmallMap.get, hk]
          rw [length_eraseA l k hnd, if_pos hsome, ← hlen]
          simp [remove, hk, SmallMap.len]
        · have hnone : (lookupA l k).isSome = false := by
            rw [← hiff]; simp [SmallMap.get, hk]
          rw [length_eraseA l k hnd, hnone]
          simp only [if_false, Bool.false_eq_true, ← hlen]
          simp [remove, hk, SmallMap.len]
    | m2 a b =>
        by_cases ha : a.1 = k
        · have hsome : (lookupA l k).isSome := by
            rw [← hiff]; simp [SmallMap.get, ha]
          rw [length_eraseA l k hnd, if_pos hsome, ← hlen]
          simp [remove, ha, SmallMap.len]
        · by_cases hb : b.1 = k
          · have hsome : (lookupA l k).isSome := by
              rw [← hiff]; simp [SmallMap.get, ha, hb]
            rw [length_eraseA l k hnd, if_pos hsome, ← hlen]
            simp [remove, ha, hb, SmallMap.len]
          · have hnone : (lookupA l k).isSome = false := by
              rw [← hiff]; simp [SmallMap.get, ha, hb]
            rw [length_eraseA l k hnd, hnone]
            simp only [if_false, Bool.false_eq_true, ← hlen]
            simp [remove, ha, hb, SmallMap.len]
    | mbig lm =>
        simp only [remove, SmallMap.len] at hlen ⊢
        rw [length_eraseA lm k hwf, length_eraseA l k hnd]
        have : lookupA lm k = lookupA l k := hget k
        rw [this, hlen]
  · intro x
    rw [SmallMap.get_remove m hwf, lookupA_eraseA, hget x]

theorem smallMap_abs_runOps (ops : List (K × Option W)) :
    (runOps ops).Abs (specRunOps ops) := by
  suffices h : ∀ (m : SmallMap K W) (l : List (K × W)), m.Abs l →
      (ops.foldl
        (fun m op =>
          match op with
          | (k, some v) => m.insert k v
          | (k, none) => m.remove k) m).Abs (ops.foldl specApplyOp l) by
    exact h SmallMap.m0 [] ⟨trivial, List.nodup_nil, rfl, fun _ => rfl⟩
  induction ops with
  | nil => intro m l h; exact h
  | cons op rest ih =>
      intro m l h
      obtain ⟨k, v?⟩ := op
      cases v? with
      | some v => exact ih _ _ (SmallMap.abs_insert h k v)
      | none => exact ih _ _ (SmallMap.abs_remove h k)

end SmallMapLemmas

/-- C10: `SmallMap` is observationally a plain finite map, whatever its
internal 0/1/2-inline or spilled representation: after any sequence of
`insert`/`remove` operations, `get` agrees with lookup in the plain
key-unique association map built by the same operations, `len` is the
number of distinct keys present, and inserting an existing key overwrites
its value without changing `len`. -/
theorem smallMap_refines_plain_map {K W : Type} [DecidableEq K]
    (ops : List (K × Option W)) (k : K) (v : W) :
    (runOps ops).get k = lookupA (specRunOps ops) k ∧
    ((specRunOps ops).map Prod.fst).Nodup ∧
    (runOps ops).len = (specRunOps ops).length ∧
    ((lookupA (specRunOps ops) k).isSome →
      (runOps (ops ++ [(k, some v)])).len = (runOps ops).len ∧
      (runOps (ops ++ [(k, some v)])).get k = some v) := by
  obtain ⟨hwf, hnd, hlen, hget⟩ := smallMap_abs_runOps (W := W) ops
  have happend : runOps (ops ++ [(k, some v)]) = (runOps ops).insert k v := by
    simp [runOps, List.foldl_append]
  refine ⟨hget k, hnd, hlen, fun hsome => ⟨?_, ?_⟩⟩
  · have habs := SmallMap.abs_insert ⟨hwf, hnd, hlen, hget⟩ k v
    rw [happend, habs.2.2.1, length_assocSet, if_pos hsome, hlen]
  · rw [happend, SmallMap.get_insert, if_pos rfl]

/-- Witness for C10 at a concrete operation script. -/
theorem smallMap_refines_plain_map_witness :
    (lookupA (specRunOps [((1 : Nat), some (10 : Nat)), (2, some 20),
        (3, some 30), (2, none), (1, some 99)]) 1).isSome = true ∧
    (runOps ([((1 : Nat), some (10 : Nat)), (2, some 20), (3, some 30),
        (2, none), (1, some 99)] ++ [(1, some 5)])).len =
      (runOps [((1 : Nat), some (10 : Nat)), (2, some 20), (3, some 30),
        (2, none), (1, some 99)]).len := by
  refine ⟨by decide, ?_⟩
  exact ((smallMap_refines_plain_map
    [((1 : Nat), some (10 : Nat)), (2, some 20), (3, some 30), (2, none),
      (1, some 99)] 1 5).2.2.2 (by decide)).1

/-! ## Claim C2: the identity of term intersection -/

section TermIdentity

variable {V : Type} [LinearOrder V]

theorem interGoF_full_right (l : List (Ival V))
    (h : ∀ seg ∈ l, valid_segment seg.1 seg.2 = true) :
    ∀ fuel, l.length ≤ fuel →
      Ranges.interGoF fuel l [((Bound.unbounded : Bound V), Bound.unbounded)] = l := by
  induction l with
  | nil => intro fuel _; cases fuel <;> rfl
  | cons seg rest ih =>
      intro fuel hfuel
      obtain ⟨n, rfl⟩ : ∃ n, fuel = n + 1 := by
        cases fuel with
        | zero => simp at hfuel
        | succ n => exact ⟨n, rfl⟩
      obtain ⟨s, e⟩ := seg
      have hvalid : valid_segment s e = true := h (s, e) (List.mem_cons_self _ _)
      have h1 : left_end_is_smaller e (Bound.unbounded : Bound V) = true := by
        cases e <;> rfl
      have h2 : (if left_start_is_smaller s (Bound.unbounded : Bound V) then
          (Bound.unbounded : Bound V) else s) = s := by
        cases s <;> rfl
      simp only [Ranges.interGoF, h1, h2, if_pos, if_true, hvalid]
      rw [ih (fun seg hm => h seg (List.mem_cons_of_mem _ hm)) n
        (by simp only [List.length_cons] at hfuel; omega)]
      simp

theorem interGo_full_right (l : List (Ival V))
    (h : ∀ seg ∈ l, valid_segment seg.1 seg.2 = true) :
    Ranges.interGo l [((Bound.unbounded : Bound V), Bound.unbounded)] = l := by
  unfold Ranges.interGo
  exact interGoF_full_right l h _ (by simp)

theorem intersection_full_right (r : Ranges V) (h : allValid r = true) :
    r.intersection Ranges.full = r := by
  obtain ⟨segs⟩ := r
  unfold Ranges.intersection
  by_cases he : segs = []
  · subst he
    rw [if_pos (by simp)]
    rfl
  · rw [if_neg (by simp [he, Ranges.full])]
    have hmem : ∀ seg ∈ segs, valid_segment seg.1 seg.2 = true := by
      simp only [allValid] at h
      intro seg hm
      exact List.all_eq_true.mp h seg hm
    show (⟨Ranges.interGo segs (Ranges.full : Ranges V).segments⟩ : Ranges V) = _
    rw [show (Ranges.full : Ranges V).segments =
      [((Bound.unbounded : Bound V), Bound.unbounded)] from rfl]
    rw [interGo_full_right segs hmem]

theorem union_empty_left (r : Ranges V) :
    Ranges.union_ Ranges.empty r = r := by
  unfold Ranges.union_
  rw [if_pos (show (Ranges.empty : Ranges V).segments = [] from rfl)]

theorem union_empty_right (r : Ranges V) :
    Ranges.union_ r Ranges.empty = r := by
  unfold Ranges.union_
  by_cases he : r.segments = []
  · rw [if_pos he]
    obtain ⟨segs⟩ := r
    simp only at he
    subst he
    rfl
  · rw [if_neg he,
      if_pos (show (Ranges.empty : Ranges V).segments = [] from rfl)]

/-- C2 counterexample: in this code base `Term::any() = Negative(full)`
is *not* an identity of `Term::intersection`; intersecting it with
`Term::exact(0)` yields `Term::empty()`, not `Term::exact(0)`. -/
theorem term_any_not_identity :
    Term.any.intersection (Term.exact (0 : Int)) ≠ Term.exact 0 ∧
    Term.any.intersection (Term.exact (0 : Int)) = Term.empty ∧
    (Term.exact (0 : Int)).intersection Term.any = Term.empty := by
  refine ⟨by decide, by decide, by decide⟩

/-- C2 amended: the identity of `Term::intersection` is
`Negative(Ranges::empty())` (how the reference PubGrub defines `any`),
not this code base's `Term::any() = Negative(full)`; the positive-side
identity requires the term's segments to be valid (an invariant of every
range the code constructs), because intersecting with `full` re-filters
segments through `valid_segment`. -/
theorem negative_empty_is_intersection_identity (t : Term V)
    (h : allValid t.ranges = true) :
    (Term.Negative Ranges.empty).intersection t = t ∧
    t.intersection (Term.Negative Ranges.empty) = t := by
  obtain ⟨pol, r⟩ := t
  cases pol with
  | Positive =>
      constructor
      · show Term.intersection ⟨Polarity.Negative, Ranges.empty⟩
          ⟨Polarity.Positive, r⟩ = _
        unfold Term.intersection
        simp only [Term.is_positive, Term.is_negative]
        norm_num
        show Term.Positive (r.intersection (Ranges.negate Ranges.empty)) = _
        rw [show (Ranges.negate (Ranges.empty : Ranges V)) = Ranges.full from rfl,
          intersection_full_right r h]
        rfl
      · show Term.intersection ⟨Polarity.Positive, r⟩
          ⟨Polarity.Negative, Ranges.empty⟩ = _
        unfold Term.intersection
        simp only [Term.is_positive, Term.is_negative]
        norm_num
        show Term.Positive (r.intersection (Ranges.negate Ranges.empty)) = _
        rw [show (Ranges.negate (Ranges.empty : Ranges V)) = Ranges.full from rfl,
          intersection_full_right r h]
        rfl
  | Negative =>
      constructor
      · show Term.intersection ⟨Polarity.Negative, Ranges.empty⟩
          ⟨Polarity.Negative, r⟩ = _
        unfold Term.intersection
        simp only [Term.is_positive, Term.is_negative]
        norm_num
        show Term.Negative (Ranges.union_ Ranges.empty r) = _
        rw [union_empty_left]
        rfl
      · show Term.intersection ⟨Polarity.Negative, r⟩
          ⟨Polarity.Negative, Ranges.empty⟩ = _
        unfold Term.intersection
        simp only [Term.is_positive, Term.is_negative]
        norm_num
        show Term.Negative (Ranges.union_ r Ranges.empty) = _
        rw [union_empty_right]
        rfl

/-- Witness for the amended C2 at `t = exact(0)` over `Int`. -/
theorem negative_empty_identity_witness :
    allValid (Term.exact (0 : Int)).ranges = true ∧
    (Term.Negative Ranges.empty).intersection (Term.exact (0 : Int)) =
      Term.exact 0 :=
  ⟨by decide,
    (negative_empty_is_intersection_identity (Term.exact 0) (by decide)).1⟩

end TermIdentity

/-! ## Claim C6: complement is an involution -/

section ComplementInvolution

variable {V : Type} [LinearOrder V]

@[simp]
theorem is_finite_unbounded : (Bound.unbounded : Bound V).is_finite = false := rfl

@[simp]
theorem is_finite_finite (v : V) (i : Inclusivity) :
    (Bound.finite v i).is_finite = true := rfl

@[simp]
theorem is_unbounded_unbounded :
    (Bound.unbounded : Bound V).is_unbounded = true := rfl

@[simp]
theorem is_unbounded_finite (v : V) (i : Inclusivity) :
    (Bound.finite v i).is_unbounded = false := rfl

@[simp]
theorem flip_unbounded :
    Bound.flip_inclusivity (Bound.unbounded : Bound V) = Bound.unbounded := rfl

@[simp]
theorem is_finite_flip (b : Bound V) :
    (Bound.flip_inclusivity b).is_finite = b.is_finite := by
  cases b with
  | unbounded => rfl
  | finite v i => cases i <;> rfl

@[simp]
theorem is_unbounded_flip (b : Bound V) :
    (Bound.flip_inclusivity b).is_unbounded = b.is_unbounded := by
  cases b with
  | unbounded => rfl
  | finite v i => cases i <;> rfl

@[simp]
theorem flip_flip (b : Bound V) :
    Bound.flip_inclusivity (Bound.flip_inclusivity b) = b := by
  cases b with
  | unbounded => rfl
  | finite v i => cases i <;> rfl

theorem compGo_nil (cur : Bound V) :
    Ranges.compGo cur [] =
      if cur.is_finite then [(cur, Bound.unbounded)] else [] := rfl

theorem compGo_cons (cur s e : Bound V) (rest : List (Ival V)) :
    Ranges.compGo cur ((s, e) :: rest) =
      (if (cur.is_unbounded && s.is_finite) ||
          (cur.is_finite && s.is_finite && end_before_start_with_gap cur s)
        then [(cur, Bound.flip_inclusivity s)] else []) ++
        Ranges.compGo (Bound.flip_inclusivity e) rest := rfl

theorem gap_flip_of_strong {e s : Bound V} (h : strong_gap e s = true) :
    end_before_start_with_gap (Bound.flip_inclusivity e) s = true := by
  cases e with
  | unbounded => simp [strong_gap] at h
  | finite ev ei =>
      cases s with
      | unbounded => simp [strong_gap] at h
      | finite sv si =>
          simp only [strong_gap, Bool.or_eq_true, Bool.and_eq_true,
            decide_eq_true_eq] at h
          cases ei <;> cases si <;>
            simp only [Bound.flip_inclusivity, end_before_start_with_gap,
              Bool.or_eq_true, Bool.and_eq_true, decide_eq_true_eq] <;>
            rcases h with h | ⟨⟨h1, h2⟩, h3⟩ <;> simp_all

theorem valid_flip_of_strong {e s : Bound V} (h : strong_gap e s = true) :
    valid_segment (Bound.flip_inclusivity e) (Bound.flip_inclusivity s) = true := by
  cases e with
  | unbounded => simp [strong_gap] at h
  | finite ev ei =>
      cases s with
      | unbounded => simp [strong_gap] at h
      | finite sv si =>
          simp only [strong_gap, Bool.or_eq_true, Bool.and_eq_true,
            decide_eq_true_eq] at h
          cases ei <;> cases si <;>
            simp only [Bound.flip_inclusivity, valid_segment,
              Bool.or_eq_true, Bool.and_eq_true, decide_eq_true_eq] <;>
            rcases h with h | ⟨⟨h1, h2⟩, h3⟩ <;> simp_all

theorem strong_gap_flip_of_valid {sv ev : V} {si ei : Inclusivity}
    (h : valid_segment (Bound.finite sv si) (Bound.finite ev ei) = true) :
    strong_gap (Bound.flip_inclusivity (Bound.finite sv si))
      (Bound.flip_inclusivity (Bound.finite ev ei)) = true := by
  simp only [valid_segment, Bool.or_eq_true, Bool.and_eq_true,
    decide_eq_true_eq] at h
  cases si <;> cases ei <;>
    simp only [Bound.flip_inclusivity, strong_gap, Bool.or_eq_true,
      Bool.and_eq_true, decide_eq_true_eq] <;>
    rcases h with h | ⟨⟨h1, h2⟩, h3⟩ <;> simp_all

theorem gap_flip_of_valid {sv ev : V} {si ei : Inclusivity}
    (h : valid_segment (Bound.finite sv si) (Bound.finite ev ei) = true) :
    end_before_start_with_gap (Bound.finite sv si)
      (Bound.flip_inclusivity (Bound.finite ev ei)) = true := by
  simp only [valid_segment, Bool.or_eq_true, Bool.and_eq_true,
    decide_eq_true_eq] at h
  cases si <;> cases ei <;>
    simp only [Bound.flip_inclusivity, end_before_start_with_gap,
      Bool.or_eq_true, Bool.and_eq_true, decide_eq_true_eq] <;>
    rcases h with h | ⟨⟨h1, h2⟩, h3⟩ <;> simp_all

theorem strong_gap_finite {e s : Bound V} (h : strong_gap e s = true) :
    e.is_finite = true ∧ s.is_finite = true := by
  cases e <;> cases s <;> simp_all [strong_gap, Bound.is_finite]

theorem chainWF_head_valid {s e : Bound V} {rest : List (Ival V)}
    (h : chainWFWith strong_gap ((s, e) :: rest) = true) :
    valid_segment s e = true := by
  cases rest with
  | nil => simpa [chainWFWith] using h
  | cons hd tl =>
      obtain ⟨s', e'⟩ := hd
      simp only [chainWFWith, Bool.and_eq_true] at h
      exact h.1.1

theorem chainWF_tail {s e : Bound V} {rest : List (Ival V)}
    (h : chainWFWith strong_gap ((s, e) :: rest) = true) :
    chainAfter e rest = true := by
  cases rest with
  | nil => rfl
  | cons hd tl =>
      obtain ⟨s', e'⟩ := hd
      simp only [chainWFWith, Bool.and_eq_true] at h
      simp only [chainAfter, Bool.and_eq_true]
      refine ⟨h.1.2, ?_⟩
      cases tl with
      | nil => simpa [chainWFWith] using h.2
      | cons hd2 tl2 =>
          obtain ⟨s2, e2⟩ := hd2
          simpa [chainWFWith] using h.2

theorem chainAfter_gap {e0 s e : Bound V} {rest : List (Ival V)}
    (h : chainAfter e0 ((s, e) :: rest) = true) :
    strong_gap e0 s = true ∧ chainWFWith strong_gap ((s, e) :: rest) = true := by
  simpa [chainAfter, Bool.and_eq_true] using h

/-- The key double-complement lemma: scanning the complement of a strong
chain `l` placed after a segment `(s0, e0)` reproduces `(s0, e0) :: l`. -/
theorem compGo_double (l : List (Ival V)) : ∀ (s0 e0 : Bound V),
    valid_segment s0 e0 = true → chainAfter e0 l = true →
    ¬(s0 = Bound.unbounded ∧ e0 = Bound.unbounded) →
    Ranges.compGo s0
      (Ranges.compGo (Bound.flip_inclusivity e0) l) = (s0, e0) :: l := by
  induction l with
  | nil =>
      intro s0 e0 hvalid _ hne
      cases e0 with
      | unbounded =>
          cases s0 with
          | unbounded => exact absurd ⟨rfl, rfl⟩ hne
          | finite v0 i0 =>
              rw [flip_unbounded, compGo_nil, if_neg (by simp), compGo_nil,
                if_pos (by simp)]
      | finite ev ei =>
          rw [compGo_nil, if_pos (by simp), compGo_cons]
          cases s0 with
          | unbounded =>
              rw [if_pos (by simp), flip_flip, flip_unbounded, compGo_nil,
                if_neg (by simp)]
              simp
          | finite sv si =>
              rw [if_pos (by
                  simp only [is_unbounded_finite, Bool.false_and, Bool.false_or,
                    is_finite_finite, is_finite_flip, Bool.true_and]
                  exact gap_flip_of_valid hvalid),
                flip_flip, flip_unbounded, compGo_nil, if_neg (by simp)]
              simp
  | cons hd rest ih =>
      intro s0 e0 hvalid hchain hne
      obtain ⟨s1, e1⟩ := hd
      obtain ⟨hgap01, hchain1⟩ := chainAfter_gap hchain
      obtain ⟨he0fin, hs1fin⟩ := strong_gap_finite hgap01
      have hvalid1 : valid_segment s1 e1 = true := chainWF_head_valid hchain1
      have hchainAfter1 : chainAfter e1 rest = true := chainWF_tail hchain1
      obtain ⟨ev, ei, he0⟩ : ∃ v i, e0 = Bound.finite v i := by
        cases e0 with
        | unbounded => simp at he0fin
        | finite v i => exact ⟨v, i, rfl⟩
      obtain ⟨sv, si, hs1⟩ : ∃ v i, s1 = Bound.finite v i := by
        cases s1 with
        | unbounded => simp at hs1fin
        | finite v i => exact ⟨v, i, rfl⟩
      -- inner complement: emit (flip e0, flip s1), recurse past e1
      rw [compGo_cons, if_pos (by
          subst he0 hs1
          simp only [is_unbounded_flip, is_unbounded_finite, Bool.false_and,
            Bool.false_or, is_finite_flip, is_finite_finite, Bool.true_and]
          exact gap_flip_of_strong hgap01)]
      rw [List.singleton_append, compGo_cons]
      -- outer scan: emit (s0, e0), cursor becomes s1, and the IH applies
      rw [if_pos (by
          subst he0
          cases s0 with
          | unbounded => simp
          | finite s0v s0i =>
              simp only [is_unbounded_finite, Bool.false_and, Bool.false_or,
                is_finite_finite, is_finite_flip, Bool.true_and]
              exact gap_flip_of_valid hvalid)]
      rw [flip_flip, flip_flip, List.singleton_append]
      have hih := ih s1 e1 hvalid1 hchainAfter1 (by
        rintro ⟨hs, _⟩
        rw [hs1] at hs
        exact absurd hs (by simp))
      rw [hih]

theorem compGo_no_full (l : List (Ival V)) : ∀ cur : Bound V,
    ((Bound.unbounded : Bound V), (Bound.unbounded : Bound V)) ∉
      Ranges.compGo cur l := by
  induction l with
  | nil =>
      intro cur
      rw [compGo_nil]
      cases cur with
      | unbounded => simp
      | finite v i => simp
  | cons hd rest ih =>
      intro cur
      obtain ⟨s, e⟩ := hd
      rw [compGo_cons]
      intro hmem
      rcases List.mem_append.mp hmem with hm | hm
      · by_cases hg : ((cur.is_unbounded && s.is_finite) ||
            (cur.is_finite && s.is_finite && end_before_start_with_gap cur s)) = true
        · rw [if_pos hg] at hm
          simp only [List.mem_singleton, Prod.mk.injEq] at hm
          obtain ⟨h1, h2⟩ := hm
          subst h1
          have hs : s.is_finite = true := by
            cases hfin : s.is_finite
            · rw [hfin] at hg; simp at hg
            · rfl
          cases s with
          | unbounded => simp at hs
          | finite v i => cases i <;> simp [Bound.flip_inclusivity] at h2
        · rw [if_neg hg] at hm
          simp at hm
      · exact ih (Bound.flip_inclusivity e) hm

end ComplementInvolution

section ComplementInvolutionMain

variable {V : Type} [LinearOrder V]

theorem strong_gap_flip_of_valid_b {s e : Bound V} (hs : s.is_finite = true)
    (he : e.is_finite = true) (h : valid_segment s e = true) :
    strong_gap (Bound.flip_inclusivity s) (Bound.flip_inclusivity e) = true := by
  cases s with
  | unbounded => simp at hs
  | finite sv si =>
      cases e with
      | unbounded => simp at he
      | finite ev ei => exact strong_gap_flip_of_valid h

theorem chainWF_cons {x : Ival V} {t : List (Ival V)}
    (hv : valid_segment x.1 x.2 = true)
    (ht : t = [] ∨ ∃ hd tl, t = hd :: tl ∧ strong_gap x.2 hd.1 = true ∧
      chainWFWith strong_gap t = true) :
    chainWFWith strong_gap (x :: t) = true := by
  obtain ⟨s, e⟩ := x
  rcases ht with rfl | ⟨hd, tl, rfl, hgap, hchain⟩
  · simpa [chainWFWith] using hv
  · obtain ⟨hs, he⟩ := hd
    simp only [chainWFWith, Bool.and_eq_true] at hchain ⊢
    exact ⟨⟨hv, hgap⟩, hchain⟩

theorem compGo_flip_head (e0 : Bound V) (l : List (Ival V))
    (he0 : e0.is_finite = true) (hch : chainAfter e0 l = true) :
    ∃ b tl, Ranges.compGo (Bound.flip_inclusivity e0) l =
      (Bound.flip_inclusivity e0, b) :: tl := by
  cases l with
  | nil =>
      refine ⟨Bound.unbounded, [], ?_⟩
      rw [compGo_nil, if_pos (by simpa using he0)]
  | cons hd rest =>
      obtain ⟨s1, e1⟩ := hd
      obtain ⟨hgap, _⟩ := chainAfter_gap hch
      refine ⟨Bound.flip_inclusivity s1, Ranges.compGo (Bound.flip_inclusivity e1) rest, ?_⟩
      rw [compGo_cons, if_pos (by
        simp only [is_unbounded_flip, is_finite_flip,
          (strong_gap_finite hgap).2, Bool.and_true]
        cases e0 with
        | unbounded => simp at he0
        | finite v i =>
            simp only [is_unbounded_finite, Bool.false_and, Bool.false_or,
              is_finite_finite, Bool.true_and]
            exact gap_flip_of_strong hgap)]
      rfl

/-- The complement of a strong chain that starts after a finite bound is
itself a strong chain. -/
theorem compGo_chain (l : List (Ival V)) : ∀ e0 : Bound V,
    e0.is_finite = true → chainAfter e0 l = true →
    chainWFWith strong_gap
      (Ranges.compGo (Bound.flip_inclusivity e0) l) = true := by
  induction l with
  | nil =>
      intro e0 he0 _
      rw [compGo_nil, if_pos (by simpa using he0)]
      cases e0 with
      | unbounded => simp at he0
      | finite v i => cases i <;> simp [chainWFWith, Bound.flip_inclusivity, valid_segment]
  | cons hd rest ih =>
      intro e0 he0 hch
      obtain ⟨s1, e1⟩ := hd
      obtain ⟨hgap01, hchain1⟩ := chainAfter_gap hch
      have hs1fin := (strong_gap_finite hgap01).2
      have hvalid1 : valid_segment s1 e1 = true := chainWF_head_valid hchain1
      have hchainAfter1 : chainAfter e1 rest = true := chainWF_tail hchain1
      rw [compGo_cons, if_pos (by
        simp only [is_unbounded_flip, is_finite_flip, hs1fin, Bool.and_true]
        cases e0 with
        | unbounded => simp at he0
        | finite v i =>
            simp only [is_unbounded_finite, Bool.false_and, Bool.false_or,
              is_finite_finite, Bool.true_and]
            exact gap_flip_of_strong hgap01)]
      rw [List.singleton_append]
      apply chainWF_cons (valid_flip_of_strong hgap01)
      cases he1 : e1 with
      | unbounded =>
          left
          cases rest with
          | nil => rw [flip_unbounded, compGo_nil, if_neg (by simp)]
          | cons hd2 r' =>
              obtain ⟨s2, e2⟩ := hd2
              obtain ⟨hgap12, _⟩ := chainAfter_gap hchainAfter1
              rw [he1] at hgap12
              simp [strong_gap] at hgap12
      | finite v i =>
          right
          rw [← he1]
          have he1fin : e1.is_finite = true := by rw [he1]; simp
          obtain ⟨b, tl, hshape⟩ := compGo_flip_head e1 rest he1fin hchainAfter1
          exact ⟨(Bound.flip_inclusivity e1, b), tl, hshape,
            strong_gap_flip_of_valid_b hs1fin he1fin hvalid1,
            hshape ▸ ih e1 he1fin hchainAfter1⟩

theorem complement_eq_compGo (r : Ranges V) (h1 : r.segments ≠ [])
    (h2 : r.segments ≠ [(Bound.unbounded, Bound.unbounded)]) :
    r.complement = ⟨Ranges.compGo Bound.unbounded r.segments⟩ := by
  unfold Ranges.complement
  rw [if_neg h1, if_neg h2]

/-- C6 amended: with the specification's own gap rule (abutting segments
must merge unless *both* boundaries are open — `strong_gap`), complement
is an involution and preserves the invariant.  The invariant as the
source's `end_before_start_with_gap` states it (a gap whenever *either*
boundary is open) is too weak: see the counterexample. -/
theorem complement_involution_strong (r : Ranges V)
    (h : segmentsWFStrong r = true) :
    r.complement.complement = r ∧ segmentsWFStrong r.complement = true := by
  obtain ⟨segs⟩ := r
  simp only [segmentsWFStrong] at h
  cases segs with
  | nil =>
      constructor
      · rfl
      · rfl
  | cons hd rest =>
      obtain ⟨s0, e0⟩ := hd
      by_cases hfull : ((s0, e0) :: rest : List (Ival V)) =
          [(Bound.unbounded, Bound.unbounded)]
      · rw [hfull]
        constructor
        · rfl
        · rfl
      · have hvalid0 : valid_segment s0 e0 = true := chainWF_head_valid h
        have hafter : chainAfter e0 rest = true := chainWF_tail h
        rw [complement_eq_compGo _ (by simp) hfull]
        cases s0 with
        | unbounded =>
            have he0fin : e0.is_finite = true := by
              cases rest with
              | nil =>
                  cases e0 with
                  | unbounded => exact absurd rfl hfull
                  | finite v i => simp
              | cons hd2 r' =>
                  obtain ⟨s1, e1⟩ := hd2
                  exact (strong_gap_finite (chainAfter_gap hafter).1).1
            have hc : Ranges.compGo Bound.unbounded
                (((Bound.unbounded, e0) :: rest : List (Ival V))) =
                Ranges.compGo (Bound.flip_inclusivity e0) rest := by
              rw [compGo_cons, if_neg (by simp)]
              rfl
            rw [hc]
            obtain ⟨b, tl, hshape⟩ := compGo_flip_head e0 rest he0fin hafter
            constructor
            · rw [complement_eq_compGo _ (by show Ranges.compGo _ rest ≠ []; rw [hshape]; simp)
                (by
                  intro hcontra
                  have hc2 : Ranges.compGo (Bound.flip_inclusivity e0) rest =
                      [((Bound.unbounded : Bound V), (Bound.unbounded : Bound V))] :=
                    hcontra
                  have : ((Bound.unbounded : Bound V), (Bound.unbounded : Bound V)) ∈
                      Ranges.compGo (Bound.flip_inclusivity e0) rest := by
                    rw [hc2]
                    simp
                  exact compGo_no_full rest (Bound.flip_inclusivity e0) this)]
              show (⟨Ranges.compGo Bound.unbounded
                (Ranges.compGo (Bound.flip_inclusivity e0) rest)⟩ : Ranges V) = _
              rw [compGo_double rest Bound.unbounded e0 (by rfl) hafter
                (by
                  rintro ⟨_, he⟩
                  rw [he] at he0fin
                  simp at he0fin)]
            · simpa [segmentsWFStrong] using compGo_chain rest e0 he0fin hafter
        | finite s0v s0i =>
            have hc : Ranges.compGo Bound.unbounded
                (((Bound.finite s0v s0i, e0) :: rest : List (Ival V))) =
                (Bound.unbounded, Bound.flip_inclusivity (Bound.finite s0v s0i)) ::
                  Ranges.compGo (Bound.flip_inclusivity e0) rest := by
              rw [compGo_cons, if_pos (by simp)]
              rfl
            rw [hc]
            constructor
            · rw [complement_eq_compGo _ (by simp)
                (by
                  intro hcontra
                  have := List.head_eq_of_cons_eq hcontra
                  have hfin : (Bound.flip_inclusivity
                      (Bound.finite s0v s0i)).is_finite = true := by simp
                  rw [show Bound.flip_inclusivity (Bound.finite s0v s0i) =
                    (Bound.unbounded : Bound V) from congrArg Prod.snd this] at hfin
                  simp at hfin)]
              show (⟨Ranges.compGo Bound.unbounded
                ((Bound.unbounded, Bound.flip_inclusivity (Bound.finite s0v s0i)) ::
                  Ranges.compGo (Bound.flip_inclusivity e0) rest)⟩ : Ranges V) = _
              rw [compGo_cons, if_neg (by simp), flip_flip]
              rw [List.nil_append,
                compGo_double rest (Bound.finite s0v s0i) e0 hvalid0 hafter
                  (by rintro ⟨hs, _⟩; simp at hs)]
            · apply chainWF_cons (x := (Bound.unbounded,
                Bound.flip_inclusivity (Bound.finite s0v s0i)))
                (by rfl)
              cases he0 : e0 with
              | unbounded =>
                  left
                  cases rest with
                  | nil => rw [flip_unbounded, compGo_nil, if_neg (by simp)]
                  | cons hd2 r' =>
                      obtain ⟨s1, e1⟩ := hd2
                      obtain ⟨hgap01, _⟩ := chainAfter_gap hafter
                      rw [he0] at hgap01
                      simp [strong_gap] at hgap01
              | finite ev ei =>
                  right
                  rw [← he0]
                  have he0fin : e0.is_finite = true := by rw [he0]; simp
                  obtain ⟨b, tl, hshape⟩ :=
                    compGo_flip_head e0 rest he0fin hafter
                  exact ⟨(Bound.flip_inclusivity e0, b), tl, hshape,
                    strong_gap_flip_of_valid_b (by simp) he0fin hvalid0,
                    hshape ▸ compGo_chain rest e0 he0fin hafter⟩

/-- C6 counterexample: under the *source's own* gap predicate
(`end_before_start_with_gap`, which declares a gap when either shared
boundary is open), the range `(-inf, 1) ∪ [1, +inf)` — produced by the
source's own `union_(strictly_lower_than(1), higher_than(1))` — satisfies
the invariant (sorted, valid, gap-separated) yet its double complement is
`full` as a single segment, not the original two segments. -/
theorem complement_involution_ce :
    segmentsWF (⟨[((Bound.unbounded : Bound Int), Bound.opened 1),
        (Bound.closed 1, Bound.unbounded)]⟩ : Ranges Int) = true ∧
    (Ranges.union_ (Ranges.strictly_lower_than (1 : Int)) (Ranges.higher_than 1) =
      ⟨[((Bound.unbounded : Bound Int), Bound.opened 1),
        (Bound.closed 1, Bound.unbounded)]⟩) ∧
    (⟨[((Bound.unbounded : Bound Int), Bound.opened 1),
        (Bound.closed 1, Bound.unbounded)]⟩ : Ranges Int).complement.complement ≠
      ⟨[((Bound.unbounded : Bound Int), Bound.opened 1),
        (Bound.closed 1, Bound.unbounded)]⟩ := by
  refine ⟨by decide, by decide, by decide⟩

/-- Witness for the amended C6 at `[0, 1) ∪ (2, +inf)` over `Int`. -/
theorem complement_involution_strong_witness :
    segmentsWFStrong (⟨[(Bound.closed (0 : Int), Bound.opened 1),
        (Bound.opened 2, Bound.unbounded)]⟩ : Ranges Int) = true ∧
    (⟨[(Bound.closed (0 : Int), Bound.opened 1),
        (Bound.opened 2, Bound.unbounded)]⟩ : Ranges Int).complement.complement =
      ⟨[(Bound.closed (0 : Int), Bound.opened 1),
        (Bound.opened 2, Bound.unbounded)]⟩ :=
  ⟨by decide,
    (complement_involution_strong
      ⟨[(Bound.closed (0 : Int), Bound.opened 1),
        (Bound.opened 2, Bound.unbounded)]⟩ (by decide)).1⟩

end ComplementInvolutionMain

/-! ## Claim C1: prior_cause -/

section PriorCause

variable {P V M : Type} [DecidableEq P] [LinearOrder V]

theorem lookupA_toList (m : SmallMap P (Term V)) (q : P) :
    lookupA m.toList q = m.get q := by
  cases m with
  | m0 => rfl
  | m1 kv =>
      show lookupA [kv] q = _
      rw [lookupA_cons, lookupA_nil]
      rfl
  | m2 a b =>
      show lookupA [a, b] q = _
      rw [lookupA_cons, lookupA_cons, lookupA_nil]
      rfl
  | mbig l => rfl

theorem toList_nodup_keys (m : SmallMap P (Term V)) (hwf : m.WF) :
    (m.toList.map Prod.fst).Nodup := by
  cases m with
  | m0 => simp [SmallMap.toList]
  | m1 kv => simp [SmallMap.toList]
  | m2 a b =>
      simp only [SmallMap.toList, List.map_cons, List.map_nil,
        List.nodup_cons, List.mem_singleton, List.not_mem_nil]
      exact ⟨by simpa using hwf, by simp⟩
  | mbig l => exact hwf

theorem priorCauseMerge_get_pivot (pivot : P) (l : List (P × Term V)) :
    ∀ merged : SmallMap P (Term V),
      (Incompat.priorCauseMerge pivot merged l).get pivot = merged.get pivot := by
  induction l with
  | nil => intro merged; rfl
  | cons kv rest ih =>
      intro merged
      obtain ⟨pk, t2⟩ := kv
      by_cases hpk : pk = pivot
      · rw [show Incompat.priorCauseMerge pivot merged ((pk, t2) :: rest) =
          Incompat.priorCauseMerge pivot merged rest from by
            simp [Incompat.priorCauseMerge, hpk]]
        exact ih merged
      · cases hm : merged.get pk with
        | some existing =>
            rw [show Incompat.priorCauseMerge pivot merged ((pk, t2) :: rest) =
              Incompat.priorCauseMerge pivot
                (merged.insert pk (existing.intersection t2)) rest from by
                simp [Incompat.priorCauseMerge, hpk, hm]]
            rw [ih, SmallMap.get_insert, if_neg hpk]
        | none =>
            rw [show Incompat.priorCauseMerge pivot merged ((pk, t2) :: rest) =
              Incompat.priorCauseMerge pivot (merged.insert pk t2) rest from by
                simp [Incompat.priorCauseMerge, hpk, hm]]
            rw [ih, SmallMap.get_insert, if_neg hpk]

theorem priorCauseMerge_get (pivot : P) (l : List (P × Term V))
    (hnd : (l.map Prod.fst).Nodup) (q : P) (hq : q ≠ pivot) :
    ∀ merged : SmallMap P (Term V),
      (Incompat.priorCauseMerge pivot merged l).get q =
        match lookupA l q with
        | some t2 =>
            match merged.get q with
            | some e => some (e.intersection t2)
            | none => some t2
        | none => merged.get q := by
  induction l with
  | nil => intro merged; rw [lookupA_nil]; rfl
  | cons kv rest ih =>
      intro merged
      obtain ⟨pk, t2⟩ := kv
      simp only [List.map_cons, List.nodup_cons] at hnd
      rw [lookupA_cons]
      by_cases hpk : pk = pivot
      · have hpkq : ¬ pk = q := fun h => hq ((h.symm.trans hpk))
        rw [show Incompat.priorCauseMerge pivot merged ((pk, t2) :: rest) =
          Incompat.priorCauseMerge pivot merged rest from by
            simp [Incompat.priorCauseMerge, hpk]]
        rw [if_neg hpkq]
        exact ih hnd.2 merged
      · by_cases hpkq : pk = q
        · subst hpkq
          have hrest : lookupA rest pk = none := by
            apply lookupA_eq_none
            exact hnd.1
          cases hm : merged.get pk with
          | some existing =>
              rw [show Incompat.priorCauseMerge pivot merged ((pk, t2) :: rest) =
                Incompat.priorCauseMerge pivot
                  (merged.insert pk (existing.intersection t2)) rest from by
                  simp [Incompat.priorCauseMerge, hpk, hm]]
              rw [ih hnd.2, hrest, if_pos rfl]
              simp [SmallMap.get_insert, hm]
          | none =>
              rw [show Incompat.priorCauseMerge pivot merged ((pk, t2) :: rest) =
                Incompat.priorCauseMerge pivot (merged.insert pk t2) rest from by
                  simp [Incompat.priorCauseMerge, hpk, hm]]
              rw [ih hnd.2, hrest, if_pos rfl]
              simp [SmallMap.get_insert, hm]
        · rw [if_neg hpkq]
          cases hm : merged.get pk with
          | some existing =>
              rw [show Incompat.priorCauseMerge pivot merged ((pk, t2) :: rest) =
                Incompat.priorCauseMerge pivot
                  (merged.insert pk (existing.intersection t2)) rest from by
                  simp [Incompat.priorCauseMerge, hpk, hm]]
              rw [ih hnd.2, SmallMap.get_insert, if_neg hpkq]
          | none =>
              rw [show Incompat.priorCauseMerge pivot merged ((pk, t2) :: rest) =
                Incompat.priorCauseMerge pivot (merged.insert pk t2) rest from by
                  simp [Incompat.priorCauseMerge, hpk, hm]]
              rw [ih hnd.2, SmallMap.get_insert, if_neg hpkq]

/-- C1 amended: `prior_cause` yields a `DerivedFrom` incompatibility
whose non-pivot terms are the intersection of the two inputs' terms when
the package appears in both (else the unique term); for the pivot it
*attempts* to store `t1 ∩ t2`, but when that intersection equals
`Term::any()` the insert is skipped and `current`'s original pivot term
`t1` is left in the result — the pivot term is always present, it is
never dropped. -/
theorem prior_cause_characterization
    (store : List (Incompat P V M)) (i j : Nat) (pivot : P)
    (inc sat : Incompat P V M) (t1 t2 : Term V)
    (hi : store[i]? = some inc) (hj : store[j]? = some sat)
    (ht1 : inc.get pivot = some t1) (ht2 : sat.get pivot = some t2)
    (hwf : sat.terms.WF) :
    ∃ r, Incompat.prior_cause i j pivot store = some r ∧
      r.kind = IncompKind.DerivedFrom i j ∧
      (∀ q, q ≠ pivot → r.get q =
        match inc.get q, sat.get q with
        | some a, some b => some (a.intersection b)
        | some a, none => some a
        | none, some b => some b
        | none, none => none) ∧
      r.get pivot =
        some (if t1.intersection t2 = Term.any then t1
          else t1.intersection t2) := by
  have hmain : Incompat.prior_cause i j pivot store =
      some ⟨(if t1.intersection t2 = Term.any
          then Incompat.priorCauseMerge pivot inc.terms sat.terms.toList
          else (Incompat.priorCauseMerge pivot inc.terms
            sat.terms.toList).insert pivot (t1.intersection t2)),
        IncompKind.DerivedFrom i j⟩ := by
    by_cases hany : t1.intersection t2 = Term.any
    · unfold Incompat.prior_cause
      rw [hi, hj]
      simp [ht1, ht2, hany]
    · unfold Incompat.prior_cause
      rw [hi, hj]
      simp [ht1, ht2, hany]
  refine ⟨_, hmain, rfl, ?_, ?_⟩
  · intro q hq
    have hnd := toList_nodup_keys sat.terms hwf
    have hmerge := priorCauseMerge_get pivot sat.terms.toList hnd q hq inc.terms
    rw [lookupA_toList] at hmerge
    show (if t1.intersection t2 = Term.any
        then Incompat.priorCauseMerge pivot inc.terms sat.terms.toList
        else (Incompat.priorCauseMerge pivot inc.terms
          sat.terms.toList).insert pivot (t1.intersection t2)).get q = _
    simp only [Incompat.get] at hmerge ⊢
    by_cases hany : t1.intersection t2 = Term.any
    · rw [if_pos hany, hmerge]
      cases h1 : sat.terms.get q <;> cases h2 : inc.terms.get q <;>
        simp only [h1, h2]
    · rw [if_neg hany, SmallMap.get_insert, if_neg (fun h => hq h.symm), hmerge]
      cases h1 : sat.terms.get q <;> cases h2 : inc.terms.get q <;>
        simp only [h1, h2]
  · have hpiv := priorCauseMerge_get_pivot pivot sat.terms.toList inc.terms
    show (if t1.intersection t2 = Term.any
        then Incompat.priorCauseMerge pivot inc.terms sat.terms.toList
        else (Incompat.priorCauseMerge pivot inc.terms
          sat.terms.toList).insert pivot (t1.intersection t2)).get pivot = _
    by_cases hany : t1.intersection t2 = Term.any
    · rw [if_pos hany, if_pos hany, hpiv]
      exact ht1
    · rw [if_neg hany, if_neg hany, SmallMap.get_insert, if_pos rfl]

/-- C1 counterexample: with pivot terms `Not (-inf, 0]` and
`Not [0, +inf)`, whose intersection is `Not (-inf, +inf) = Term::any()`,
the claim says the pivot is dropped from the result; the code instead
leaves `current`'s original pivot term in place. -/
theorem prior_cause_ce :
    ((Term.Negative (Ranges.lower_than (0 : Int))).intersection
      (Term.Negative (Ranges.higher_than 0)) = Term.any) ∧
    ((Incompat.prior_cause (P := Nat) (M := Unit) 0 1 0
        [⟨SmallMap.m1 (0, Term.Negative (Ranges.lower_than (0 : Int))),
            IncompKind.DerivedFrom 0 0⟩,
          ⟨SmallMap.m1 (0, Term.Negative (Ranges.higher_than (0 : Int))),
            IncompKind.DerivedFrom 0 0⟩]).map
      (fun r => r.get 0)) =
      some (some (Term.Negative (Ranges.lower_than 0))) := by
  refine ⟨by decide, by decide⟩

/-- Witness for the amended C1 at a concrete two-package store. -/
theorem prior_cause_characterization_witness :
    ∃ r, Incompat.prior_cause 0 1 1
        [(⟨SmallMap.m2 ((0 : Nat), Term.exact (1 : Int))
            ((1 : Nat), Term.Negative (Ranges.between (2 : Int) 4)),
            IncompKind.DerivedFrom 0 0⟩ : Incompat Nat Int Unit),
          (⟨SmallMap.m2 ((1 : Nat), Term.exact (3 : Int))
            ((2 : Nat), Term.Negative (Ranges.singleton (5 : Int))),
            IncompKind.DerivedFrom 0 0⟩ : Incompat Nat Int Unit)] = some r ∧
      r.kind = IncompKind.DerivedFrom 0 1 := by
  obtain ⟨r, h1, h2, _, _⟩ := prior_cause_characterization
    [(⟨SmallMap.m2 ((0 : Nat), Term.exact (1 : Int))
        ((1 : Nat), Term.Negative (Ranges.between (2 : Int) 4)),
        IncompKind.DerivedFrom 0 0⟩ : Incompat Nat Int Unit),
      (⟨SmallMap.m2 ((1 : Nat), Term.exact (3 : Int))
        ((2 : Nat), Term.Negative (Ranges.singleton (5 : Int))),
        IncompKind.DerivedFrom 0 0⟩ : Incompat Nat Int Unit)] 0 1 1
    (⟨SmallMap.m2 ((0 : Nat), Term.exact (1 : Int))
        ((1 : Nat), Term.Negative (Ranges.between (2 : Int) 4)),
        IncompKind.DerivedFrom 0 0⟩ : Incompat Nat Int Unit)
    (⟨SmallMap.m2 ((1 : Nat), Term.exact (3 : Int))
        ((2 : Nat), Term.Negative (Ranges.singleton (5 : Int))),
        IncompKind.DerivedFrom 0 0⟩ : Incompat Nat Int Unit)
    (Term.Negative (Ranges.between (2 : Int) 4)) (Term.exact (3 : Int))
    (by decide) (by decide) (by decide) (by decide)
    (by show (1 : Nat) ≠ (2 : Nat); decide)
  exact ⟨r, h1, h2⟩

end PriorCause

/-! ## Claim C8: merge_dependents -/

section MergeDependents

variable {P V M : Type} [DecidableEq P] [LinearOrder V]

theorem from_dependency_as_dependency (p1 p2 : P) (r1 s2 : Ranges V) :
    (Incompat.from_dependency (M := M) p1 r1 (p2, s2)).as_dependency =
      some (p1, p2) := rfl

theorem from_dependency_get (p1 p2 : P) (r1 s2 : Ranges V) (q : P)
    (hp : p1 ≠ p2) :
    (Incompat.from_dependency (M := M) p1 r1 (p2, s2)).get q =
      if q = p1 then some (Term.Positive r1)
      else if q = p2 ∧ s2.is_empty = false then some (Term.Negative s2)
      else none := by
  unfold Incompat.from_dependency Incompat.get
  cases hs : s2.is_empty with
  | true =>
      simp only [hs, Bool.not_true, Bool.false_eq_true, if_false]
      show (SmallMap.m1 (p1, Term.Positive r1)).get q = _
      by_cases hq1 : q = p1
      · simp [SmallMap.get, hq1]
      · have h1 : ¬ p1 = q := fun h => hq1 h.symm
        simp [SmallMap.get, h1, hq1, hs]
  | false =>
      simp only [hs, Bool.not_false, if_true]
      show ((SmallMap.m1 (p1, Term.Positive r1)).insert p2
        (Term.Negative s2)).get q = _
      rw [SmallMap.get_insert]
      by_cases hq2 : p2 = q
      · subst hq2
        have h1 : ¬ p2 = p1 := fun h => hp h.symm
        simp [h1, hs]
      · rw [if_neg hq2]
        by_cases hq1 : q = p1
        · simp [SmallMap.get, hq1]
        · have h1 : ¬ p1 = q := fun h => hq1 h.symm
          have h2 : ¬ q = p2 := fun h => hq2 h.symm
          simp [SmallMap.get, h1, hq1, h2]

/-- C8 amended: for two constructor-built `FromDependency`
incompatibilities with *distinct* endpoints, `merge_dependents` succeeds
exactly when they share the ordered pair `(p1, p2)` and a *present*
identical dependency term on `p2` (both dependency ranges nonempty and
equal), and then the result is `FromDependency(p1, r1 ∪ r1', p2, s2)`
whose `p1` term is `Positive(r1 ∪ r1')` and whose `p2` term is the shared
`Negative(s2)`.  Unlike the claim's wording, a self-dependency
(`p1 = p2`) or an absent dependency term (empty `s2`) never merges even
when the pairs and terms agree. -/
theorem merge_dependents_characterization (p1 p2 q1 q2 : P)
    (r1 r1' s2 s2' : Ranges V) (hp : p1 ≠ p2) :
    ((Incompat.from_dependency (M := M) p1 r1 (p2, s2)).merge_dependents
      (Incompat.from_dependency (M := M) q1 r1' (q2, s2')) =
    (if p1 = q1 ∧ p2 = q2 ∧ s2.is_empty = false ∧ s2'.is_empty = false ∧ s2 = s2'
      then some (Incompat.from_dependency p1 (r1.union_ r1') (p2, s2))
      else none)) ∧
    (Incompat.from_dependency (M := M) p1 (r1.union_ r1') (p2, s2)).get p1 =
      some (Term.Positive (r1.union_ r1')) ∧
    (s2.is_empty = false →
      (Incompat.from_dependency (M := M) p1 (r1.union_ r1') (p2, s2)).get p2 =
        some (Term.Negative s2)) := by
  refine ⟨?_, ?_, ?_⟩
  · by_cases hpair : ((p1, p2) : P × P) = (q1, q2)
    · have hq1 : p1 = q1 := congrArg Prod.fst hpair
      have hq2 : p2 = q2 := congrArg Prod.snd hpair
      subst hq1
      subst hq2
      have hga2 := from_dependency_get (M := M) p1 p2 r1 s2 p2 hp
      have hgb2 := from_dependency_get (M := M) p1 p2 r1' s2' p2 hp
      have hga1 := from_dependency_get (M := M) p1 p2 r1 s2 p1 hp
      have hgb1 := from_dependency_get (M := M) p1 p2 r1' s2' p1 hp
      rw [if_pos rfl] at hga1 hgb1
      rw [if_neg (fun h => hp h.symm)] at hga2 hgb2
      by_cases hs2 : s2.is_empty = false
      · rw [if_pos ⟨rfl, hs2⟩] at hga2
        by_cases hs2' : s2'.is_empty = false
        · rw [if_pos ⟨rfl, hs2'⟩] at hgb2
          by_cases heq : s2 = s2'
          · subst heq
            simp [Incompat.merge_dependents, from_dependency_as_dependency,
              hga2, hgb2, hga1, hgb1, hp, hs2, Term.is_positive,
              Term.is_negative, Term.Positive, Term.Negative, Term.ranges]
          · have hneg : ¬ (Term.Negative s2 : Term V) = Term.Negative s2' := by
              intro hc
              exact heq (congrArg Term.ranges hc)
            simp [Incompat.merge_dependents, from_dependency_as_dependency,
              hga2, hgb2, hp, hneg, heq]
        · have hs2t : s2'.is_empty = true := by
            cases h : s2'.is_empty
            · exact absurd h hs2'
            · rfl
          rw [if_neg (fun h => hs2' h.2)] at hgb2
          simp [Incompat.merge_dependents, from_dependency_as_dependency,
            hga2, hgb2, hp, hs2t]
      · have hs2t : s2.is_empty = true := by
          cases h : s2.is_empty
          · exact absurd h hs2
          · rfl
        rw [if_neg (fun h => hs2 h.2)] at hga2
        simp [Incompat.merge_dependents, from_dependency_as_dependency,
          hga2, hp, hs2t]
    · have hcond : ¬ (p1 = q1 ∧ p2 = q2 ∧ s2.is_empty = false ∧
          s2'.is_empty = false ∧ s2 = s2') := by
        rintro ⟨h1, h2, _⟩
        exact hpair (by rw [h1, h2])
      simp [Incompat.merge_dependents, from_dependency_as_dependency,
        hpair, hcond]
  · rw [from_dependency_get p1 p2 (r1.union_ r1') s2 p1 hp, if_pos rfl]
  · intro hs2
    rw [from_dependency_get p1 p2 (r1.union_ r1') s2 p2 hp,
      if_neg (fun h => hp h.symm), if_pos ⟨rfl, hs2⟩]

/-- C8 counterexample: a self-dependency `FromDependency(0, {1}, 0, {2})`
merged with itself satisfies the claim's conditions (both are
`FromDependency` with the same ordered pair `(0, 0)` and identical
dependency term on `p2 = 0`), yet the code returns no merge because
`p1 = p2`. -/
theorem merge_dependents_ce :
    (Incompat.from_dependency (P := Nat) (M := Unit) 0
        (Ranges.singleton (1 : Int)) (0, Ranges.singleton 2)).as_dependency =
      some (0, 0) ∧
    (Incompat.from_dependency (P := Nat) (M := Unit) 0
        (Ranges.singleton (1 : Int)) (0, Ranges.singleton 2)).get 0 =
      some (Term.Negative (Ranges.singleton 2)) ∧
    (Incompat.from_dependency (P := Nat) (M := Unit) 0
        (Ranges.singleton (1 : Int)) (0, Ranges.singleton 2)).merge_dependents
      (Incompat.from_dependency (P := Nat) (M := Unit) 0
        (Ranges.singleton (1 : Int)) (0, Ranges.singleton 2)) = none := by
  refine ⟨by decide, by decide, by decide⟩

/-- Witness for the amended C8 at a concrete mergeable pair. -/
theorem merge_dependents_characterization_witness :
    (Incompat.from_dependency (P := Nat) (M := Unit) 0
        (Ranges.singleton (1 : Int)) (1, Ranges.singleton 5)).merge_dependents
      (Incompat.from_dependency (P := Nat) (M := Unit) 0
        (Ranges.singleton (2 : Int)) (1, Ranges.singleton 5)) =
      some (Incompat.from_dependency 0
        ((Ranges.singleton (1 : Int)).union_ (Ranges.singleton 2))
        (1, Ranges.singleton 5)) := by
  have h := (merge_dependents_characterization (P := Nat) (M := Unit) 0 1 0 1
    (Ranges.singleton (1 : Int)) (Ranges.singleton 2) (Ranges.singleton 5)
    (Ranges.singleton 5) (by decide)).1
  rw [h, if_pos ⟨rfl, rfl, by decide, by decide, rfl⟩]

end MergeDependents

/-! ## Claim C3: the incompatibility relation -/

section IncompatRelation

variable {P V M : Type} [DecidableEq P] [LinearOrder V]

theorem relGo_cons (lookup : P → Option (Term V)) (pkg : P) (t : Term V)
    (rest : List (P × Term V)) (rel : IncompRel P) :
    Incompat.relGo lookup ((pkg, t) :: rest) rel =
      match classify lookup (pkg, t) with
      | Relation.Satisfied => Incompat.relGo lookup rest rel
      | Relation.Contradicted => IncompRel.Contradicted pkg
      | Relation.Inconclusive =>
          match rel with
          | IncompRel.Satisfied =>
              Incompat.relGo lookup rest (IncompRel.AlmostSatisfied pkg)
          | _ => IncompRel.Inconclusive := by
  cases hlk : lookup pkg with
  | none => simp [Incompat.relGo, classify, hlk]
  | some t' =>
      cases hr : t.relation_with t' <;>
        simp [Incompat.relGo, classify, hlk, hr]

theorem relGo_all_satisfied (lookup : P → Option (Term V))
    (ts : List (P × Term V))
    (h : ∀ pt ∈ ts, classify lookup pt = Relation.Satisfied) :
    ∀ rel, Incompat.relGo lookup ts rel = rel := by
  induction ts with
  | nil => intro rel; rfl
  | cons pt rest ih =>
      intro rel
      obtain ⟨pkg, t⟩ := pt
      rw [relGo_cons, h (pkg, t) (List.mem_cons_self _ _)]
      exact ih (fun pt hm => h pt (List.mem_cons_of_mem _ hm)) rel

theorem relGo_from_almost_contra (lookup : P → Option (Term V))
    (ts : List (P × Term V))
    (hnu : ∀ pt ∈ ts, classify lookup pt ≠ Relation.Inconclusive)
    (hc : ∃ pt ∈ ts, classify lookup pt = Relation.Contradicted) :
    ∀ p : P, ∃ pt0, firstContra lookup ts = some pt0 ∧
      Incompat.relGo lookup ts (IncompRel.AlmostSatisfied p) =
        IncompRel.Contradicted pt0.1 := by
  induction ts with
  | nil => obtain ⟨pt, hm, _⟩ := hc; exact absurd hm (by simp)
  | cons pt rest ih =>
      intro p
      obtain ⟨pkg, t⟩ := pt
      rw [relGo_cons]
      cases hcl : classify lookup (pkg, t) with
      | Satisfied =>
          have hc' : ∃ pt ∈ rest, classify lookup pt = Relation.Contradicted := by
            obtain ⟨pt', hm, hp⟩ := hc
            rcases List.mem_cons.mp hm with rfl | hm'
            · rw [hcl] at hp; exact absurd hp (by simp)
            · exact ⟨pt', hm', hp⟩
          obtain ⟨pt0, hf, hr⟩ :=
            ih (fun pt hm => hnu pt (List.mem_cons_of_mem _ hm)) hc' p
          refine ⟨pt0, ?_, hr⟩
          rw [show firstContra lookup ((pkg, t) :: rest) =
            firstContra lookup rest from by
              simp [firstContra, List.find?_cons, hcl]]
          exact hf
      | Contradicted =>
          refine ⟨(pkg, t), ?_, rfl⟩
          simp [firstContra, List.find?_cons, hcl]
      | Inconclusive =>
          exact absurd hcl (hnu (pkg, t) (List.mem_cons_self _ _))

theorem relGo_from_almost_unsettled (lookup : P → Option (Term V))
    (ts : List (P × Term V))
    (hnc : ∀ pt ∈ ts, classify lookup pt ≠ Relation.Contradicted)
    (hu : ∃ pt ∈ ts, classify lookup pt = Relation.Inconclusive) :
    ∀ p : P, Incompat.relGo lookup ts (IncompRel.AlmostSatisfied p) =
      IncompRel.Inconclusive := by
  induction ts with
  | nil => obtain ⟨pt, hm, _⟩ := hu; exact absurd hm (by simp)
  | cons pt rest ih =>
      intro p
      obtain ⟨pkg, t⟩ := pt
      rw [relGo_cons]
      cases hcl : classify lookup (pkg, t) with
      | Satisfied =>
          have hu' : ∃ pt ∈ rest, classify lookup pt = Relation.Inconclusive := by
            obtain ⟨pt', hm, hp⟩ := hu
            rcases List.mem_cons.mp hm with rfl | hm'
            · rw [hcl] at hp; exact absurd hp (by simp)
            · exact ⟨pt', hm', hp⟩
          exact ih (fun pt hm => hnc pt (List.mem_cons_of_mem _ hm)) hu' p
      | Contradicted =>
          exact absurd hcl (hnc (pkg, t) (List.mem_cons_self _ _))
      | Inconclusive => rfl

theorem unsettledOf_cons_skip (lookup : P → Option (Term V)) (pt : P × Term V)
    (rest : List (P × Term V))
    (h : classify lookup pt ≠ Relation.Inconclusive) :
    unsettledOf lookup (pt :: rest) = unsettledOf lookup rest := by
  simp [unsettledOf, List.filter_cons, h]

theorem unsettledOf_cons_keep (lookup : P → Option (Term V)) (pt : P × Term V)
    (rest : List (P × Term V))
    (h : classify lookup pt = Relation.Inconclusive) :
    unsettledOf lookup (pt :: rest) = pt :: unsettledOf lookup rest := by
  simp [unsettledOf, List.filter_cons, h]

theorem unsettledOf_nil_all (lookup : P → Option (Term V))
    (ts : List (P × Term V)) (h : unsettledOf lookup ts = []) :
    ∀ pt ∈ ts, classify lookup pt ≠ Relation.Inconclusive := by
  intro pt hm hcl
  have : pt ∈ unsettledOf lookup ts := by
    simp [unsettledOf, List.mem_filter, hm, hcl]
  rw [h] at this
  exact absurd this (by simp)

/-- C3 amended: `Incompatibility::relation` walks the terms in iteration
order and (i) returns `Satisfied` when every term is satisfied; (ii) with
no contradicted term and exactly one unsettled term (relation
`Inconclusive` or no looked-up term) returns `AlmostSatisfied` of that
package; (iii) with no contradicted term and two or more unsettled terms
returns `Inconclusive`; (iv) with a contradicted term and *at most one*
unsettled term returns `Contradicted` of the first contradicted package
in iteration order.  The claim's unconditional "any Contradicted implies
`Contradicted`" is false: a contradicted term encountered after two
unsettled ones is never reached (see the counterexample), and with both
two unsettled terms and a contradicted one the result depends on the
`unordered_map` iteration order. -/
theorem incompat_relation_characterization (I : Incompat P V M)
    (lookup : P → Option (Term V)) :
    ((∀ pt ∈ I.terms.toList, classify lookup pt = Relation.Satisfied) →
      I.relation lookup = IncompRel.Satisfied) ∧
    (∀ pt0, (∀ pt ∈ I.terms.toList, classify lookup pt ≠ Relation.Contradicted) →
      unsettledOf lookup I.terms.toList = [pt0] →
      I.relation lookup = IncompRel.AlmostSatisfied pt0.1) ∧
    ((∀ pt ∈ I.terms.toList, classify lookup pt ≠ Relation.Contradicted) →
      2 ≤ (unsettledOf lookup I.terms.toList).length →
      I.relation lookup = IncompRel.Inconclusive) ∧
    ((∃ pt ∈ I.terms.toList, classify lookup pt = Relation.Contradicted) →
      (unsettledOf lookup I.terms.toList).length ≤ 1 →
      ∃ pt0, firstContra lookup I.terms.toList = some pt0 ∧
        I.relation lookup = IncompRel.Contradicted pt0.1) := by
  have hgen : ∀ ts : List (P × Term V),
      ((∀ pt ∈ ts, classify lookup pt = Relation.Satisfied) →
        Incompat.relGo lookup ts IncompRel.Satisfied = IncompRel.Satisfied) ∧
      (∀ pt0, (∀ pt ∈ ts, classify lookup pt ≠ Relation.Contradicted) →
        unsettledOf lookup ts = [pt0] →
        Incompat.relGo lookup ts IncompRel.Satisfied =
          IncompRel.AlmostSatisfied pt0.1) ∧
      ((∀ pt ∈ ts, classify lookup pt ≠ Relation.Contradicted) →
        2 ≤ (unsettledOf lookup ts).length →
        Incompat.relGo lookup ts IncompRel.Satisfied = IncompRel.Inconclusive) ∧
      ((∃ pt ∈ ts, classify lookup pt = Relation.Contradicted) →
        (unsettledOf lookup ts).length ≤ 1 →
        ∃ pt0, firstContra lookup ts = some pt0 ∧
          Incompat.relGo lookup ts IncompRel.Satisfied =
            IncompRel.Contradicted pt0.1) := by
    intro ts
    induction ts with
    | nil =>
        refine ⟨fun _ => rfl, ?_, ?_, ?_⟩
        · intro pt0 _ hu
          simp [unsettledOf] at hu
        · intro _ hu
          simp [unsettledOf] at hu
        · rintro ⟨pt, hm, _⟩ _
          exact absurd hm (by simp)
    | cons pt rest ih =>
        obtain ⟨pkg, t⟩ := pt
        refine ⟨?_, ?_, ?_, ?_⟩
        · intro h
          rw [relGo_cons, h (pkg, t) (List.mem_cons_self _ _)]
          exact ih.1 (fun pt hm => h pt (List.mem_cons_of_mem _ hm))
        · intro pt0 hnc hu
          rw [relGo_cons]
          cases hcl : classify lookup (pkg, t) with
          | Satisfied =>
              rw [unsettledOf_cons_skip lookup _ _ (by simp [hcl])] at hu
              exact ih.2.1 pt0
                (fun pt hm => hnc pt (List.mem_cons_of_mem _ hm)) hu
          | Contradicted =>
              exact absurd hcl (hnc (pkg, t) (List.mem_cons_self _ _))
          | Inconclusive =>
              rw [unsettledOf_cons_keep lookup _ _ hcl] at hu
              have hhd : ((pkg, t) : P × Term V) = pt0 :=
                List.head_eq_of_cons_eq hu
              have htail : unsettledOf lookup rest = [] :=
                List.tail_eq_of_cons_eq hu
              have hall : ∀ pt ∈ rest, classify lookup pt = Relation.Satisfied := by
                intro pt hm
                have h1 := unsettledOf_nil_all lookup rest htail pt hm
                have h2 := hnc pt (List.mem_cons_of_mem _ hm)
                cases hcl2 : classify lookup pt with
                | Satisfied => rfl
                | Contradicted => exact absurd hcl2 h2
                | Inconclusive => exact absurd hcl2 h1
              show Incompat.relGo lookup rest (IncompRel.AlmostSatisfied pkg) =
                IncompRel.AlmostSatisfied pt0.1
              rw [relGo_all_satisfied lookup rest hall, ← hhd]
        · intro hnc hu
          rw [relGo_cons]
          cases hcl : classify lookup (pkg, t) with
          | Satisfied =>
              rw [unsettledOf_cons_skip lookup _ _ (by simp [hcl])] at hu
              exact ih.2.2.1
                (fun pt hm => hnc pt (List.mem_cons_of_mem _ hm)) hu
          | Contradicted =>
              exact absurd hcl (hnc (pkg, t) (List.mem_cons_self _ _))
          | Inconclusive =>
              rw [unsettledOf_cons_keep lookup _ _ hcl] at hu
              simp only [List.length_cons] at hu
              have hex : ∃ pt ∈ rest, classify lookup pt = Relation.Inconclusive := by
                have hlen : 1 ≤ (unsettledOf lookup rest).length := by omega
                obtain ⟨pt', hm'⟩ := List.exists_mem_of_length_pos hlen
                have := List.mem_filter.mp hm'
                exact ⟨pt', this.1, by simpa using this.2⟩
              exact relGo_from_almost_unsettled lookup rest
                (fun pt hm => hnc pt (List.mem_cons_of_mem _ hm)) hex pkg
        · intro hc hu
          rw [relGo_cons]
          cases hcl : classify lookup (pkg, t) with
          | Satisfied =>
              rw [unsettledOf_cons_skip lookup _ _ (by simp [hcl])] at hu
              have hc' : ∃ pt ∈ rest, classify lookup pt = Relation.Contradicted := by
                obtain ⟨pt', hm, hp⟩ := hc
                rcases List.mem_cons.mp hm with rfl | hm'
                · rw [hcl] at hp; exact absurd hp (by simp)
                · exact ⟨pt', hm', hp⟩
              obtain ⟨pt0, hf, hr⟩ := ih.2.2.2 hc' hu
              refine ⟨pt0, ?_, hr⟩
              rw [show firstContra lookup ((pkg, t) :: rest) =
                firstContra lookup rest from by
                  simp [firstContra, List.find?_cons, hcl]]
              exact hf
          | Contradicted =>
              refine ⟨(pkg, t), ?_, rfl⟩
              simp [firstContra, List.find?_cons, hcl]
          | Inconclusive =>
              rw [unsettledOf_cons_keep lookup _ _ hcl] at hu
              simp only [List.length_cons] at hu
              have htail : unsettledOf lookup rest = [] := by
                have : (unsettledOf lookup rest).length = 0 := by omega
                exact List.length_eq_zero.mp this
              have hnu := unsettledOf_nil_all lookup rest htail
              have hc' : ∃ pt ∈ rest, classify lookup pt = Relation.Contradicted := by
                obtain ⟨pt', hm, hp⟩ := hc
                rcases List.mem_cons.mp hm with rfl | hm'
                · rw [hcl] at hp; exact absurd hp (by simp)
                · exact ⟨pt', hm', hp⟩
              obtain ⟨pt0, hf, hr⟩ :=
                relGo_from_almost_contra lookup rest hnu hc' pkg
              refine ⟨pt0, ?_, hr⟩
              rw [show firstContra lookup ((pkg, t) :: rest) =
                firstContra lookup rest from by
                  simp [firstContra, List.find?_cons, hcl]]
              exact hf
  exact hgen I.terms.toList

/-- C3 counterexample: an incompatibility over three packages where the
first two terms are unsettled (no looked-up term) and the third is
contradicted; the claim demands `Contradicted(2)`, but the loop returns
`Inconclusive` when it meets the second unsettled package, never
reaching the contradicted one. -/
theorem incompat_relation_ce :
    (classify (fun p : Nat => if p = 2 then some (Term.exact (2 : Int)) else none)
      ((2 : Nat), Term.exact (1 : Int)) = Relation.Contradicted) ∧
    (Incompat.relation
      (⟨SmallMap.mbig [((0 : Nat), Term.exact (1 : Int)),
          (1, Term.exact 1), (2, Term.exact 1)],
        IncompKind.DerivedFrom 0 0⟩ : Incompat Nat Int Unit)
      (fun p => if p = 2 then some (Term.exact 2) else none) =
      IncompRel.Inconclusive) := by
  refine ⟨by decide, by decide⟩

/-- Witness for the amended C3, clause (iv), at a two-package
incompatibility with one contradicted and one satisfied term. -/
theorem incompat_relation_characterization_witness :
    ∃ pt0, firstContra
        (fun p : Nat => if p = 0 then some (Term.exact (2 : Int))
          else some (Term.exact 1))
        ((⟨SmallMap.m2 ((0 : Nat), Term.exact (1 : Int)) (1, Term.exact 1),
          IncompKind.DerivedFrom 0 0⟩ : Incompat Nat Int Unit)).terms.toList =
        some pt0 ∧
      Incompat.relation
        (⟨SmallMap.m2 ((0 : Nat), Term.exact (1 : Int)) (1, Term.exact 1),
          IncompKind.DerivedFrom 0 0⟩ : Incompat Nat Int Unit)
        (fun p : Nat => if p = 0 then some (Term.exact (2 : Int))
          else some (Term.exact 1)) = IncompRel.Contradicted pt0.1 :=
  (incompat_relation_characterization
    (⟨SmallMap.m2 ((0 : Nat), Term.exact (1 : Int)) (1, Term.exact 1),
      IncompKind.DerivedFrom 0 0⟩ : Incompat Nat Int Unit)
    (fun p : Nat => if p = 0 then some (Term.exact (2 : Int))
      else some (Term.exact 1))).2.2.2 (by decide) (by decide)

end IncompatRelation

/-! ## Claim C7: dependency-ingestion fast path -/

section AddPVI

variable {P V M : Type} [DecidableEq P] [LinearOrder V]

theorem findConflict_sound (lookup : P → Option (Term V))
    (store : List (Incompat P V M)) (l : List Nat) (iid : Nat)
    (h : PartialSolution.findConflict lookup store l = some (some iid)) :
    iid ∈ l ∧ ∃ inc, store[iid]? = some inc ∧
      inc.relation lookup = IncompRel.Satisfied := by
  induction l with
  | nil => exact absurd h (by simp [PartialSolution.findConflict])
  | cons j rest ih =>
      unfold PartialSolution.findConflict at h
      cases hj : store[j]? with
      | none => rw [hj] at h; exact absurd h (by simp)
      | some inc =>
          rw [hj] at h
          have h' : (if inc.relation lookup = IncompRel.Satisfied
              then some (some j)
              else PartialSolution.findConflict lookup store rest) =
              some (some iid) := h
          by_cases hrel : inc.relation lookup = IncompRel.Satisfied
          · rw [if_pos hrel] at h'
            have : j = iid := by simpa using h'
            subst this
            exact ⟨List.mem_cons_self _ _, inc, hj, hrel⟩
          · rw [if_neg hrel] at h'
            obtain ⟨hm, hrest⟩ := ih h'
            exact ⟨List.mem_cons_of_mem _ hm, hrest⟩

theorem findConflict_none (lookup : P → Option (Term V))
    (store : List (Incompat P V M)) (l : List Nat)
    (h : ∀ iid ∈ l, ∃ inc, store[iid]? = some inc ∧
      inc.relation lookup ≠ IncompRel.Satisfied) :
    PartialSolution.findConflict lookup store l = some none := by
  induction l with
  | nil => rfl
  | cons j rest ih =>
      obtain ⟨inc, hj, hrel⟩ := h j (List.mem_cons_self _ _)
      unfold PartialSolution.findConflict
      rw [hj]
      show (if inc.relation lookup = IncompRel.Satisfied then some (some j)
          else PartialSolution.findConflict lookup store rest) = some none
      rw [if_neg hrel]
      exact ih (fun iid hm => h iid (List.mem_cons_of_mem _ hm))

theorem findConflict_some_of_exists (lookup : P → Option (Term V))
    (store : List (Incompat P V M)) (l : List Nat)
    (hin : ∀ iid ∈ l, ∃ inc, store[iid]? = some inc)
    (hex : ∃ j ∈ l, ∃ incj, store[j]? = some incj ∧
      incj.relation lookup = IncompRel.Satisfied) :
    ∃ k, PartialSolution.findConflict lookup store l = some (some k) := by
  induction l with
  | nil =>
      obtain ⟨j, hj, -⟩ := hex
      exact absurd hj (by simp)
  | cons a rest ih =>
      obtain ⟨inca, ha⟩ := hin a (List.mem_cons_self _ _)
      unfold PartialSolution.findConflict
      rw [ha]
      show (∃ k, (if inca.relation lookup = IncompRel.Satisfied
          then some (some a)
          else PartialSolution.findConflict lookup store rest) =
        some (some k))
      by_cases hrel : inca.relation lookup = IncompRel.Satisfied
      · exact ⟨a, by rw [if_pos hrel]⟩
      · rw [if_neg hrel]
        refine ih (fun iid hm => hin iid (List.mem_cons_of_mem _ hm)) ?_
        obtain ⟨j, hj, incj, hsj, hrelj⟩ := hex
        rcases List.mem_cons.mp hj with rfl | hj'
        · exfalso
          rw [ha] at hsj
          rw [← Option.some.inj hsj] at hrelj
          exact hrel hrelj
        · exact ⟨j, hj', incj, hsj, hrelj⟩

/-- C7: `add_package_version_incompatibilities` takes the fast path when
no backtrack has ever happened — it adds the decision without looking at
the new incompatibilities (the result does not depend on them at all);
otherwise a returned conflict ID is one of the new incompatibilities and
its relation, with `p = exact(v)` substituted for `p` and the current
partial-solution terms for other packages, is `Satisfied` (the state is
returned unchanged, no decision added); when no new incompatibility is
satisfied under that substitution, the decision is added and no conflict
is returned; and conversely, when the IDs are in range and some listed
incompatibility *is* satisfied under that substitution, a satisfied
conflict ID from the list is returned with the state unchanged. -/
theorem add_pvi_characterization (ps : PartialSolution P V) (package : P)
    (version : V) (new_incompatibilities : List Nat)
    (store : List (Incompat P V M)) :
    (ps.has_ever_backtracked = false →
      (PartialSolution.add_package_version_incompatibilities ps package version
          new_incompatibilities store =
        (ps.add_decision package version).map (fun ps' => (none, ps')) ∧
       ∀ other : List Nat,
         PartialSolution.add_package_version_incompatibilities ps package
           version new_incompatibilities store =
         PartialSolution.add_package_version_incompatibilities ps package
           version other store)) ∧
    (ps.has_ever_backtracked = true →
      ((∀ iid ps', PartialSolution.add_package_version_incompatibilities ps
          package version new_incompatibilities store = some (some iid, ps') →
        ps' = ps ∧ iid ∈ new_incompatibilities ∧
        ∃ inc, store[iid]? = some inc ∧
          inc.relation (fun p => if p = package then some (Term.exact version)
            else ps.term_intersection_for_package p) = IncompRel.Satisfied) ∧
      ((∀ iid ∈ new_incompatibilities, ∃ inc, store[iid]? = some inc ∧
          inc.relation (fun p => if p = package then some (Term.exact version)
            else ps.term_intersection_for_package p) ≠ IncompRel.Satisfied) →
        PartialSolution.add_package_version_incompatibilities ps package
          version new_incompatibilities store =
        (ps.add_decision package version).map (fun ps' => (none, ps'))) ∧
      ((∀ iid ∈ new_incompatibilities, ∃ inc, store[iid]? = some inc) →
        (∃ j ∈ new_incompatibilities, ∃ incj, store[j]? = some incj ∧
          incj.relation (fun p => if p = package then some (Term.exact version)
            else ps.term_intersection_for_package p) = IncompRel.Satisfied) →
        ∃ k inck, k ∈ new_incompatibilities ∧ store[k]? = some inck ∧
          inck.relation (fun p => if p = package then some (Term.exact version)
            else ps.term_intersection_for_package p) = IncompRel.Satisfied ∧
          PartialSolution.add_package_version_incompatibilities ps package
            version new_incompatibilities store = some (some k, ps)))) := by
  constructor
  · intro hb
    unfold PartialSolution.add_package_version_incompatibilities
    rw [hb]
    exact ⟨rfl, fun other => rfl⟩
  · intro hb
    refine ⟨?_, ?_, ?_⟩
    · intro iid ps' heq
      unfold PartialSolution.add_package_version_incompatibilities at heq
      rw [hb] at heq
      simp only [Bool.not_true, Bool.false_eq_true, if_false] at heq
      cases hfc : PartialSolution.findConflict
          (fun p => if p = package then some (Term.exact version)
            else ps.term_intersection_for_package p) store
          new_incompatibilities with
      | none => rw [hfc] at heq; exact absurd heq (by simp)
      | some conflict =>
          rw [hfc] at heq
          cases conflict with
          | none =>
              exfalso
              cases had : ps.add_decision package version with
              | none => rw [had] at heq; exact absurd heq (by simp)
              | some x =>
                  rw [had] at heq
                  simp at heq
          | some j =>
              have hj : j = iid ∧ ps = ps' := by
                simpa using heq
              obtain ⟨rfl, rfl⟩ := hj
              obtain ⟨hm, hex⟩ := findConflict_sound _ store
                new_incompatibilities j hfc
              exact ⟨rfl, hm, hex⟩
    · intro hall
      unfold PartialSolution.add_package_version_incompatibilities
      rw [hb]
      simp only [Bool.not_true, Bool.false_eq_true, if_false]
      rw [findConflict_none _ store new_incompatibilities hall]
    · intro hin hex
      obtain ⟨k, hfc⟩ :=
        findConflict_some_of_exists _ store new_incompatibilities hin hex
      obtain ⟨hm, inck, hsk, hrelk⟩ :=
        findConflict_sound _ store new_incompatibilities k hfc
      refine ⟨k, inck, hm, hsk, hrelk, ?_⟩
      unfold PartialSolution.add_package_version_incompatibilities
      rw [hb]
      simp only [Bool.not_true, Bool.false_eq_true, if_false]
      rw [hfc]

/-- Witness for C7: the fast path on a one-package partial solution that
has never backtracked ignores the (dangling) incompatibility list; and on
a solution that has backtracked, a new incompatibility that is satisfied
under `p = exact(v)` is returned as the conflict with the state
unchanged. -/
theorem add_pvi_witness :
    ((⟨0, 0, false,
        [((0 : Nat), ⟨AssignmentsIntersection.Derivations
          (Term.Negative (Ranges.empty : Ranges Int)), [], 0, 0⟩)], []⟩ :
      PartialSolution Nat Int).has_ever_backtracked = false) ∧
    PartialSolution.add_package_version_incompatibilities
      (M := Unit)
      (⟨0, 0, false,
        [((0 : Nat), ⟨AssignmentsIntersection.Derivations
          (Term.Negative (Ranges.empty : Ranges Int)), [], 0, 0⟩)], []⟩ :
        PartialSolution Nat Int) 0 5 [99] [] =
      ((⟨0, 0, false,
        [((0 : Nat), ⟨AssignmentsIntersection.Derivations
          (Term.Negative (Ranges.empty : Ranges Int)), [], 0, 0⟩)], []⟩ :
        PartialSolution Nat Int).add_decision 0 5).map
        (fun ps' => (none, ps')) ∧
    PartialSolution.add_package_version_incompatibilities
      (⟨0, 0, true, [], []⟩ : PartialSolution Nat Int) 0 5 [0]
      [(⟨SmallMap.m1 ((0 : Nat), Term.exact (5 : Int)),
        IncompKind.NotRoot 0 5⟩ : Incompat Nat Int Unit)] =
      some (some 0, (⟨0, 0, true, [], []⟩ : PartialSolution Nat Int)) :=
  ⟨rfl,
    ((add_pvi_characterization
      (⟨0, 0, false,
        [((0 : Nat), ⟨AssignmentsIntersection.Derivations
          (Term.Negative (Ranges.empty : Ranges Int)), [], 0, 0⟩)], []⟩ :
        PartialSolution Nat Int) 0 5 [99] ([] : List (Incompat Nat Int Unit))).1
      rfl).1,
    by
      obtain ⟨k, inck, hk, hsk, hrelk, heq⟩ :=
        ((add_pvi_characterization
          (⟨0, 0, true, [], []⟩ : PartialSolution Nat Int) 0 5 [0]
          [(⟨SmallMap.m1 ((0 : Nat), Term.exact (5 : Int)),
        IncompKind.NotRoot 0 5⟩ : Incompat Nat Int Unit)]).2 rfl).2.2
          (fun iid hiid => by
            have h0 := List.mem_singleton.mp hiid
            subst h0
            exact ⟨_, rfl⟩)
          ⟨0, by simp, _, rfl, by decide⟩
      have hk0 := List.mem_singleton.mp hk
      subst hk0
      exact heq⟩

end AddPVI

/-! ## Claim C5: decision-level bookkeeping and global-index monotonicity -/

section DecisionInvariant

variable {P V M : Type} [DecidableEq P] [LinearOrder V]

theorem length_filter_of_prefix_split {α : Type} (p : α → Bool) (l : List α) :
    ∀ n : Nat, n ≤ l.length →
    (∀ i, i < n → ∃ e, l[i]? = some e ∧ p e = true) →
    (∀ i e, n ≤ i → l[i]? = some e → p e = false) →
    (l.filter p).length = n := by
  induction l with
  | nil =>
      intro n hn _ _
      simp only [List.length_nil, Nat.le_zero] at hn
      simp [hn]
  | cons a rest ih =>
      intro n hn hpre hpost
      cases n with
      | zero =>
          have ha : p a = false := hpost 0 a (Nat.zero_le _) (by simp)
          rw [List.filter_cons, if_neg (by simp [ha])]
          exact ih 0 (Nat.zero_le _)
            (fun i hi => absurd hi (Nat.not_lt_zero i))
            (fun i e _ he => hpost (i + 1) e (Nat.zero_le _) (by simpa using he))
      | succ m =>
          obtain ⟨e, he, hpe⟩ := hpre 0 (Nat.succ_pos m)
          have hea : a = e := by simpa using he
          subst hea
          rw [List.filter_cons, if_pos (by simp [hpe])]
          simp only [List.length_cons, Nat.succ.injEq]
          exact ih m (Nat.le_of_succ_le_succ (by simpa using hn))
            (fun i hi => by simpa using hpre (i + 1) (Nat.succ_lt_succ hi))
            (fun i e' hi he' =>
              hpost (i + 1) e' (Nat.succ_le_succ hi) (by simpa using he'))

theorem decisionCount_eq_of_inv (ps : PartialSolution P V) (h : PSInv ps) :
    decisionCount ps = ps.current_decision_level := by
  obtain ⟨h1, h2, h3, _⟩ := h
  exact length_filter_of_prefix_split _ _ _ h1
    (fun i hi => (h2 i hi).imp fun e he => ⟨he.1, he.2.1⟩)
    (fun i e hi he => h3 i e hi he)

theorem PSInv_empty : PSInv (PartialSolution.empty : PartialSolution P V) := by
  refine ⟨Nat.le_refl 0, ?_, ?_, ?_⟩
  · intro i hi; exact absurd hi (Nat.not_lt_zero i)
  · intro i e _ he
    exact absurd he (by simp [PartialSolution.empty])
  · intro e he
    exact absurd he (by simp [PartialSolution.empty])

theorem filterMap_eq_self_of {α : Type} (f : α → Option α) (l : List α)
    (h : ∀ e ∈ l, f e = some e) : l.filterMap f = l := by
  induction l with
  | nil => rfl
  | cons a rest ih =>
      simp only [List.filterMap_cons, h a (List.mem_cons_self a rest)]
      rw [ih (fun e he => h e (List.mem_cons_of_mem _ he))]

theorem backtrackEntry_keep (dl : Nat) (entry : P × PackageAssignments V)
    (h1 : entry.2.smallest_decision_level ≤ dl)
    (h2 : entry.2.highest_decision_level ≤ dl) :
    PartialSolution.backtrackEntry dl entry =
      some (entry,
        entry.2.assignments_intersection.potential_package_filter.isSome) := by
  unfold PartialSolution.backtrackEntry
  rw [if_neg (Nat.not_lt.mpr h1), if_pos h2]

theorem backtrackEntry_some (dl : Nat) (entry e : P × PackageAssignments V)
    (flag : Bool) (h : PartialSolution.backtrackEntry dl entry = some (e, flag)) :
    e.2.smallest_decision_level ≤ dl ∧
    (e.2.assignments_intersection.isDecision = true →
      e = entry ∧ entry.2.highest_decision_level ≤ dl) := by
  unfold PartialSolution.backtrackEntry at h
  by_cases hs : dl < entry.2.smallest_decision_level
  · rw [if_pos hs] at h; exact Option.noConfusion h
  · rw [if_neg hs] at h
    by_cases hh : entry.2.highest_decision_level ≤ dl
    · rw [if_pos hh] at h
      have he : entry = e := congrArg Prod.fst (Option.some.inj h)
      subst he
      exact ⟨Nat.not_lt.mp hs, fun _ => ⟨rfl, hh⟩⟩
    · rw [if_neg hh] at h
      have h' : (match (PartialSolution.dropBackWhile
            (fun dd => decide (dl < dd.decision_level))
            entry.2.dated_derivations).getLast? with
        | none => (none : Option ((P × PackageAssignments V) × Bool))
        | some last =>
            some ((entry.1,
              { entry.2 with
                  highest_decision_level := last.decision_level
                  dated_derivations := PartialSolution.dropBackWhile
                    (fun dd => decide (dl < dd.decision_level))
                    entry.2.dated_derivations
                  assignments_intersection :=
                    .Derivations last.accumulated_intersection }),
              last.accumulated_intersection.is_positive)) = some (e, flag) := h
      cases hl : (PartialSolution.dropBackWhile
          (fun dd => decide (dl < dd.decision_level))
          entry.2.dated_derivations).getLast? with
      | none =>
          rw [hl] at h'
          exact Option.noConfusion h'
      | some last =>
          rw [hl] at h'
          have h2 := Option.some.inj h'
          injection h2 with he hf
          subst he
          refine ⟨Nat.not_lt.mp hs, ?_⟩
          intro hd
          exact absurd hd (by simp [AssignmentsIntersection.isDecision])

theorem backtrack_foldl_eq (dl : Nat)
    (l : List (P × PackageAssignments V)) :
    ∀ acc : List (P × PackageAssignments V) × List P,
    (l.foldl (fun acc entry =>
        match PartialSolution.backtrackEntry dl entry with
        | none => acc
        | some (e, flag) =>
            (acc.1 ++ [e], if flag then setInsert acc.2 e.1 else acc.2)) acc).1 =
      acc.1 ++ l.filterMap (fun e => (PartialSolution.backtrackEntry dl e).map Prod.fst) := by
  induction l with
  | nil => intro acc; simp
  | cons a rest ih =>
      intro acc
      rw [List.foldl_cons]
      cases hb : PartialSolution.backtrackEntry dl a with
      | none =>
          rw [ih]
          simp [hb, List.filterMap_cons]
      | some pr =>
          rw [ih]
          simp [hb, List.filterMap_cons]

theorem backtrack_pa (ps : PartialSolution P V) (dl : Nat) :
    (PartialSolution.backtrack ps dl).package_assignments =
      ps.package_assignments.filterMap
        (fun e => (PartialSolution.backtrackEntry dl e).map Prod.fst) := by
  show (ps.package_assignments.foldl _ ([], ps.outdated_priorities)).1 = _
  rw [backtrack_foldl_eq]
  simp

end DecisionInvariant

section ShapeLemmas

variable {P V M : Type} [DecidableEq P] [LinearOrder V]

theorem add_decision_shape (ps : PartialSolution P V) (package : P)
    (version : V) (ps' : PartialSolution P V)
    (h : PartialSolution.add_decision ps package version = some ps') :
    ps'.next_global_index = (ps.next_global_index + 1) % 4294967296 ∧
    ps'.current_decision_level = ps.current_decision_level + 1 ∧
    ∃ old_idx entry,
      ps.package_assignments[old_idx]? = some entry ∧
      entry.2.assignments_intersection.isDecision = false ∧
      ((old_idx = ps.current_decision_level ∧
        ps'.package_assignments = ps.package_assignments.set old_idx
          (entry.1, { entry.2 with
              highest_decision_level := ps.current_decision_level + 1
              assignments_intersection :=
                .Decision ps.next_global_index version })) ∨
       (old_idx ≠ ps.current_decision_level ∧
        swapIdx (ps.package_assignments.set old_idx
          (entry.1, { entry.2 with
              highest_decision_level := ps.current_decision_level + 1
              assignments_intersection :=
                .Decision ps.next_global_index version }))
          old_idx ps.current_decision_level =
          some ps'.package_assignments)) := by
  unfold PartialSolution.add_decision at h
  cases hfi : ps.package_assignments.findIdx?
      (fun e => decide (e.1 = package)) with
  | none =>
      rw [hfi] at h
      exact Option.noConfusion
        (show (none : Option (PartialSolution P V)) = some ps' from h)
  | some old_idx =>
      rw [hfi] at h
      simp only [] at h
      cases hge : ps.package_assignments[old_idx]? with
      | none =>
          rw [hge] at h
          exact Option.noConfusion
            (show (none : Option (PartialSolution P V)) = some ps' from h)
      | some entry =>
          rw [hge] at h
          have h' : (if entry.2.assignments_intersection.isDecision = true
              then (none : Option (PartialSolution P V))
              else if (!entry.2.assignments_intersection.term_ref.contains
                  version) = true then none
              else
                match (if old_idx ≠ ps.current_decision_level then
                    swapIdx (ps.package_assignments.set old_idx
                      (entry.1, { entry.2 with
                          highest_decision_level :=
                            ps.current_decision_level + 1
                          assignments_intersection :=
                            .Decision ps.next_global_index version }))
                      old_idx ps.current_decision_level
                  else some (ps.package_assignments.set old_idx
                      (entry.1, { entry.2 with
                          highest_decision_level :=
                            ps.current_decision_level + 1
                          assignments_intersection :=
                            .Decision ps.next_global_index version }))) with
                | none => none
                | some l =>
                    some { ps with
                        current_decision_level :=
                          ps.current_decision_level + 1
                        package_assignments := l
                        next_global_index := (ps.next_global_index + 1) % 4294967296 }) =
              some ps' := h
          by_cases hd : entry.2.assignments_intersection.isDecision = true
          · rw [if_pos hd] at h'
            exact Option.noConfusion h'
          · rw [if_neg hd] at h'
            by_cases hc : (!entry.2.assignments_intersection.term_ref.contains
                version) = true
            · rw [if_pos hc] at h'
              exact Option.noConfusion h'
            · rw [if_neg hc] at h'
              cases hl : (if old_idx ≠ ps.current_decision_level then
                  swapIdx (ps.package_assignments.set old_idx
                    (entry.1, { entry.2 with
                        highest_decision_level :=
                          ps.current_decision_level + 1
                        assignments_intersection :=
                          .Decision ps.next_global_index version }))
                    old_idx ps.current_decision_level
                else some (ps.package_assignments.set old_idx
                    (entry.1, { entry.2 with
                        highest_decision_level :=
                          ps.current_decision_level + 1
                        assignments_intersection :=
                          .Decision ps.next_global_index version }))) with
              | none =>
                  rw [hl] at h'
                  exact Option.noConfusion h'
              | some l =>
                  rw [hl] at h'
                  have hps' := (Option.some.inj h').symm
                  subst hps'
                  refine ⟨rfl, rfl, old_idx, entry, hge,
                    Bool.not_eq_true _ ▸ hd, ?_⟩
                  by_cases hne : old_idx = ps.current_decision_level
                  · left
                    refine ⟨hne, ?_⟩
                    rw [if_neg (by simp [hne])] at hl
                    exact (Option.some.inj hl).symm
                  · right
                    refine ⟨hne, ?_⟩
                    rw [if_pos hne] at hl
                    exact hl

theorem add_derivation_shape (ps : PartialSolution P V) (package : P)
    (cause : Nat) (store : List (Incompat P V M))
    (ps' : PartialSolution P V)
    (h : PartialSolution.add_derivation ps package cause store = some ps') :
    ps'.next_global_index = (ps.next_global_index + 1) % 4294967296 ∧
    ps'.current_decision_level = ps.current_decision_level ∧
    ((∃ idx entry t,
        ps.package_assignments[idx]? = some entry ∧
        entry.2.assignments_intersection.isDecision = false ∧
        ps'.package_assignments = ps.package_assignments.set idx
          (entry.1, { entry.2 with
              highest_decision_level := ps.current_decision_level
              dated_derivations := entry.2.dated_derivations ++
                [⟨ps.next_global_index, ps.current_decision_level, cause, t⟩]
              assignments_intersection := .Derivations t })) ∨
     (∃ t : Term V,
        ps'.package_assignments = ps.package_assignments ++
          [(package, ⟨.Derivations t,
            [⟨ps.next_global_index, ps.current_decision_level, cause, t⟩],
            ps.current_decision_level, ps.current_decision_level⟩)])) := by
  unfold PartialSolution.add_derivation at h
  cases hs : store[cause]? with
  | none =>
      rw [hs] at h
      exact Option.noConfusion
        (show (none : Option (PartialSolution P V)) = some ps' from h)
  | some inc =>
      rw [hs] at h
      simp only [] at h
      cases hg : inc.get package with
      | none =>
          rw [hg] at h
          exact Option.noConfusion
            (show (none : Option (PartialSolution P V)) = some ps' from h)
      | some t0 =>
          rw [hg] at h
          simp only [] at h
          cases hfi : ps.package_assignments.findIdx?
              (fun e => decide (e.1 = package)) with
          | some idx =>
              rw [hfi] at h
              simp only [] at h
              cases hge : ps.package_assignments[idx]? with
              | none =>
                  rw [hge] at h
                  exact Option.noConfusion
                    (show (none : Option (PartialSolution P V)) = some ps'
                      from h)
              | some entry =>
                  rw [hge] at h
                  have h' : (if entry.2.assignments_intersection.isDecision =
                      true then (none : Option (PartialSolution P V))
                    else
                      some { ps with
                          next_global_index := (ps.next_global_index + 1) % 4294967296
                          outdated_priorities :=
                            if (entry.2.assignments_intersection.term_ref.intersection
                                (Term.negate t0)).is_positive then
                              setInsert ps.outdated_priorities package
                            else ps.outdated_priorities
                          package_assignments :=
                            ps.package_assignments.set idx
                              (entry.1, { entry.2 with
                                  highest_decision_level :=
                                    ps.current_decision_level
                                  dated_derivations :=
                                    entry.2.dated_derivations ++
                                    [⟨ps.next_global_index,
                                      ps.current_decision_level, cause,
                                      entry.2.assignments_intersection.term_ref.intersection
                                        (Term.negate t0)⟩]
                                  assignments_intersection :=
                                    .Derivations
                                      (entry.2.assignments_intersection.term_ref.intersection
                                        (Term.negate t0)) }) }) =
                      some ps' := h
                  by_cases hd : entry.2.assignments_intersection.isDecision =
                      true
                  · rw [if_pos hd] at h'
                    exact Option.noConfusion h'
                  · rw [if_neg hd] at h'
                    have hps' := (Option.some.inj h').symm
                    subst hps'
                    exact ⟨rfl, rfl, Or.inl ⟨idx, entry,
                      entry.2.assignments_intersection.term_ref.intersection
                        (Term.negate t0), hge, Bool.not_eq_true _ ▸ hd, rfl⟩⟩
          | none =>
              rw [hfi] at h
              have h' : (some { ps with
                  next_global_index := (ps.next_global_index + 1) % 4294967296
                  outdated_priorities :=
                    if (Term.negate t0).is_positive then
                      setInsert ps.outdated_priorities package
                    else ps.outdated_priorities
                  package_assignments := ps.package_assignments ++
                    [(package, ⟨.Derivations (Term.negate t0),
                      [⟨ps.next_global_index, ps.current_decision_level,
                        cause, Term.negate t0⟩],
                      ps.current_decision_level,
                      ps.current_decision_level⟩)] } :
                  Option (PartialSolution P V)) = some ps' := h
              have hps' := (Option.some.inj h').symm
              subst hps'
              exact ⟨rfl, rfl, Or.inr ⟨Term.negate t0, rfl⟩⟩

end ShapeLemmas

section InvPreservation

variable {P V M : Type} [DecidableEq P] [LinearOrder V]

theorem PSInv_add_decision (ps ps' : PartialSolution P V) (package : P)
    (version : V) (hinv : PSInv ps)
    (h : PartialSolution.add_decision ps package version = some ps') :
    PSInv ps' := by
  obtain ⟨h1, h2, h3, h4⟩ := hinv
  obtain ⟨hngi, hcdl, old_idx, entry, hge, hnd, hcases⟩ :=
    add_decision_shape ps package version ps' h
  have hlen : old_idx < ps.package_assignments.length :=
    (List.getElem?_eq_some.mp hge).1
  have hci : ps.current_decision_level ≤ old_idx := by
    by_contra hlt
    push_neg at hlt
    obtain ⟨e, he, hd, -, -⟩ := h2 old_idx hlt
    have hee : e = entry := by
      rw [hge] at he
      exact (Option.some.inj he).symm
    rw [hee] at hd
    exact absurd hd (by simp [hnd])
  have hsm : entry.2.smallest_decision_level ≤ ps.current_decision_level :=
    h4 entry (List.mem_iff_getElem?.mpr ⟨old_idx, hge⟩)
  have hcdllen : ps.current_decision_level <
      ps.package_assignments.length := lt_of_le_of_lt hci hlen
  unfold PSInv
  rw [hcdl]
  rcases hcases with ⟨heq, hpa⟩ | ⟨hne, hsw⟩
  · subst heq
    rw [hpa]
    refine ⟨?_, ?_, ?_, ?_⟩
    · rw [List.length_set]
      omega
    · intro i hi
      rcases Nat.lt_succ_iff_lt_or_eq.mp hi with hi' | hieq
      · rw [List.getElem?_set_ne (Nat.ne_of_gt hi')]
        exact h2 i hi'
      · subst hieq
        rw [List.getElem?_set_self hlen]
        exact ⟨_, rfl, rfl, rfl, hsm⟩
    · intro i e hi hgeq
      rw [List.getElem?_set_ne (by omega)] at hgeq
      exact h3 i e (by omega) hgeq
    · intro e he
      rcases List.mem_or_eq_of_mem_set he with he' | rfl
      · exact le_trans (h4 e he') (Nat.le_succ _)
      · exact le_trans hsm (Nat.le_succ _)
  · have hoi : ps.current_decision_level < old_idx :=
      lt_of_le_of_ne hci (Ne.symm hne)
    cases hcn : ps.package_assignments[ps.current_decision_level]? with
    | none =>
        rw [List.getElem?_eq_none_iff] at hcn
        omega
    | some c =>
        have hcnd : c.2.assignments_intersection.isDecision = false :=
          h3 ps.current_decision_level c (le_refl _) hcn
        have hcsm : c.2.smallest_decision_level ≤
            ps.current_decision_level :=
          h4 c (List.mem_iff_getElem?.mpr ⟨_, hcn⟩)
        have hset1 : (ps.package_assignments.set old_idx
            (entry.1, { entry.2 with
                highest_decision_level := ps.current_decision_level + 1
                assignments_intersection :=
                  .Decision ps.next_global_index version }))[old_idx]? =
            some (entry.1, { entry.2 with
                highest_decision_level := ps.current_decision_level + 1
                assignments_intersection :=
                  .Decision ps.next_global_index version }) :=
          List.getElem?_set_self hlen
        have hset2 : (ps.package_assignments.set old_idx
            (entry.1, { entry.2 with
                highest_decision_level := ps.current_decision_level + 1
                assignments_intersection :=
                  .Decision ps.next_global_index version }))[ps.current_decision_level]? =
            some c := by
          rw [List.getElem?_set_ne hne]
          exact hcn
        unfold swapIdx at hsw
        rw [hset1, hset2] at hsw
        simp only [] at hsw
        have hpa : ps'.package_assignments =
            ((ps.package_assignments.set old_idx
              (entry.1, { entry.2 with
                  highest_decision_level := ps.current_decision_level + 1
                  assignments_intersection :=
                    .Decision ps.next_global_index version })).set old_idx
              c).set ps.current_decision_level
              (entry.1, { entry.2 with
                  highest_decision_level := ps.current_decision_level + 1
                  assignments_intersection :=
                    .Decision ps.next_global_index version }) :=
          (Option.some.inj hsw).symm
        rw [List.set_set] at hpa
        rw [hpa]
        refine ⟨?_, ?_, ?_, ?_⟩
        · rw [List.length_set, List.length_set]
          omega
        · intro i hi
          rcases Nat.lt_succ_iff_lt_or_eq.mp hi with hi' | hieq
          · rw [List.getElem?_set_ne (Nat.ne_of_gt hi'),
              List.getElem?_set_ne (by omega)]
            exact h2 i hi'
          · subst hieq
            rw [List.getElem?_set_self (by rw [List.length_set]; omega)]
            exact ⟨_, rfl, rfl, rfl, hsm⟩
        · intro i e hi hgeq
          rw [List.getElem?_set_ne (by omega)] at hgeq
          by_cases hio : i = old_idx
          · subst hio
            rw [List.getElem?_set_self hlen] at hgeq
            rw [← Option.some.inj hgeq]
            exact hcnd
          · rw [List.getElem?_set_ne (fun hh => hio hh.symm)] at hgeq
            exact h3 i e (by omega) hgeq
        · intro e he
          rcases List.mem_or_eq_of_mem_set he with he' | rfl
          · rcases List.mem_or_eq_of_mem_set he' with he'' | rfl
            · exact le_trans (h4 e he'') (Nat.le_succ _)
            · exact le_trans hcsm (Nat.le_succ _)
          · exact le_trans hsm (Nat.le_succ _)

theorem PSInv_add_derivation (ps ps' : PartialSolution P V) (package : P)
    (cause : Nat) (store : List (Incompat P V M)) (hinv : PSInv ps)
    (h : PartialSolution.add_derivation ps package cause store = some ps') :
    PSInv ps' := by
  obtain ⟨h1, h2, h3, h4⟩ := hinv
  obtain ⟨hngi, hcdl, hcases⟩ :=
    add_derivation_shape ps package cause store ps' h
  unfold PSInv
  rw [hcdl]
  rcases hcases with ⟨idx, entry, t, hge, hnd, hpa⟩ | ⟨t, hpa⟩
  · rw [hpa]
    have hlen : idx < ps.package_assignments.length :=
      (List.getElem?_eq_some.mp hge).1
    have hci : ps.current_decision_level ≤ idx := by
      by_contra hlt
      push_neg at hlt
      obtain ⟨e, he, hd, -, -⟩ := h2 idx hlt
      have hee : e = entry := by
        rw [hge] at he
        exact (Option.some.inj he).symm
      rw [hee] at hd
      exact absurd hd (by simp [hnd])
    have hsm : entry.2.smallest_decision_level ≤
        ps.current_decision_level :=
      h4 entry (List.mem_iff_getElem?.mpr ⟨idx, hge⟩)
    refine ⟨?_, ?_, ?_, ?_⟩
    · rw [List.length_set]
      exact h1
    · intro i hi
      rw [List.getElem?_set_ne (by omega)]
      exact h2 i hi
    · intro i e hi hgeq
      by_cases hio : i = idx
      · subst hio
        rw [List.getElem?_set_self hlen] at hgeq
        rw [← Option.some.inj hgeq]
        rfl
      · rw [List.getElem?_set_ne (fun hh => hio hh.symm)] at hgeq
        exact h3 i e hi hgeq
    · intro e he
      rcases List.mem_or_eq_of_mem_set he with he' | rfl
      · exact h4 e he'
      · exact hsm
  · rw [hpa]
    refine ⟨?_, ?_, ?_, ?_⟩
    · rw [List.length_append]
      exact le_trans h1 (Nat.le_add_right _ _)
    · intro i hi
      rw [List.getElem?_append_left (lt_of_lt_of_le hi h1)]
      exact h2 i hi
    · intro i e hi hgeq
      by_cases hil : i < ps.package_assignments.length
      · rw [List.getElem?_append_left hil] at hgeq
        exact h3 i e hi hgeq
      · rw [List.getElem?_append_right (Nat.le_of_not_lt hil)] at hgeq
        cases hd : i - ps.package_assignments.length with
        | zero =>
            rw [hd] at hgeq
            rw [← Option.some.inj hgeq]
            rfl
        | succ m =>
            rw [hd] at hgeq
            exact Option.noConfusion hgeq
    · intro e he
      rcases List.mem_append.mp he with he' | he'
      · exact h4 e he'
      · rw [List.mem_singleton.mp he']

end InvPreservation

section BacktrackPreservation

variable {P V M : Type} [DecidableEq P] [LinearOrder V]

theorem PSInv_backtrack (ps : PartialSolution P V) (dl : Nat)
    (hdl : dl ≤ ps.current_decision_level) (hinv : PSInv ps) :
    PSInv (PartialSolution.backtrack ps dl) := by
  obtain ⟨h1, h2, h3, h4⟩ := hinv
  have hdll : dl ≤ ps.package_assignments.length := le_trans hdl h1
  have hpre : ∀ e ∈ ps.package_assignments.take dl,
      (PartialSolution.backtrackEntry dl e).map Prod.fst = some e ∧
      e.2.smallest_decision_level ≤ dl := by
    intro e he
    obtain ⟨i, hi⟩ := List.mem_iff_getElem?.mp he
    have hilt : i < dl := by
      have hl1 : i < (ps.package_assignments.take dl).length :=
        (List.getElem?_eq_some.mp hi).1
      rw [List.length_take] at hl1
      omega
    have hgi : ps.package_assignments[i]? = some e := by
      rw [List.getElem?_take, if_pos hilt] at hi
      exact hi
    obtain ⟨e₂, he₂, hdec, hhigh, hsmall⟩ := h2 i (lt_of_lt_of_le hilt hdl)
    have hee : e₂ = e := by
      rw [hgi] at he₂
      exact (Option.some.inj he₂).symm
    subst hee
    have hsml : e₂.2.smallest_decision_level ≤ dl :=
      le_trans hsmall (Nat.le_of_lt hilt)
    have hhl : e₂.2.highest_decision_level ≤ dl := by omega
    rw [backtrackEntry_keep dl e₂ hsml hhl]
    exact ⟨rfl, hsml⟩
  have hsplit : ps.package_assignments.filterMap
      (fun e => (PartialSolution.backtrackEntry dl e).map Prod.fst) =
      ps.package_assignments.take dl ++
        (ps.package_assignments.drop dl).filterMap
          (fun e => (PartialSolution.backtrackEntry dl e).map Prod.fst) := by
    conv_lhs => rw [← List.take_append_drop dl ps.package_assignments]
    rw [List.filterMap_append,
      filterMap_eq_self_of _ _ (fun e he => (hpre e he).1)]
  have htlen : (ps.package_assignments.take dl).length = dl :=
    List.length_take_of_le hdll
  have hdrop : ∀ e ∈ (ps.package_assignments.drop dl).filterMap
      (fun e => (PartialSolution.backtrackEntry dl e).map Prod.fst),
      e.2.assignments_intersection.isDecision = false ∧
      e.2.smallest_decision_level ≤ dl := by
    intro e he
    obtain ⟨orig, horig, hmap⟩ := List.mem_filterMap.mp he
    obtain ⟨pr, hpr, hfst⟩ : ∃ pr,
        PartialSolution.backtrackEntry dl orig = some pr ∧ pr.1 = e := by
      cases hbe : PartialSolution.backtrackEntry dl orig with
      | none =>
          rw [hbe] at hmap
          exact Option.noConfusion hmap
      | some pr =>
          rw [hbe] at hmap
          exact ⟨pr, rfl, Option.some.inj hmap⟩
    subst hfst
    obtain ⟨hsm, hdec⟩ :=
      backtrackEntry_some dl orig pr.1 pr.2 (by rw [hpr])
    refine ⟨?_, hsm⟩
    by_contra hd
    rw [Bool.not_eq_false] at hd
    obtain ⟨heq, hhigh⟩ := hdec hd
    obtain ⟨j, hj⟩ := List.mem_iff_getElem?.mp horig
    have hj' : ps.package_assignments[dl + j]? = some orig := by
      rw [← List.getElem?_drop]
      exact hj
    have hlt : dl + j < ps.current_decision_level := by
      by_contra hge
      push_neg at hge
      have hnd := h3 (dl + j) orig hge hj'
      rw [heq] at hd
      rw [hd] at hnd
      exact Bool.noConfusion hnd
    obtain ⟨e₂, he₂, -, hh₂, -⟩ := h2 (dl + j) hlt
    have hee : e₂ = orig := by
      rw [hj'] at he₂
      exact (Option.some.inj he₂).symm
    subst hee
    omega
  have hpa : (PartialSolution.backtrack ps dl).package_assignments =
      ps.package_assignments.take dl ++
        (ps.package_assignments.drop dl).filterMap
          (fun e => (PartialSolution.backtrackEntry dl e).map Prod.fst) := by
    rw [backtrack_pa]
    exact hsplit
  have hcdl : (PartialSolution.backtrack ps dl).current_decision_level =
      dl := rfl
  unfold PSInv
  rw [hpa, hcdl]
  refine ⟨?_, ?_, ?_, ?_⟩
  · rw [List.length_append, htlen]
    exact Nat.le_add_right _ _
  · intro i hi
    rw [List.getElem?_append_left (by omega), List.getElem?_take,
      if_pos hi]
    exact h2 i (lt_of_lt_of_le hi hdl)
  · intro i e hi hgeq
    rw [List.getElem?_append_right (by omega)] at hgeq
    have hmem : e ∈ (ps.package_assignments.drop dl).filterMap
        (fun e => (PartialSolution.backtrackEntry dl e).map Prod.fst) :=
      List.mem_iff_getElem?.mpr ⟨_, hgeq⟩
    exact (hdrop e hmem).1
  · intro e he
    rcases List.mem_append.mp he with he' | he'
    · exact (hpre e he').2
    · exact (hdrop e he').2

end BacktrackPreservation

section DecisionLevelClaim

variable {P V M : Type} [DecidableEq P] [LinearOrder V]

theorem PSReachableOk_inv (ps : PartialSolution P V)
    (h : PSReachableOk P V M ps) : PSInv ps := by
  induction h with
  | init => exact PSInv_empty
  | step hr hs ih =>
      cases hs with
      | decision a b c d =>
          exact PSInv_add_decision _ _ _ _ ih d
      | derivation a b c d e =>
          exact PSInv_add_derivation _ _ _ _ _ ih e
      | backtrack a b =>
          exact PSInv_backtrack _ _ b ih

theorem PSStep_ngi_step (ps ps' : PartialSolution P V)
    (h : PSStep P V M ps ps') :
    ps'.next_global_index = ps.next_global_index ∨
    ps'.next_global_index = (ps.next_global_index + 1) % 4294967296 := by
  cases h with
  | decision a b c d => exact Or.inr (add_decision_shape _ _ _ _ d).1
  | derivation a b c d e =>
      exact Or.inr (add_derivation_shape _ _ _ _ _ e).1
  | backtrack a => exact Or.inl rfl

theorem derivation_step_exists (ps : PartialSolution Nat Int)
    (pa : PackageAssignments Int)
    (hpa : ps.package_assignments = [((0 : Nat), pa)])
    (hnd : pa.assignments_intersection.isDecision = false) :
    ∃ ps', PartialSolution.add_derivation ps 0 0
        [(⟨SmallMap.m1 ((0 : Nat), Term.exact (5 : Int)),
      IncompKind.NotRoot 0 5⟩ : Incompat Nat Int Unit)] = some ps' ∧
      ps'.next_global_index = (ps.next_global_index + 1) % 4294967296 ∧
      ∃ pa', ps'.package_assignments = [((0 : Nat), pa')] ∧
        pa'.assignments_intersection.isDecision = false := by
  unfold PartialSolution.add_derivation
  rw [hpa]
  simp only [Incompat.get, SmallMap.get, List.getElem?_cons_zero,
    List.findIdx?_cons, List.findIdx?_nil, hnd, if_true, decide_True,
    Prod.fst, decide_eq_true_eq]
  exact ⟨_, rfl, rfl, _, rfl, rfl⟩

theorem reach_ngi_wrap : ∀ k : Nat, ∃ ps : PartialSolution Nat Int,
    PSReachableOk Nat Int Unit ps ∧
    ps.next_global_index = (k + 1) % 4294967296 ∧
    ∃ pa, ps.package_assignments = [((0 : Nat), pa)] ∧
      pa.assignments_intersection.isDecision = false := by
  intro k
  induction k with
  | zero =>
      refine ⟨⟨1, 0, false,
        [((0 : Nat), ⟨AssignmentsIntersection.Derivations
          (Term.Negative (Ranges.singleton (5 : Int))),
          [⟨0, 0, 0, Term.Negative (Ranges.singleton (5 : Int))⟩], 0, 0⟩)],
        []⟩, ?_, by decide,
        ⟨AssignmentsIntersection.Derivations
          (Term.Negative (Ranges.singleton (5 : Int))),
          [⟨0, 0, 0, Term.Negative (Ranges.singleton (5 : Int))⟩], 0, 0⟩,
        rfl, by decide⟩
      exact PSReachableOk.step PSReachableOk.init
        (PSStepOk.derivation _ 0 0
          [(⟨SmallMap.m1 ((0 : Nat), Term.exact (5 : Int)),
      IncompKind.NotRoot 0 5⟩ : Incompat Nat Int Unit)] _ (by decide))
  | succ k ih =>
      obtain ⟨ps, hr, hngi, pa, hpa, hnd⟩ := ih
      obtain ⟨ps', heq, hngi', pa', hpa', hnd'⟩ :=
        derivation_step_exists ps pa hpa hnd
      refine ⟨ps', PSReachableOk.step hr
        (PSStepOk.derivation _ 0 0 _ _ heq), ?_, pa', hpa', hnd'⟩
      rw [hngi', hngi, Nat.mod_add_mod]

/-- Counterexample to C5 as stated: (a) `backtrack` called with a level
above the current one (nothing in `PartialSolution` stops such a call)
raises `current_decision_level` without creating any decision, so the
state reached from the empty solution by `backtrack(1)` has level 1 and
zero `Decision` entries; (b) `next_global_index` is a `uint32_t` and the
`+= 1` wraps: a state with index 2^32 - 1 is reachable by repeated
derivations, and one more derivation drops the index from 2^32 - 1 to 0
— a decrease. -/
theorem decision_count_ce :
    (PSReachable Nat Int Unit
      (PartialSolution.backtrack
        (PartialSolution.empty : PartialSolution Nat Int) 1) ∧
     (PartialSolution.backtrack
        (PartialSolution.empty : PartialSolution Nat Int) 1).current_decision_level ≠
      decisionCount (PartialSolution.backtrack
        (PartialSolution.empty : PartialSolution Nat Int) 1)) ∧
    (∃ ps ps' : PartialSolution Nat Int,
      PSReachableOk Nat Int Unit ps ∧ PSStep Nat Int Unit ps ps' ∧
      ps'.next_global_index < ps.next_global_index) := by
  refine ⟨⟨PSReachable.step PSReachable.init (PSStep.backtrack _ 1),
    by decide⟩, ?_⟩
  obtain ⟨ps, hr, hngi, pa, hpa, hnd⟩ := reach_ngi_wrap (4294967296 - 2)
  obtain ⟨ps', heq, hngi', -⟩ := derivation_step_exists ps pa hpa hnd
  refine ⟨ps, ps', hr, PSStep.derivation _ 0 0 _ _ heq, ?_⟩
  rw [hngi', hngi]
  decide

/-- C5 (amended): in every partial-solution state reachable from the
empty state by successful `add_decision` / `add_derivation` calls and
solver-style `backtrack` calls (target level at most the current one),
`current_decision_level` equals the number of package entries whose
assignment is a `Decision`; and `next_global_index` — a `uint32_t`
counter — does not decrease across any further operation, including a
`backtrack` to an arbitrary level, as long as the increment does not
wrap at 2^32 (at the wrap it drops to 0, see the counterexample). -/
theorem decision_count_and_index_monotone (ps ps' : PartialSolution P V)
    (hreach : PSReachableOk P V M ps) (hstep : PSStep P V M ps ps') :
    ps.current_decision_level = decisionCount ps ∧
    (ps.next_global_index + 1 < 4294967296 →
      ps.next_global_index ≤ ps'.next_global_index) := by
  refine ⟨(decisionCount_eq_of_inv ps (PSReachableOk_inv ps hreach)).symm, ?_⟩
  intro hlt
  rcases PSStep_ngi_step ps ps' hstep with h | h
  · rw [h]
  · rw [h, Nat.mod_eq_of_lt hlt]
    exact Nat.le_succ _

/-- Witness for C5: the empty partial solution is reachable, its level
matches its decision count, and a backtrack step keeps the (non-wrapping)
global index. -/
theorem decision_count_and_index_monotone_witness :
    (PartialSolution.empty : PartialSolution Nat Int).current_decision_level =
      decisionCount (PartialSolution.empty : PartialSolution Nat Int) ∧
    (PartialSolution.empty : PartialSolution Nat Int).next_global_index ≤
      (PartialSolution.backtrack
        (PartialSolution.empty : PartialSolution Nat Int) 0).next_global_index := by
  have H := decision_count_and_index_monotone (M := Unit)
    (PartialSolution.empty : PartialSolution Nat Int) _
    PSReachableOk.init (PSStep.backtrack _ 0)
  exact ⟨H.1, H.2 (by decide)⟩

end DecisionLevelClaim

/-! ## Claim C4: satisfier search and the previous satisfier level -/

section SatisfierSearchClaim

variable {P V M : Type} [DecidableEq P] [LinearOrder V]

theorem foldl_max_init (l : List Nat) :
    ∀ a : Nat, l.foldl max a = max a (l.foldl max 0) := by
  induction l with
  | nil => intro a; simp
  | cons b rest ih =>
      intro a
      rw [List.foldl_cons, List.foldl_cons, ih (max a b), ih (max 0 b),
        Nat.zero_max, Nat.max_assoc]

theorem clamp_foldl_max (l : List Nat) :
    (if l.foldl max 0 < 1 then 1 else l.foldl max 0) = l.foldr max 1 := by
  have key : ∀ l : List Nat, max 1 (l.foldl max 0) = l.foldr max 1 := by
    intro l
    induction l with
    | nil => simp
    | cons b rest ih =>
        rw [List.foldl_cons, List.foldr_cons, foldl_max_init, Nat.zero_max,
          ← ih, ← Nat.max_assoc, ← Nat.max_assoc, Nat.max_comm 1 b]
  rw [← key]
  rcases Nat.lt_or_ge (l.foldl max 0) 1 with hlt | hge
  · rw [if_pos hlt]
    have hz : l.foldl max 0 = 0 := by omega
    rw [hz]
    simp
  · rw [if_neg (Nat.not_lt.mpr hge)]
    exact (Nat.max_eq_right hge).symm

theorem find_previous_satisfier_level (ps : PartialSolution P V)
    (incompat : Incompat P V M) (pkg : P) (m : SmallMap P SatInfo)
    (store : List (Incompat P V M)) (prev : Nat × SmallMap P SatInfo)
    (h : PartialSolution.find_previous_satisfier ps incompat pkg m store =
      some prev) :
    prev.1 = specPrevLevel prev.2 := by
  unfold PartialSolution.find_previous_satisfier at h
  cases h1 : ps.findPA pkg with
  | none => rw [h1] at h; exact Option.noConfusion h
  | some pa =>
      rw [h1] at h
      simp only [] at h
      cases h2 : m.get pkg with
      | none => rw [h2] at h; exact Option.noConfusion h
      | some info =>
          rw [h2] at h
          simp only [] at h
          cases h3 : (match info.1 with
            | some cause =>
                match store[cause]? with
                | none => none
                | some c =>
                    match c.get pkg with
                    | none => none
                    | some t => some t.negate
            | none =>
                match pa.assignments_intersection with
                | .Decision _ _ => some pa.assignments_intersection.term_ref
                | .Derivations _ => none) with
          | none => rw [h3] at h; exact Option.noConfusion h
          | some accum =>
              rw [h3] at h
              simp only [] at h
              cases h4 : incompat.get pkg with
              | none => rw [h4] at h; exact Option.noConfusion h
              | some it =>
                  rw [h4] at h
                  simp only [] at h
                  cases h5 : pa.satisfier (accum.intersection it.negate) with
                  | none => rw [h5] at h; exact Option.noConfusion h
                  | some info2 =>
                      rw [h5] at h
                      simp only [] at h
                      have hp := (Option.some.inj h).symm
                      rw [hp]
                      exact clamp_foldl_max _

/-- C4 (amended): when `find_satisfier` and `find_previous_satisfier`
both succeed, the previous satisfier level handed back is exactly the
maximum decision level over the re-searched satisfier map clamped below
at 1; the search returns `SameDecisionLevels` with the satisfier's cause
precisely when that level is at least the satisfier's decision level
*and* the satisfier actually has a cause (is a derivation), and returns
`DifferentDecisionLevels` with the previous level when the previous
level is smaller. -/
theorem satisfier_search_characterization [Inhabited P]
    (ps : PartialSolution P V) (incompat : Incompat P V M)
    (store : List (Incompat P V M)) (m : SmallMap P SatInfo)
    (prev : Nat × SmallMap P SatInfo)
    (hm : ps.find_satisfier incompat = some m)
    (hprev : PartialSolution.find_previous_satisfier ps incompat
      (PartialSolution.pickLoop m.toList (default, (none, 0, 0)) 0).1 m
      store = some prev) :
    prev.1 = specPrevLevel prev.2 ∧
    ((PartialSolution.pickLoop m.toList (default, (none, 0, 0)) 0).2.2.2 ≤
        prev.1 →
      ∀ cause,
        (PartialSolution.pickLoop m.toList (default, (none, 0, 0)) 0).2.1 =
          some cause →
        ps.satisfier_search incompat store =
          some ((PartialSolution.pickLoop m.toList
              (default, (none, 0, 0)) 0).1,
            SatisfierSearch.SameDecisionLevels cause)) ∧
    (prev.1 <
        (PartialSolution.pickLoop m.toList (default, (none, 0, 0)) 0).2.2.2 →
      ps.satisfier_search incompat store =
        some ((PartialSolution.pickLoop m.toList
            (default, (none, 0, 0)) 0).1,
          SatisfierSearch.DifferentDecisionLevels prev.1)) := by
  refine ⟨find_previous_satisfier_level ps incompat _ m store prev hprev,
    ?_, ?_⟩
  · intro hle cause hc
    unfold PartialSolution.satisfier_search
    rw [hm]
    simp only [] 
    rw [hprev]
    simp only []
    rw [if_pos hle, hc]
  · intro hlt
    unfold PartialSolution.satisfier_search
    rw [hm]
    simp only []
    rw [hprev]
    simp only []
    rw [if_neg (Nat.not_le.mpr hlt)]

end SatisfierSearchClaim

section SatisfierSearchExamples

/-- Counterexample to C4 as stated: the incompatibility {p0 : exact 5} is
satisfied by a solution whose only assignment is the decision p0 = 5 at
level 1; the previous satisfier level computes to 1, equal to the
satisfier's decision level, so the claim requires `SameDecisionLevels` —
but the satisfier is a decision with no cause, and `satisfier_search`
dereferences the empty cause optional (modelled by `none`) instead of
returning a result. -/
theorem satisfier_search_ce :
    (⟨SmallMap.m1 ((0 : Nat), Term.exact (5 : Int)),
      IncompKind.NotRoot 0 5⟩ : Incompat Nat Int Unit).relation
      (fun p => PartialSolution.term_intersection_for_package
        (⟨1, 1, false, [((0 : Nat),
        ⟨AssignmentsIntersection.Decision 0 (5 : Int), [], 1, 1⟩)], []⟩ :
      PartialSolution Nat Int) p) = IncompRel.Satisfied ∧
    PartialSolution.find_satisfier
      (⟨1, 1, false, [((0 : Nat),
        ⟨AssignmentsIntersection.Decision 0 (5 : Int), [], 1, 1⟩)], []⟩ :
      PartialSolution Nat Int)
      (⟨SmallMap.m1 ((0 : Nat), Term.exact (5 : Int)),
      IncompKind.NotRoot 0 5⟩ : Incompat Nat Int Unit) =
      some (SmallMap.m1 ((0 : Nat), ((none : Option Nat), (0 : Nat), (1 : Nat)))) ∧
    PartialSolution.find_previous_satisfier
      (⟨1, 1, false, [((0 : Nat),
        ⟨AssignmentsIntersection.Decision 0 (5 : Int), [], 1, 1⟩)], []⟩ :
      PartialSolution Nat Int)
      (⟨SmallMap.m1 ((0 : Nat), Term.exact (5 : Int)),
      IncompKind.NotRoot 0 5⟩ : Incompat Nat Int Unit) 0
      (SmallMap.m1 ((0 : Nat), ((none : Option Nat), (0 : Nat), (1 : Nat)))) [] =
      some (1, (SmallMap.m1 ((0 : Nat), ((none : Option Nat), (0 : Nat), (1 : Nat))))) ∧
    (PartialSolution.pickLoop
        (SmallMap.m1 ((0 : Nat), ((none : Option Nat), (0 : Nat), (1 : Nat)))).toList
        (default, (none, 0, 0)) 0).2.2.2 ≤ 1 ∧
    PartialSolution.satisfier_search
      (⟨1, 1, false, [((0 : Nat),
        ⟨AssignmentsIntersection.Decision 0 (5 : Int), [], 1, 1⟩)], []⟩ :
      PartialSolution Nat Int)
      (⟨SmallMap.m1 ((0 : Nat), Term.exact (5 : Int)),
      IncompKind.NotRoot 0 5⟩ : Incompat Nat Int Unit) [] = none :=
  ⟨by decide, by decide, by decide, by decide, by decide⟩

/-- Witness for C4: a satisfier that carries a cause, at decision level
1 with previous satisfier level 1, yields `SameDecisionLevels` with that
cause, and the previous level equals the clamped maximum over the
re-searched map. -/
theorem satisfier_search_characterization_witness :
    ((1 : Nat), (SmallMap.m1 ((0 : Nat), ((some 0 : Option Nat), (0 : Nat), (1 : Nat))))).1 =
      specPrevLevel ((1 : Nat), (SmallMap.m1 ((0 : Nat), ((some 0 : Option Nat), (0 : Nat), (1 : Nat))))).2 ∧
    PartialSolution.satisfier_search
      (⟨1, 1, false, [((0 : Nat),
        ⟨AssignmentsIntersection.Derivations (Term.exact (5 : Int)),
         [⟨0, 1, 0, Term.exact (5 : Int)⟩], 1, 1⟩)], []⟩ :
      PartialSolution Nat Int)
      (⟨SmallMap.m1 ((0 : Nat), Term.exact (5 : Int)),
      IncompKind.NotRoot 0 5⟩ : Incompat Nat Int Unit)
      [(⟨SmallMap.m1 ((0 : Nat), Term.exact (5 : Int)),
      IncompKind.NotRoot 0 5⟩ : Incompat Nat Int Unit)] =
      some ((PartialSolution.pickLoop
          (SmallMap.m1 ((0 : Nat), ((some 0 : Option Nat), (0 : Nat), (1 : Nat)))).toList
          (default, (none, 0, 0)) 0).1,
        SatisfierSearch.SameDecisionLevels 0) := by
  have H := satisfier_search_characterization
    (⟨1, 1, false, [((0 : Nat),
        ⟨AssignmentsIntersection.Derivations (Term.exact (5 : Int)),
         [⟨0, 1, 0, Term.exact (5 : Int)⟩], 1, 1⟩)], []⟩ :
      PartialSolution Nat Int)
    (⟨SmallMap.m1 ((0 : Nat), Term.exact (5 : Int)),
      IncompKind.NotRoot 0 5⟩ : Incompat Nat Int Unit)
    [(⟨SmallMap.m1 ((0 : Nat), Term.exact (5 : Int)),
      IncompKind.NotRoot 0 5⟩ : Incompat Nat Int Unit)]
    (SmallMap.m1 ((0 : Nat), ((some 0 : Option Nat), (0 : Nat), (1 : Nat))))
    ((1 : Nat), (SmallMap.m1 ((0 : Nat), ((some 0 : Option Nat), (0 : Nat), (1 : Nat)))))
    (by decide) (by decide)
  exact ⟨H.1, H.2.1 (by decide) 0 (by decide)⟩

end SatisfierSearchExamples


/-! ## Claim C9: out-of-range version choice aborts `resolve` -/

section ResolveFatal

/-- C9: if in an iteration of `resolve`'s driver loop unit propagation
succeeds, `pick_highest_priority_pkg` picks package `p` with range
`range`, and the provider's `choose_version` (a virtual method, here an
arbitrary function) answers a version `v` with `range.contains v` false,
then the loop raises the fatal `std::logic_error` immediately: the
outcome is `fatal`, carrying the state exactly as it stands at the check
(the partial solution as the pick left it, the incompatibility store
untouched — nothing is added, there is no local recovery), and in
particular no assignment is returned, `fatal` being a different
constructor from `ok`. -/
theorem resolve_fatal_on_out_of_range {PP V M Priority : Type}
    [DecidableEq PP] [DecidableEq V] [LinearOrder V] [LinearOrder Priority]
    [DecidableEq Priority] (provider : DependencyProviderOps PP V Priority)
    (fuel : Nat) (st st₁ : State PP V M Priority)
    (tracker tracker₁ : List (Nat × PackageResolutionStatistics))
    (added : List (Nat × List V)) (next p : Nat) (range : Ranges V)
    (v : V) (causes : List (Nat × Nat)) (next_pp : PP)
    (psq : PartialSolutionPQ Nat V Priority)
    (hup : State.unit_propagation (fuel + 1) st next = some (st₁, causes))
    (hstats : upStatsLoop st₁.incompatibility_store causes tracker =
      some tracker₁)
    (hpick : st₁.partial_solution.pick_highest_priority_pkg
        (fun q r => (st₁.package_store.get q).map
          (fun pp => provider.prioritize pp r (trackerGet tracker₁ q))) =
      some (some (p, range), psq))
    (hpp : st₁.package_store.get p = some next_pp)
    (hver : provider.choose_version next_pp range = some v)
    (hcont : range.contains v = false) :
    resolveLoop provider (fuel + 1) st tracker added next =
      ResolveResult.fatal { st₁ with partial_solution := psq } p v range := by
  unfold resolveLoop
  rw [hup]
  simp only []
  rw [hstats]
  simp only []
  rw [hpick]
  simp only []
  rw [hpp]
  simp only []
  rw [hver]
  simp only []
  simp [hcont]

/-- Witness for C9: on the freshly initialised root state, a provider
whose `choose_version` answers 5 for the picked singleton range {1}
drives the loop to the fatal outcome on the first iteration. -/
theorem resolve_fatal_on_out_of_range_witness :
    resolveLoop
      (⟨fun _ _ _ => 0, fun _ _ => some 5, fun _ _ => some []⟩ :
        DependencyProviderOps Nat Int Nat)
      4 (State.init 0 1 : State Nat Int Unit Nat) [] [] 0 =
      ResolveResult.fatal
        { (State.init 0 1 : State Nat Int Unit Nat) with
            contradicted_incompatibilities := [(0, 0)]
            partial_solution := ⟨⟨1, 0, false,
              [((0 : Nat), ⟨AssignmentsIntersection.Derivations
                  (Term.Positive (Ranges.singleton (1 : Int))),
                [⟨0, 0, 0, Term.Positive (Ranges.singleton (1 : Int))⟩],
                0, 0⟩)],
              []⟩, []⟩ }
        0 5 (Ranges.singleton 1) :=
  resolve_fatal_on_out_of_range
    (⟨fun _ _ _ => 0, fun _ _ => some 5, fun _ _ => some []⟩ :
      DependencyProviderOps Nat Int Nat)
    3 (State.init 0 1) 
    { (State.init 0 1 : State Nat Int Unit Nat) with
        contradicted_incompatibilities := [(0, 0)]
        partial_solution := ⟨⟨1, 0, false,
          [((0 : Nat), ⟨AssignmentsIntersection.Derivations
              (Term.Positive (Ranges.singleton (1 : Int))),
            [⟨0, 0, 0, Term.Positive (Ranges.singleton (1 : Int))⟩],
            0, 0⟩)],
          [0]⟩, []⟩ }
    [] [] [] 0 0 (Ranges.singleton 1) 5 [] 0
    ⟨⟨1, 0, false,
      [((0 : Nat), ⟨AssignmentsIntersection.Derivations
          (Term.Positive (Ranges.singleton (1 : Int))),
        [⟨0, 0, 0, Term.Positive (Ranges.singleton (1 : Int))⟩],
        0, 0⟩)],
      []⟩, []⟩
    (by decide) (by decide) (by decide) (by decide) rfl (by decide)

end ResolveFatal
